import Mathlib

/-!
# RGB to HA conversion process: embedding and verified properties

A shallow embedding of `RGBToHAProcess` (src/RGBToHAProcess.cpp).

Conventions of the embedding:
* a `double` sample is an exact rational number (`ℚ`), and the arithmetic of the
  definitions named after the source is exact; the definitions with the suffix
  `Rounded` are the same statements with every floating-point operation
  rounded by a parameter `fl`, for which `roundDouble` is binary64 rounding
  (overflow and underflow are not modelled);
* division is the total division of `ℚ` (`x / 0 = 0`), so a division by zero
  is not visible in a value: the definitions with the suffix `Traced` return
  the divisors of the divisions they execute;
* a C++ `int` that holds a size, a row, a column or a loop counter is a `Nat`
  (all of them are non-negative and bounded by the image extent), a signed
  offset is an `Int`;
* a C++ `throw Error( ... )` and a failed raster access are the `error` case of
  `Except Error`;
* the facilities of the host library that the process calls but does not define
  (thread count, `exp`, statistics, histogram percentile) are fields of `Host`;
* the bands of `ParallelProcess` are executed one after the other, in index
  order, and every band is run to completion.
-/

namespace RGBToHA

/-- Failures of the process: the three `throw Error` sites of `Execute`, and the
two raster access failures of the image buffer contract. -/
inductive Error where
  /-- "No image has been specified." -/
  | InvalidInput
  /-- "RGB to HA conversion requires a color image." -/
  | NotColor
  /-- "RGB to HA conversion requires at least 3 color channels." -/
  | UnsupportedFormat
  /-- Pixel access outside the raster extent. -/
  | OutOfBounds
  /-- Channel index not below the channel count. -/
  | InvalidChannel
  deriving DecidableEq, Repr

/-- Modelled from the spec: the image buffer type `ImageVariant` of the host
library is not part of the repository. A raster has a width, a height, a
channel count and one sample per channel and position; `samples c x y` is the
sample of channel `c` at column `x`, row `y`. -/
structure ImageVariant where
  valid : Bool
  color : Bool
  width : Nat
  height : Nat
  numberOfChannels : Nat
  samples : Nat → Nat → Nat → ℚ

namespace ImageVariant

/-- Default-constructed `ImageVariant`: no image. -/
def empty : ImageVariant :=
  { valid := false, color := false, width := 0, height := 0, numberOfChannels := 0,
    samples := fun _ _ _ => 0 }

/-- Modelled from the spec: `CreateFloatImage( width, height, 1 )`, a freshly
allocated single-channel raster. -/
def CreateFloatImage (width height : Nat) : ImageVariant :=
  { valid := true, color := false, width := width, height := height, numberOfChannels := 1,
    samples := fun _ _ _ => 0 }

/-- Modelled from the spec: reading `Pixel( x, y )` on the designated channel
(channel 0) fails with `OutOfBounds` when `x` or `y` is not below the
respective dimension. -/
def Pixel (img : ImageVariant) (x y : Nat) : Except Error ℚ :=
  if x < img.width ∧ y < img.height then .ok (img.samples 0 x y) else .error .OutOfBounds

/-- The raster with the sample of channel 0 at `(x, y)` replaced by `v`. -/
def write (img : ImageVariant) (x y : Nat) (v : ℚ) : ImageVariant :=
  { img with samples := fun c x' y' => if c = 0 ∧ x' = x ∧ y' = y then v else img.samples c x' y' }

/-- Modelled from the spec: the assignment `Pixel( x, y ) = v`, with the same
bounds check as a read. -/
def SetPixel (img : ImageVariant) (x y : Nat) (v : ℚ) : Except Error ImageVariant :=
  if x < img.width ∧ y < img.height then .ok (img.write x y v) else .error .OutOfBounds

/-- Modelled from the spec: `GetChannel( index, out )`, an independent
single-channel raster holding channel `index`; fails with `InvalidChannel`
when `index` is not below the channel count. -/
def GetChannel (img : ImageVariant) (index : Nat) : Except Error ImageVariant :=
  if index < img.numberOfChannels then
    .ok { valid := true, color := false, width := img.width, height := img.height,
          numberOfChannels := 1,
          samples := fun c x y => if c = 0 then img.samples index x y else 0 }
  else .error .InvalidChannel

end ImageVariant

/-- Facilities of the host library used by the process and not defined in the
repository: `Thread::NumberOfThreads()`, `exp`, `Statistics::Mean/StdDev` and
`Histogram::Percentile`. -/
structure Host where
  NumberOfThreads : Nat
  exp : ℚ → ℚ
  Mean : ImageVariant → ℚ
  StdDev : ImageVariant → ℚ
  Percentile : ImageVariant → ℚ → ℚ

/-- The expression `pcl::Max( 0.0, pcl::Min( 1.0, v ) )`. -/
def clamp01 (v : ℚ) : ℚ := max 0 (min 1 v)

/-- The loop `for ( int i = start; count-- > 0; ++i ) s = body( i, s )`,
stopping at the first failure. -/
def forLoop {σ : Type} (body : Nat → σ → Except Error σ) : Nat → Nat → σ → Except Error σ
  | _, 0, s => .ok s
  | i, n + 1, s =>
    match body i s with
    | .ok s' => forLoop body (i + 1) n s'
    | .error e => .error e

/-- The loop `for ( int i = lo; i < hi; ++i ) s = body( i, s )`. -/
def forRange {σ : Type} (lo hi : Nat) (body : Nat → σ → Except Error σ) (s : σ) :
    Except Error σ :=
  forLoop body lo (hi - lo) s

/-- First row of band `i` in `ParallelProcess`: `i * rowsPerThread`. -/
def startRow (height numThreads i : Nat) : Nat :=
  i * (height / numThreads)

/-- End row (exclusive) of band `i` in `ParallelProcess`:
`( i == numThreads - 1 ) ? data.height : ( i + 1 ) * rowsPerThread`. -/
def endRow (height numThreads i : Nat) : Nat :=
  if i = numThreads - 1 then height else (i + 1) * (height / numThreads)

/-- `ParallelProcess( data, func )`: one band per thread, `func` applied to
every band; `s` is the raster the band function writes. -/
def ParallelProcess {σ : Type} (host : Host) (height : Nat)
    (func : Nat → Nat → σ → Except Error σ) (s : σ) : Except Error σ :=
  let numThreads := host.NumberOfThreads
  forRange 0 numThreads
    (fun i s => func (startRow height numThreads i) (endRow height numThreads i) s) s

/-- The data members of `RGBToHAProcess`, with the defaults of the source. -/
structure RGBToHAProcess where
  m_conversionMethod : Int := 0
  m_enhancementStrength : ℚ := 0.5
  m_noiseReduction : ℚ := 0.3
  m_contrastBoost : ℚ := 0.4
  m_haWavelength : ℚ := 656.28
  m_adaptiveProcessing : Bool := true
  m_qualityMode : Int := 1
  m_image : ImageVariant := ImageVariant.empty

/-- The value `haValue` of the standard conversion before it is clamped:
`haRedCoeff * r + haGreenCoeff * g + haBlueCoeff * b`, then
`haValue *= ( haWavelength / 656.28 )`. -/
def standardHaValue (haWavelength r g b : ℚ) : ℚ :=
  let haRedCoeff : ℚ := 0.85
  let haGreenCoeff : ℚ := 0.10
  let haBlueCoeff : ℚ := 0.05
  let haValue := haRedCoeff * r + haGreenCoeff * g + haBlueCoeff * b
  haValue * (haWavelength / 656.28)

/-- `RGBToHAProcess::ConvertStandardRGBToHA`. -/
def ConvertStandardRGBToHA (host : Host) (p : RGBToHAProcess)
    (red green blue output : ImageVariant) : Except Error ImageVariant :=
  let width := red.width
  let height := red.height
  ParallelProcess host height
    (fun startRow endRow output =>
      forRange startRow endRow
        (fun y output =>
          forRange 0 width
            (fun x output => do
              let r ← red.Pixel x y
              let g ← green.Pixel x y
              let b ← blue.Pixel x y
              let haValue := standardHaValue p.m_haWavelength r g b
              let haValue := clamp01 haValue
              output.SetPixel x y haValue)
            output)
        output)
    output

/-- The table `spectralBands[band][k]` of `ConvertAdvancedSpectral`. -/
def spectralBands (band k : Nat) : ℚ :=
  match band, k with
  | 0, 0 => 0.90 | 0, 1 => 0.08 | 0, 2 => 0.02
  | 1, 0 => 0.75 | 1, 1 => 0.20 | 1, 2 => 0.05
  | 2, 0 => 0.60 | 2, 1 => 0.30 | 2, 2 => 0.10
  | _, _ => 0

/-- The loop `for ( int band = 0; band < 3; ++band )` of
`ConvertAdvancedSpectral`, started from `haValue = 0.0`. -/
def spectralBandSum (r g b : ℚ) : ℚ :=
  (List.range 3).foldl
    (fun haValue band =>
      let bandValue := spectralBands band 0 * r + spectralBands band 1 * g
        + spectralBands band 2 * b
      haValue + bandValue * (1.0 - (band : ℚ) * 0.3))
    0.0

/-- The value `haValue` of the spectral conversion before it is clamped. -/
def spectralHaValue (adaptiveProcessing : Bool) (r g b : ℚ) : ℚ :=
  let haValue := spectralBandSum r g b
  if adaptiveProcessing then
    let luminance := 0.299 * r + 0.587 * g + 0.114 * b
    let adaptiveFactor := 1.0 + (luminance - 0.5) * 0.5
    haValue * adaptiveFactor
  else haValue

/-- `RGBToHAProcess::ConvertAdvancedSpectral`. -/
def ConvertAdvancedSpectral (host : Host) (p : RGBToHAProcess)
    (red green blue output : ImageVariant) : Except Error ImageVariant :=
  let width := red.width
  let height := red.height
  ParallelProcess host height
    (fun startRow endRow output =>
      forRange startRow endRow
        (fun y output =>
          forRange 0 width
            (fun x output => do
              let r ← red.Pixel x y
              let g ← green.Pixel x y
              let b ← blue.Pixel x y
              let haValue := spectralHaValue p.m_adaptiveProcessing r g b
              let haValue := clamp01 haValue
              output.SetPixel x y haValue)
            output)
        output)
    output

/-- One block of the box filter of `ProcessMultiScale`: the loops over `dy` and
`dx` (both below `k`) accumulating `(sum, count)` over the samples of `highRes`
at `(x * k + dx, y * k + dy)` that pass the guard
`sx < highRes.Width() && sy < highRes.Height()`. -/
def boxAccumulate (highRes : ImageVariant) (k x y : Nat) : Except Error (ℚ × Nat) :=
  forRange 0 k
    (fun dy acc =>
      forRange 0 k
        (fun dx acc =>
          let sx := x * k + dx
          let sy := y * k + dy
          if sx < highRes.width ∧ sy < highRes.height then do
            let v ← highRes.Pixel sx sy
            pure (acc.1 + v, acc.2 + 1)
          else pure acc)
        acc)
    ((0.0 : ℚ), 0)

/-- One downsampling pass of `ProcessMultiScale`: every sample of `res` becomes
`( count > 0 ) ? sum / count : 0.0` of its `k` by `k` block. The loop bounds
`res.Height()` and `res.Width()` are those of the raster being filled, whose
extent no write changes. -/
def downsample (highRes : ImageVariant) (k : Nat) (res : ImageVariant) :
    Except Error ImageVariant :=
  forRange 0 res.height
    (fun y out =>
      forRange 0 res.width
        (fun x out => do
          let acc ← boxAccumulate highRes k x y
          out.SetPixel x y (if acc.2 > 0 then acc.1 / (acc.2 : ℚ) else 0.0))
        out)
    res

/-- `RGBToHAProcess::ProcessMultiScale`; returns `(lowRes, midRes, highRes)`. -/
def ProcessMultiScale (host : Host) (p : RGBToHAProcess)
    (red green blue lowRes midRes highRes : ImageVariant) :
    Except Error (ImageVariant × ImageVariant × ImageVariant) := do
  let highRes ← ConvertStandardRGBToHA host p red green blue highRes
  let midRes ← downsample highRes 2 midRes
  let lowRes ← downsample highRes 4 lowRes
  pure (lowRes, midRes, highRes)

/-- The per-pixel body of the recombination loop of
`ConvertAdaptiveMultiScale`. -/
def combineScales (lowRes midRes highRes : ImageVariant) (x y : Nat) : Except Error ℚ := do
  let haValue : ℚ := 0.0
  let h ← highRes.Pixel x y
  let haValue := haValue + 0.6 * h
  let haValue ←
    if x / 2 < midRes.width ∧ y / 2 < midRes.height then do
      let m ← midRes.Pixel (x / 2) (y / 2)
      pure (haValue + 0.3 * m)
    else pure haValue
  let haValue ←
    if x / 4 < lowRes.width ∧ y / 4 < lowRes.height then do
      let l ← lowRes.Pixel (x / 4) (y / 4)
      pure (haValue + 0.1 * l)
    else pure haValue
  pure (clamp01 haValue)

/-- `RGBToHAProcess::ConvertAdaptiveMultiScale`. -/
def ConvertAdaptiveMultiScale (host : Host) (p : RGBToHAProcess)
    (red green blue output : ImageVariant) : Except Error ImageVariant := do
  let width := red.width
  let height := red.height
  let lowRes := ImageVariant.CreateFloatImage (width / 4) (height / 4)
  let midRes := ImageVariant.CreateFloatImage (width / 2) (height / 2)
  let highRes := ImageVariant.CreateFloatImage width height
  let (lowRes, midRes, highRes) ← ProcessMultiScale host p red green blue lowRes midRes highRes
  ParallelProcess host height
    (fun startRow endRow output =>
      forRange startRow endRow
        (fun y output =>
          forRange 0 width
            (fun x output => do
              let haValue ← combineScales lowRes midRes highRes x y
              output.SetPixel x y haValue)
            output)
        output)
    output

/-- The table `weights[layer][k]` of `ConvertNeuralApproximation`. -/
def weights (layer k : Nat) : ℚ :=
  match layer, k with
  | 0, 0 => 0.85 | 0, 1 => 0.10 | 0, 2 => 0.05 | 0, 3 => 0.02 | 0, 4 => 0.01
  | 1, 0 => 0.70 | 1, 1 => 0.20 | 1, 2 => 0.08 | 1, 3 => 0.01 | 1, 4 => 0.01
  | 2, 0 => 0.60 | 2, 1 => 0.25 | 2, 2 => 0.12 | 2, 3 => 0.02 | 2, 4 => 0.01
  | _, _ => 0

/-- The loop `for ( int layer = 0; layer < 3; ++layer )` of
`ConvertNeuralApproximation`, started from `haValue = 0.0`. -/
def neuralHaValue (host : Host) (r g b : ℚ) : ℚ :=
  (List.range 3).foldl
    (fun haValue layer =>
      let layerOutput := weights layer 0 * r + weights layer 1 * g + weights layer 2 * b
        + weights layer 3 * (r * g) + weights layer 4 * (r * b)
      let layerOutput := 1.0 / (1.0 + host.exp (-layerOutput))
      haValue + layerOutput * (1.0 - (layer : ℚ) * 0.2))
    0.0

/-- `RGBToHAProcess::ConvertNeuralApproximation`. -/
def ConvertNeuralApproximation (host : Host) (_p : RGBToHAProcess)
    (red green blue output : ImageVariant) : Except Error ImageVariant :=
  let width := red.width
  let height := red.height
  ParallelProcess host height
    (fun startRow endRow output =>
      forRange startRow endRow
        (fun y output =>
          forRange 0 width
            (fun x output => do
              let r ← red.Pixel x y
              let g ← green.Pixel x y
              let b ← blue.Pixel x y
              let haValue := neuralHaValue host r g b
              let haValue := clamp01 haValue
              output.SetPixel x y haValue)
            output)
        output)
    output

/-- The per-pixel body of `ApplyEnhancements`: reads the raster being written
(in place), returns the clamped value to store at `(x, y)`. The division by
`stdDev` is the total division of `ℚ`: with `stdDev = 0` the value differs from
the one of the source, and `enhancePixelTraced` records the divisor. -/
def enhancePixel (mean stdDev enhancementStrength : ℚ) (width height : Nat)
    (output : ImageVariant) (x y : Nat) : Except Error ℚ := do
  let pixel ← output.Pixel x y
  let pixel :=
    if pixel > mean then
      let enhancement := (pixel - mean) / stdDev
      pixel + enhancement * enhancementStrength * 0.1
    else pixel
  let pixel ←
    if x > 0 ∧ x < width - 1 ∧ y > 0 ∧ y < height - 1 then do
      let a ← output.Pixel (x - 1) y
      let b ← output.Pixel (x + 1) y
      let c ← output.Pixel x (y - 1)
      let d ← output.Pixel x (y + 1)
      let localMean := (a + b + c + d) / 4.0
      let localContrast := pixel - localMean
      pure (pixel + localContrast * enhancementStrength * 0.2)
    else pure pixel
  pure (clamp01 pixel)

/-- `RGBToHAProcess::ApplyEnhancements`. -/
def ApplyEnhancements (host : Host) (p : RGBToHAProcess) (image : ImageVariant) :
    Except Error ImageVariant :=
  let width := image.width
  let height := image.height
  let mean := host.Mean image
  let stdDev := host.StdDev image
  ParallelProcess host height
    (fun startRow endRow output =>
      forRange startRow endRow
        (fun y output =>
          forRange 0 width
            (fun x output => do
              let pixel ← enhancePixel mean stdDev p.m_enhancementStrength width height output x y
              output.SetPixel x y pixel)
            output)
        output)
    image

/-- The loops over `dy` and `dx` (from `-radius` to `radius`, `radius = 3`) of
the first pass of `ApplyNoiseReduction`, accumulating
`(weightedSum, weightSum)` for the pixel `(x, y)`. -/
def bilateralAccumulate (host : Host) (sigmaSpace sigmaColor : ℚ) (width height : Nat)
    (output : ImageVariant) (x y : Nat) (centerPixel : ℚ) : Except Error (ℚ × ℚ) :=
  let radius : Nat := 3
  forRange 0 (2 * radius + 1)
    (fun i acc =>
      let dy : Int := (i : Int) - radius
      forRange 0 (2 * radius + 1)
        (fun j acc =>
          let dx : Int := (j : Int) - radius
          let nx : Int := (x : Int) + dx
          let ny : Int := (y : Int) + dy
          if nx ≥ 0 ∧ nx < width ∧ ny ≥ 0 ∧ ny < height then do
            let neighborPixel ← output.Pixel nx.toNat ny.toNat
            let spatialWeight :=
              host.exp (((-(dx * dx + dy * dy) : Int) : ℚ) / (2 * sigmaSpace * sigmaSpace))
            let colorWeight :=
              host.exp (-(centerPixel - neighborPixel) * (centerPixel - neighborPixel)
                / (2 * sigmaColor * sigmaColor))
            let weight := spatialWeight * colorWeight
            pure (acc.1 + neighborPixel * weight, acc.2 + weight)
          else pure acc)
        acc)
    ((0.0 : ℚ), (0.0 : ℚ))

/-- `RGBToHAProcess::ApplyNoiseReduction`: the bilateral pass into `tempImage`,
then the blend back into `image`. -/
def ApplyNoiseReduction (host : Host) (p : RGBToHAProcess) (image : ImageVariant) :
    Except Error ImageVariant := do
  let width := image.width
  let height := image.height
  let tempImage := ImageVariant.CreateFloatImage width height
  let sigmaSpace : ℚ := 2.0
  let sigmaColor : ℚ := 0.1
  let tempImage ← ParallelProcess host height
    (fun startRow endRow tempImage =>
      forRange startRow endRow
        (fun y tempImage =>
          forRange 0 width
            (fun x tempImage => do
              let centerPixel ← image.Pixel x y
              let acc ← bilateralAccumulate host sigmaSpace sigmaColor width height image x y
                centerPixel
              tempImage.SetPixel x y (if acc.2 > 0 then acc.1 / acc.2 else centerPixel))
            tempImage)
        tempImage)
    tempImage
  ParallelProcess host height
    (fun startRow endRow output =>
      forRange startRow endRow
        (fun y output =>
          forRange 0 width
            (fun x output => do
              let original ← output.Pixel x y
              let filtered ← tempImage.Pixel x y
              output.SetPixel x y
                (original * (1.0 - p.m_noiseReduction) + filtered * p.m_noiseReduction))
            output)
        output)
    image

/-- The per-sample map of `ApplyContrastBoost`. -/
def boostPixel (p5 range contrastBoost pixel : ℚ) : ℚ :=
  let stretched := (pixel - p5) / range
  let stretched := clamp01 stretched
  let boosted := stretched * (1.0 + contrastBoost)
  clamp01 boosted

/-- `RGBToHAProcess::ApplyContrastBoost`. -/
def ApplyContrastBoost (host : Host) (p : RGBToHAProcess) (image : ImageVariant) :
    Except Error ImageVariant :=
  let width := image.width
  let height := image.height
  let p5 := host.Percentile image 5.0
  let p95 := host.Percentile image 95.0
  let range := p95 - p5
  if range > 0 then
    ParallelProcess host height
      (fun startRow endRow output =>
        forRange startRow endRow
          (fun y output =>
            forRange 0 width
              (fun x output => do
                let pixel ← output.Pixel x y
                output.SetPixel x y (boostPixel p5 range p.m_contrastBoost pixel))
              output)
          output)
      image
  else .ok image

/-- The `switch ( m_conversionMethod )` of `Execute`. -/
def convert (host : Host) (p : RGBToHAProcess) (red green blue output : ImageVariant) :
    Except Error ImageVariant :=
  if p.m_conversionMethod = 0 then ConvertStandardRGBToHA host p red green blue output
  else if p.m_conversionMethod = 1 then ConvertAdvancedSpectral host p red green blue output
  else if p.m_conversionMethod = 2 then ConvertAdaptiveMultiScale host p red green blue output
  else if p.m_conversionMethod = 3 then ConvertNeuralApproximation host p red green blue output
  else ConvertStandardRGBToHA host p red green blue output

/-- The post-processing part of `Execute`: each stage runs when its strength is
greater than `0.0`. -/
def postProcess (host : Host) (p : RGBToHAProcess) (outputImage : ImageVariant) :
    Except Error ImageVariant := do
  let outputImage ←
    if p.m_enhancementStrength > 0.0 then ApplyEnhancements host p outputImage
    else pure outputImage
  let outputImage ←
    if p.m_noiseReduction > 0.0 then ApplyNoiseReduction host p outputImage
    else pure outputImage
  if p.m_contrastBoost > 0.0 then ApplyContrastBoost host p outputImage
  else pure outputImage

/-- `RGBToHAProcess::Execute`: on success the process holds the output image
in `m_image`. -/
def Execute (host : Host) (p : RGBToHAProcess) : Except Error RGBToHAProcess :=
  if ¬ p.m_image.valid then .error .InvalidInput
  else if ¬ p.m_image.color then .error .NotColor
  else
    let width := p.m_image.width
    let height := p.m_image.height
    let numberOfChannels := p.m_image.numberOfChannels
    if numberOfChannels < 3 then .error .UnsupportedFormat
    else do
      let outputImage := ImageVariant.CreateFloatImage width height
      let redChannel ← p.m_image.GetChannel 0
      let greenChannel ← p.m_image.GetChannel 1
      let blueChannel ← p.m_image.GetChannel 2
      let outputImage ← convert host p redChannel greenChannel blueChannel outputImage
      let outputImage ← postProcess host p outputImage
      pure { p with m_image := outputImage }

/-- The trace of `ParallelProcess`: the band function appends the band
`(startRow, endRow)` it is called with, so the result is the list of bands
handed to the workers, in launch order. -/
def recordedBands (host : Host) (height : Nat) : Except Error (List (Nat × Nat)) :=
  ParallelProcess host height (fun startRow endRow l => .ok (l ++ [(startRow, endRow)])) []

/-- A host with `n` worker threads, for instantiating results at concrete
inputs; the numeric facilities are constant functions. -/
def hostWith (n : Nat) : Host :=
  { NumberOfThreads := n, exp := fun _ => 1, Mean := fun _ => 0, StdDev := fun _ => 1,
    Percentile := fun _ _ => 0 }

/-- A single-channel raster of the given extent with every sample equal to `v`. -/
def constantRaster (width height : Nat) (v : ℚ) : ImageVariant :=
  { valid := true, color := false, width := width, height := height, numberOfChannels := 1,
    samples := fun _ _ _ => v }

/-- A three-channel colour image given by its three channel functions. -/
def rgbImage (width height : Nat) (r g b : Nat → Nat → ℚ) : ImageVariant :=
  { valid := true, color := true, width := width, height := height, numberOfChannels := 3,
    samples := fun c x y => if c = 0 then r x y else if c = 1 then g x y else b x y }

/-- Following the spec's words: those samples `high[k x + dx, k y + dy]`,
`dx < k`, of row `dy` of the block that lie inside the extent of `high`. -/
def rowSamples (high : ImageVariant) (k x y dy : Nat) : List ℚ :=
  ((List.range k).filter
      (fun dx => decide (x * k + dx < high.width ∧ y * k + dy < high.height))).map
    (fun dx => high.samples 0 (x * k + dx) (y * k + dy))

/-- Following the spec's words: those samples `high[k x + dx, k y + dy]`,
`dx, dy < k`, that lie inside the extent of `high`. -/
def blockSamples (high : ImageVariant) (k x y : Nat) : List ℚ :=
  (List.range k).flatMap (fun dy => rowSamples high k x y dy)

/-- Following the spec's words: the arithmetic mean of the in-extent samples of
a block; the divisor is the number of in-extent samples. -/
def blockMean (high : ImageVariant) (k x y : Nat) : ℚ :=
  (blockSamples high k x y).sum / ((blockSamples high k x y).length : ℚ)

/-- Specification predicate: raster `o'` is raster `o` with every sample of
channel 0 at a position `(x, y)` of region `R` replaced by a value satisfying
`Q x y`, and nothing else changed. -/
def WrittenOn (R : Nat → Nat → Prop) (Q : Nat → Nat → ℚ → Prop) (o o' : ImageVariant) : Prop :=
  o'.valid = o.valid ∧ o'.color = o.color ∧ o'.width = o.width ∧ o'.height = o.height ∧
  o'.numberOfChannels = o.numberOfChannels ∧
  (∀ x y, R x y → Q x y (o'.samples 0 x y)) ∧
  (∀ c x y, ¬ (c = 0 ∧ R x y) → o'.samples c x y = o.samples c x y)

/-- Every sample of channel 0 inside the extent of the raster lies in `[0, 1]`. -/
def InUnit (img : ImageVariant) : Prop :=
  ∀ x y, x < img.width → y < img.height → 0 ≤ img.samples 0 x y ∧ img.samples 0 x y ≤ 1

/-- Following the spec's words: a post-processing stage is skipped entirely when
its strength parameter is exactly `0.0`, and applied otherwise. -/
def specStage (strength : ℚ) (stage : ImageVariant → Except Error ImageVariant)
    (image : ImageVariant) : Except Error ImageVariant :=
  if strength = 0.0 then .ok image else stage image

/-- Following the spec's words: the conversion result is passed through
Enhancement, then Noise Reduction, then Contrast Boost, in that fixed order. -/
def specPipeline (host : Host) (p : RGBToHAProcess) (converted : ImageVariant) :
    Except Error ImageVariant :=
  (specStage p.m_enhancementStrength (ApplyEnhancements host p) converted).bind
    (fun enhanced => (specStage p.m_noiseReduction (ApplyNoiseReduction host p) enhanced).bind
      (fun denoised => specStage p.m_contrastBoost (ApplyContrastBoost host p) denoised))

/-- Modelled from the spec: the error kinds of the error handling design. The
source raises every failure as an `Error` with a message and has no kinds. -/
inductive ErrorKind where
  | InvalidInput
  | UnsupportedFormat
  | OutOfBounds
  | InvalidChannel
  | WorkerFailure
  deriving DecidableEq, Repr

/-- Modelled from the spec: the kind of each failure. A missing image is
`InvalidInput`; the two format rejections of `Execute` (not a colour image,
fewer than three channels) are `UnsupportedFormat`. -/
def Error.kind : Error → ErrorKind
  | .InvalidInput => .InvalidInput
  | .NotColor => .UnsupportedFormat
  | .UnsupportedFormat => .UnsupportedFormat
  | .OutOfBounds => .OutOfBounds
  | .InvalidChannel => .InvalidChannel

/-- A process with the default parameters holding a 3 x 3 colour image. -/
def exampleProcess : RGBToHAProcess :=
  { m_image := rgbImage 3 3 (fun _ _ => 0.5) (fun _ _ => 0.25) (fun _ _ => 0.75) }

/-- A single-channel grayscale image (not a colour image). -/
def grayImage (width height : Nat) (v : Nat → Nat → ℚ) : ImageVariant :=
  { valid := true, color := false, width := width, height := height, numberOfChannels := 1,
    samples := fun _ x y => v x y }

/-- The parameter record `ProcessParameters`, with the defaults of the source. -/
structure ProcessParameters where
  conversionMethod : Int := 0
  enhancementStrength : ℚ := 0.5
  noiseReduction : ℚ := 0.3
  contrastBoost : ℚ := 0.4
  haWavelength : ℚ := 656.28
  adaptiveProcessing : Bool := true
  qualityMode : Int := 1

/-- `RGBToHAProcess::SetParameters`: every member is assigned the supplied
value. -/
def SetParameters (proc : RGBToHAProcess) (p : ProcessParameters) : RGBToHAProcess :=
  { proc with
    m_conversionMethod := p.conversionMethod,
    m_enhancementStrength := p.enhancementStrength,
    m_noiseReduction := p.noiseReduction,
    m_contrastBoost := p.contrastBoost,
    m_haWavelength := p.haWavelength,
    m_adaptiveProcessing := p.adaptiveProcessing,
    m_qualityMode := p.qualityMode }

/-- A host with `n` worker threads whose histogram reports `p5` for every
percentile up to the median and `p95` above it, whatever the raster. -/
def hostWithPercentiles (n : Nat) (p5 p95 : ℚ) : Host :=
  { NumberOfThreads := n, exp := fun _ => 1, Mean := fun _ => 0, StdDev := fun _ => 1,
    Percentile := fun _ q => if q ≤ 50 then p5 else p95 }

/-- A 3 x 1 raster with the samples `0`, `1/4`, `1`. -/
def rampRaster : ImageVariant :=
  { valid := true, color := false, width := 3, height := 1, numberOfChannels := 1,
    samples := fun _ x _ => if x = 0 then 0 else if x = 1 then 1/4 else 1 }

/-- A parameter record with `haWavelength = 700` and all post-processing
strengths `0`. -/
def wavelength700 : ProcessParameters :=
  { haWavelength := 700, enhancementStrength := 0, noiseReduction := 0, contrastBoost := 0 }

/-- Following the spec's words: the bilateral weight of a neighbour at offset
`(dx, dy)` with value `v`, for centre value `c`:
`exp(-(dx^2 + dy^2) / (2 * 2.0^2)) * exp(-(c - v)^2 / (2 * 0.1^2))`. -/
def bilateralWeight (host : Host) (c v : ℚ) (dx dy : Int) : ℚ :=
  host.exp (-((dx : ℚ) ^ 2 + (dy : ℚ) ^ 2) / (2 * 2.0 ^ 2))
    * host.exp (-(c - v) ^ 2 / (2 * 0.1 ^ 2))

/-- Following the spec's words: the pairs (value, weight) of the in-bounds
neighbours `(x + dx, y + dy)` of one row offset `dy = i - 3`, for the column
offsets `dx = j - 3`, `j < n`. -/
def bilateralRowTerms (host : Host) (image : ImageVariant) (x y : Nat) (c : ℚ) (i n : Nat) :
    List (ℚ × ℚ) :=
  ((List.range n).filter
      (fun (j : Nat) => decide ((x : Int) + ((j : Int) - 3) ≥ 0
        ∧ (x : Int) + ((j : Int) - 3) < image.width
        ∧ (y : Int) + ((i : Int) - 3) ≥ 0 ∧ (y : Int) + ((i : Int) - 3) < image.height))).map
    (fun (j : Nat) =>
      let v := image.samples 0 ((x : Int) + ((j : Int) - 3)).toNat
        ((y : Int) + ((i : Int) - 3)).toNat
      (v, bilateralWeight host c v ((j : Int) - 3) ((i : Int) - 3)))

/-- Following the spec's words: the pairs (value, weight) of all in-bounds
neighbours `(x + dx, y + dy)` with `|dx|, |dy| ≤ 3`, centre included. -/
def bilateralTerms (host : Host) (image : ImageVariant) (x y : Nat) (c : ℚ) : List (ℚ × ℚ) :=
  (List.range 7).flatMap (fun i => bilateralRowTerms host image x y c i 7)

/-- Following the spec's words: the bilateral average
`(sum of v * w) / (sum of w)` at `(x, y)`, with the centre value `c` read at
`(x, y)`. -/
def bilateralAverage (host : Host) (image : ImageVariant) (x y : Nat) : ℚ :=
  ((bilateralTerms host image x y (image.samples 0 x y)).map (fun t => t.1 * t.2)).sum
    / ((bilateralTerms host image x y (image.samples 0 x y)).map (fun t => t.2)).sum

/-- The interior test of `ApplyEnhancements`:
`x > 0 && x < width - 1 && y > 0 && y < height - 1`. -/
def isInterior (width height x y : Nat) : Bool :=
  decide (x > 0 ∧ x < width - 1 ∧ y > 0 ∧ y < height - 1)

/-- The value computed by the per-pixel body of `ApplyEnhancements` from the
value `p` read at the pixel and the mean `a` of the four neighbours (read for
interior pixels only): the variable `pixel` is first raised by the global term
when `p > mean`, then the local-contrast term is formed from the raised
`pixel`, and the result is clamped. -/
def enhanceValue (mean stdDev strength : ℚ) (interior : Bool) (p a : ℚ) : ℚ :=
  let pixel := if p > mean then p + ((p - mean) / stdDev) * strength * 0.1 else p
  let pixel := if interior then pixel + (pixel - a) * strength * 0.2 else pixel
  clamp01 pixel

/-- Following the spec's words: `clamp01(p + G + L)` with
`G = ((p - mean) / stddev) * strength * 0.1` if `p > mean` and `G = 0`
otherwise, `L = (p - a) * strength * 0.2` for interior pixels and `L = 0`
otherwise, both terms computed from the same value `p`. -/
def claimedEnhanceValue (mean stdDev strength : ℚ) (interior : Bool) (p a : ℚ) : ℚ :=
  let G := if p > mean then ((p - mean) / stdDev) * strength * 0.1 else 0
  let L := if interior then (p - a) * strength * 0.2 else 0
  clamp01 (p + G + L)

/-- Specification predicate: raster `t` is raster `image` after the Enhancement
pass has processed, in row-major order, all pixels before `(j, k)`: the
processed pixels hold the value computed from the original sample, the already
processed left and upper neighbours and the original right and lower
neighbours; the other pixels are unchanged. -/
def EnhancedBefore (mean stdDev strength : ℚ) (image t : ImageVariant) (k j : Nat) : Prop :=
  t.width = image.width ∧ t.height = image.height ∧
  (∀ x y, ¬ (x < image.width ∧ (y < k ∨ (y = k ∧ x < j))) →
    t.samples 0 x y = image.samples 0 x y) ∧
  (∀ x y, x < image.width → (y < k ∨ (y = k ∧ x < j)) →
    t.samples 0 x y = enhanceValue mean stdDev strength
      (isInterior image.width image.height x y) (image.samples 0 x y)
      ((t.samples 0 (x - 1) y + image.samples 0 (x + 1) y + t.samples 0 x (y - 1)
        + image.samples 0 x (y + 1)) / 4))

/-- Following the amended words: `clamp01(p + G + L)` with
`G = ((p - mean)/stddev)*strength*0.1` if `p > mean`, `G = 0` otherwise, and
`L = (p + G - a)*strength*0.2` on interior pixels, `L = 0` otherwise. -/
def amendedEnhanceValue (mean stdDev strength : ℚ) (interior : Bool) (p a : ℚ) : ℚ :=
  let G := if p > mean then ((p - mean) / stdDev) * strength * 0.1 else 0
  let L := if interior then (p + G - a) * strength * 0.2 else 0
  clamp01 (p + G + L)

/-- A 4 x 4 checkerboard raster: sample `1/2` where `x + y` is even, `0`
elsewhere. -/
def checkerRaster : ImageVariant :=
  { valid := true, color := false, width := 4, height := 4, numberOfChannels := 1,
    samples := fun _ x y => if (x + y) % 2 = 0 then 1/2 else 0 }

/-- A host with one worker whose statistics are those of `checkerRaster`:
mean `1/4` and population standard deviation `1/4`. -/
def checkerHost : Host :=
  { NumberOfThreads := 1, exp := fun _ => 1, Mean := fun _ => 1/4, StdDev := fun _ => 1/4,
    Percentile := fun _ _ => 0 }

/-- A process with `enhancementStrength = 1`. -/
def checkerProcess : RGBToHAProcess :=
  { m_enhancementStrength := 1 }

/-- Modelled from the spec: the samples of channel 0 inside the extent of the
raster, row by row. -/
def rasterSamples (image : ImageVariant) : List ℚ :=
  (List.range image.height).flatMap
    (fun y => (List.range image.width).map (fun x => image.samples 0 x y))

/-- Modelled from the spec: the mean of the raster, the sum of its samples
divided by their number. -/
def populationMean (image : ImageVariant) : ℚ :=
  (rasterSamples image).sum / ((rasterSamples image).length : ℚ)

/-- Modelled from the spec: the population variance of the raster, the mean of
the squared deviations from `populationMean`; the population standard deviation
is its non-negative square root. -/
def populationVariance (image : ImageVariant) : ℚ :=
  ((rasterSamples image).map (fun v => (v - populationMean image) ^ 2)).sum
    / ((rasterSamples image).length : ℚ)

/-- A host with two workers whose statistics are those of a raster with every
sample `1/2`: mean `1/2`, standard deviation `0`. -/
def flatHost : Host :=
  { NumberOfThreads := 2, exp := fun _ => 1, Mean := fun _ => 1/2, StdDev := fun _ => 0,
    Percentile := fun _ _ => 0 }

/-- The bands `[startRow i, endRow i)`, `i < numThreads`, that `ParallelProcess`
hands to its workers, in launch order (the list recorded by `recordedBands`). -/
def bands (height numThreads : Nat) : List (Nat × Nat) :=
  (List.range numThreads).map
    (fun i => (startRow height numThreads i, endRow height numThreads i))

/-- Following the spec's words: the band function run over the bands of a list,
one band after the other in the order of the list, every band to completion. -/
def runBands (func : Nat → Nat → ImageVariant → Except Error ImageVariant) :
    List (Nat × Nat) → ImageVariant → Except Error ImageVariant
  | [], s => .ok s
  | b :: bs, s =>
    match func b.1 b.2 s with
    | .ok s' => runBands func bs s'
    | .error e => .error e

/-- Specification predicate: the single band `[0, H)` run on raster `s` gives
`out`, and so does the band function run over the bands of `ParallelProcess`
for any worker count `N ≥ 1`, taken in any order. -/
def OrderIndependent (func : Nat → Nat → ImageVariant → Except Error ImageVariant)
    (H : Nat) (s out : ImageVariant) : Prop :=
  func 0 H s = .ok out ∧
  ∀ N, 1 ≤ N → ∀ bs : List (Nat × Nat), List.Perm bs (bands H N) → runBands func bs s = .ok out

/-- Two bands share no row. -/
def BandsDisjoint (a b : Nat × Nat) : Prop :=
  ∀ y, ¬ (a.1 ≤ y ∧ y < a.2 ∧ b.1 ≤ y ∧ y < b.2)

/-- The band function of `ConvertStandardRGBToHA`: the lambda handed to
`ParallelProcess`. -/
def standardBand (p : RGBToHAProcess) (red green blue : ImageVariant)
    (startRow endRow : Nat) (output : ImageVariant) : Except Error ImageVariant :=
  forRange startRow endRow
    (fun y output =>
      forRange 0 red.width
        (fun x output => do
          let r ← red.Pixel x y
          let g ← green.Pixel x y
          let b ← blue.Pixel x y
          let haValue := standardHaValue p.m_haWavelength r g b
          let haValue := clamp01 haValue
          output.SetPixel x y haValue)
        output)
    output

/-- The band function of `ConvertAdvancedSpectral`. -/
def spectralBand (p : RGBToHAProcess) (red green blue : ImageVariant)
    (startRow endRow : Nat) (output : ImageVariant) : Except Error ImageVariant :=
  forRange startRow endRow
    (fun y output =>
      forRange 0 red.width
        (fun x output => do
          let r ← red.Pixel x y
          let g ← green.Pixel x y
          let b ← blue.Pixel x y
          let haValue := spectralHaValue p.m_adaptiveProcessing r g b
          let haValue := clamp01 haValue
          output.SetPixel x y haValue)
        output)
    output

/-- The band function of the recombination pass of `ConvertAdaptiveMultiScale`. -/
def adaptiveBand (lowRes midRes highRes : ImageVariant) (width : Nat)
    (startRow endRow : Nat) (output : ImageVariant) : Except Error ImageVariant :=
  forRange startRow endRow
    (fun y output =>
      forRange 0 width
        (fun x output => do
          let haValue ← combineScales lowRes midRes highRes x y
          output.SetPixel x y haValue)
        output)
    output

/-- The band function of `ConvertNeuralApproximation`. -/
def neuralBand (host : Host) (red green blue : ImageVariant)
    (startRow endRow : Nat) (output : ImageVariant) : Except Error ImageVariant :=
  forRange startRow endRow
    (fun y output =>
      forRange 0 red.width
        (fun x output => do
          let r ← red.Pixel x y
          let g ← green.Pixel x y
          let b ← blue.Pixel x y
          let haValue := neuralHaValue host r g b
          let haValue := clamp01 haValue
          output.SetPixel x y haValue)
        output)
    output

/-- The band function of the first pass of `ApplyNoiseReduction`: the bilateral
filter of `image`, written to the temporary raster. -/
def bilateralBand (host : Host) (image : ImageVariant)
    (startRow endRow : Nat) (tempImage : ImageVariant) : Except Error ImageVariant :=
  forRange startRow endRow
    (fun y tempImage =>
      forRange 0 image.width
        (fun x tempImage => do
          let centerPixel ← image.Pixel x y
          let acc ← bilateralAccumulate host 2.0 0.1 image.width image.height image x y
            centerPixel
          tempImage.SetPixel x y (if acc.2 > 0 then acc.1 / acc.2 else centerPixel))
        tempImage)
    tempImage

/-- The band function of the second pass of `ApplyNoiseReduction`: the blend of
the raster with the temporary raster. -/
def blendBand (p : RGBToHAProcess) (tempImage : ImageVariant) (width : Nat)
    (startRow endRow : Nat) (output : ImageVariant) : Except Error ImageVariant :=
  forRange startRow endRow
    (fun y output =>
      forRange 0 width
        (fun x output => do
          let original ← output.Pixel x y
          let filtered ← tempImage.Pixel x y
          output.SetPixel x y
            (original * (1.0 - p.m_noiseReduction) + filtered * p.m_noiseReduction))
        output)
    output

/-- The band function of `ApplyContrastBoost`. -/
def boostBand (p5 range contrastBoost : ℚ) (width : Nat)
    (startRow endRow : Nat) (output : ImageVariant) : Except Error ImageVariant :=
  forRange startRow endRow
    (fun y output =>
      forRange 0 width
        (fun x output => do
          let pixel ← output.Pixel x y
          output.SetPixel x y (boostPixel p5 range contrastBoost pixel))
        output)
    output

/-- Specification predicate: `fl` rounds every number with relative error at
most `u ≤ 1/2`, leaves `1` unchanged and never rounds a number that is at least
`1` to a number below `1`. -/
def IsRounding (fl : ℚ → ℚ) (u : ℚ) : Prop :=
  0 ≤ u ∧ u ≤ 1 / 2 ∧ (∀ x, |fl x - x| ≤ u * |x|) ∧ fl 1 = 1 ∧ ∀ x, 1 ≤ x → 1 ≤ fl x

/-- The per-pixel body of `ApplyEnhancements` with its division traced: the
statements of `enhancePixel`, returning besides the value to store the divisors
of the divisions it executed, `[stdDev]` when the branch `pixel > data.mean` is
taken and `[]` otherwise. A divisor `0` in the trace marks a division by zero:
its quotient is not a finite double, and the value component, computed with the
total division of `ℚ`, is then not the value of the source. -/
def enhancePixelTraced (mean stdDev enhancementStrength : ℚ) (width height : Nat)
    (output : ImageVariant) (x y : Nat) : Except Error (ℚ × List ℚ) := do
  let pixel ← output.Pixel x y
  let raised : ℚ × List ℚ :=
    if pixel > mean then
      let enhancement := (pixel - mean) / stdDev
      (pixel + enhancement * enhancementStrength * 0.1, [stdDev])
    else (pixel, [])
  let pixel := raised.1
  let pixel ←
    if x > 0 ∧ x < width - 1 ∧ y > 0 ∧ y < height - 1 then do
      let a ← output.Pixel (x - 1) y
      let b ← output.Pixel (x + 1) y
      let c ← output.Pixel x (y - 1)
      let d ← output.Pixel x (y + 1)
      let localMean := (a + b + c + d) / 4.0
      let localContrast := pixel - localMean
      pure (pixel + localContrast * enhancementStrength * 0.2)
    else pure pixel
  pure (clamp01 pixel, raised.2)

/-- `RGBToHAProcess::ApplyEnhancements` with its divisions traced: the state of
the loops is the raster together with the divisors of all divisions executed so
far, in execution order. -/
def ApplyEnhancementsTraced (host : Host) (p : RGBToHAProcess) (image : ImageVariant) :
    Except Error (ImageVariant × List ℚ) :=
  let width := image.width
  let height := image.height
  let mean := host.Mean image
  let stdDev := host.StdDev image
  ParallelProcess host height
    (fun startRow endRow state =>
      forRange startRow endRow
        (fun y state =>
          forRange 0 width
            (fun x state => do
              let r ← enhancePixelTraced mean stdDev p.m_enhancementStrength width height
                state.1 x y
              let output ← state.1.SetPixel x y r.1
              pure (output, state.2 ++ r.2))
            state)
        state)
    (image, [])

/-- Following the claim's words: the divisors of the divisions Enhancement
executes, one `stdDev` for each sample of the raster (row by row) that is above
the mean. -/
def expectedDivisors (mean stdDev : ℚ) (samples : List ℚ) : List ℚ :=
  samples.flatMap (fun v => if v > mean then [stdDev] else [])

/-- The arithmetic of the pixel body of `ConvertStandardRGBToHA` with every
floating-point operation rounded by `fl`: the literals `0.85`, `0.10`, `0.05`
and `656.28`, the three products, the two sums, the quotient and the final
product. `haWavelength`, `r`, `g` and `b` are stored numbers and are not
rounded again. With `fl` the identity this is `standardHaValue`. -/
def standardHaValueRounded (fl : ℚ → ℚ) (haWavelength r g b : ℚ) : ℚ :=
  let haRedCoeff : ℚ := fl 0.85
  let haGreenCoeff : ℚ := fl 0.10
  let haBlueCoeff : ℚ := fl 0.05
  let haValue := fl (fl (fl (haRedCoeff * r) + fl (haGreenCoeff * g)) + fl (haBlueCoeff * b))
  fl (haValue * fl (haWavelength / fl 656.28))

/-- `RGBToHAProcess::ConvertStandardRGBToHA` with the arithmetic rounded by
`fl`; the comparisons of the clamp are exact. -/
def ConvertStandardRGBToHARounded (fl : ℚ → ℚ) (host : Host) (p : RGBToHAProcess)
    (red green blue output : ImageVariant) : Except Error ImageVariant :=
  let width := red.width
  let height := red.height
  ParallelProcess host height
    (fun startRow endRow output =>
      forRange startRow endRow
        (fun y output =>
          forRange 0 width
            (fun x output => do
              let r ← red.Pixel x y
              let g ← green.Pixel x y
              let b ← blue.Pixel x y
              let haValue := standardHaValueRounded fl p.m_haWavelength r g b
              let haValue := clamp01 haValue
              output.SetPixel x y haValue)
            output)
        output)
    output

/-- The control flow of `Execute` around its conversion and its
post-processing, which are passed as arguments: the three checks, the fresh
single-channel output, the three channel extractions, the conversion, the
post-processing, and the assignment to `m_image`. -/
def ExecuteWith
    (conversion : ImageVariant → ImageVariant → ImageVariant → ImageVariant →
      Except Error ImageVariant)
    (postProcessing : ImageVariant → Except Error ImageVariant)
    (p : RGBToHAProcess) : Except Error RGBToHAProcess :=
  if ¬ p.m_image.valid then .error .InvalidInput
  else if ¬ p.m_image.color then .error .NotColor
  else
    let width := p.m_image.width
    let height := p.m_image.height
    let numberOfChannels := p.m_image.numberOfChannels
    if numberOfChannels < 3 then .error .UnsupportedFormat
    else do
      let outputImage := ImageVariant.CreateFloatImage width height
      let redChannel ← p.m_image.GetChannel 0
      let greenChannel ← p.m_image.GetChannel 1
      let blueChannel ← p.m_image.GetChannel 2
      let outputImage ← conversion redChannel greenChannel blueChannel outputImage
      let outputImage ← postProcessing outputImage
      pure { p with m_image := outputImage }

/-- The three statements `spatialWeight`, `colorWeight` and `weight` of the
bilateral pass of `ApplyNoiseReduction` for one neighbour at offset `(dx, dy)`,
with every floating-point operation rounded by `fl` (the negations and the
conversion of the integer `-(dx*dx + dy*dy)` are exact). -/
def bilateralWeightRounded (fl : ℚ → ℚ) (host : Host) (sigmaSpace sigmaColor : ℚ)
    (centerPixel neighborPixel : ℚ) (dx dy : Int) : ℚ :=
  let spatialWeight :=
    host.exp (fl (((-(dx * dx + dy * dy) : Int) : ℚ) / fl (fl (2 * sigmaSpace) * sigmaSpace)))
  let colorWeight :=
    host.exp (fl (fl (-(fl (centerPixel - neighborPixel)) * fl (centerPixel - neighborPixel))
      / fl (fl (2 * sigmaColor) * sigmaColor)))
  fl (spatialWeight * colorWeight)

/-- The neighbourhood loops of the first pass of `ApplyNoiseReduction` with the
arithmetic rounded by `fl`, accumulating `(weightedSum, weightSum)`. -/
def bilateralAccumulateRounded (fl : ℚ → ℚ) (host : Host) (sigmaSpace sigmaColor : ℚ)
    (width height : Nat) (output : ImageVariant) (x y : Nat) (centerPixel : ℚ) :
    Except Error (ℚ × ℚ) :=
  let radius : Nat := 3
  forRange 0 (2 * radius + 1)
    (fun i acc =>
      let dy : Int := (i : Int) - radius
      forRange 0 (2 * radius + 1)
        (fun j acc =>
          let dx : Int := (j : Int) - radius
          let nx : Int := (x : Int) + dx
          let ny : Int := (y : Int) + dy
          if nx ≥ 0 ∧ nx < width ∧ ny ≥ 0 ∧ ny < height then do
            let neighborPixel ← output.Pixel nx.toNat ny.toNat
            let weight := bilateralWeightRounded fl host sigmaSpace sigmaColor centerPixel
              neighborPixel dx dy
            pure (fl (acc.1 + fl (neighborPixel * weight)), fl (acc.2 + weight))
          else pure acc)
        acc)
    ((0.0 : ℚ), (0.0 : ℚ))

/-- `RGBToHAProcess::ApplyNoiseReduction` with the arithmetic rounded by `fl`;
the comparison `weightSum > 0` is exact. -/
def ApplyNoiseReductionRounded (fl : ℚ → ℚ) (host : Host) (p : RGBToHAProcess)
    (image : ImageVariant) : Except Error ImageVariant := do
  let width := image.width
  let height := image.height
  let tempImage := ImageVariant.CreateFloatImage width height
  let sigmaSpace : ℚ := fl 2.0
  let sigmaColor : ℚ := fl 0.1
  let tempImage ← ParallelProcess host height
    (fun startRow endRow tempImage =>
      forRange startRow endRow
        (fun y tempImage =>
          forRange 0 width
            (fun x tempImage => do
              let centerPixel ← image.Pixel x y
              let acc ← bilateralAccumulateRounded fl host sigmaSpace sigmaColor width height
                image x y centerPixel
              tempImage.SetPixel x y (if acc.2 > 0 then fl (acc.1 / acc.2) else centerPixel))
            tempImage)
        tempImage)
    tempImage
  ParallelProcess host height
    (fun startRow endRow output =>
      forRange startRow endRow
        (fun y output =>
          forRange 0 width
            (fun x output => do
              let original ← output.Pixel x y
              let filtered ← tempImage.Pixel x y
              output.SetPixel x y
                (fl (fl (original * fl (1.0 - p.m_noiseReduction))
                  + fl (filtered * p.m_noiseReduction))))
            output)
        output)
    image

/-- Specification predicate: raster `o'` is raster `o` with the samples of
channel 0 at the positions of region `R` set to `F`, and nothing else changed. -/
def FilledOn (R : Nat → Nat → Prop) (F : Nat → Nat → ℚ) (o o' : ImageVariant) : Prop :=
  o'.valid = o.valid ∧ o'.color = o.color ∧ o'.width = o.width ∧ o'.height = o.height ∧
  o'.numberOfChannels = o.numberOfChannels ∧
  (∀ x y, R x y → o'.samples 0 x y = F x y) ∧
  (∀ c x y, ¬ (c = 0 ∧ R x y) → o'.samples c x y = o.samples c x y)

/-! ## Loops -/

theorem forLoop_inv {σ : Type} (body : Nat → σ → Except Error σ) (Inv : Nat → σ → Prop)
    (n : Nat) : ∀ (i : Nat) (s : σ), Inv i s →
    (∀ k t, i ≤ k → k < i + n → Inv k t → ∃ t', body k t = .ok t' ∧ Inv (k + 1) t') →
    ∃ s', forLoop body i n s = .ok s' ∧ Inv (i + n) s' := by
  induction n with
  | zero => intro i s h0 _; exact ⟨s, rfl, by simpa using h0⟩
  | succ n ih =>
    intro i s h0 hstep
    obtain ⟨t, ht, hInv⟩ := hstep i s (Nat.le_refl i) (by omega) h0
    obtain ⟨s', hs', hInv'⟩ := ih (i + 1) t hInv
      (fun k u hk hk' hu => hstep k u (by omega) (by omega) hu)
    refine ⟨s', ?_, ?_⟩
    · simp only [forLoop, ht]; exact hs'
    · have : i + (n + 1) = i + 1 + n := by omega
      rw [this]; exact hInv'

theorem forRange_inv {σ : Type} (body : Nat → σ → Except Error σ) (Inv : Nat → σ → Prop)
    (lo hi : Nat) (hle : lo ≤ hi) (s : σ) (h0 : Inv lo s)
    (hstep : ∀ k t, lo ≤ k → k < hi → Inv k t → ∃ t', body k t = .ok t' ∧ Inv (k + 1) t') :
    ∃ s', forRange lo hi body s = .ok s' ∧ Inv hi s' := by
  have h := forLoop_inv body Inv (hi - lo) lo s h0
    (fun k t hk hk' hI => hstep k t hk (by omega) hI)
  have e : lo + (hi - lo) = hi := by omega
  rw [e] at h
  exact h

/-! ## Bands of `ParallelProcess` -/

theorem startRow_le_endRow (H N i : Nat) (hi : i < N) : startRow H N i ≤ endRow H N i := by
  unfold startRow endRow
  split
  · next h =>
    calc i * (H / N) ≤ N * (H / N) := Nat.mul_le_mul_right _ (by omega)
      _ ≤ H := Nat.mul_div_le H N
  · exact Nat.mul_le_mul_right _ (by omega)

theorem endRow_le_height (H N i : Nat) (hi : i < N) : endRow H N i ≤ H := by
  unfold endRow
  split
  · exact Nat.le_refl H
  · calc (i + 1) * (H / N) ≤ N * (H / N) := Nat.mul_le_mul_right _ (by omega)
      _ ≤ H := Nat.mul_div_le H N

theorem endRow_eq_startRow_succ (H N i : Nat) (hi : i + 1 < N) :
    endRow H N i = startRow H N (i + 1) := by
  unfold endRow startRow
  rw [if_neg (by omega)]

theorem endRow_last (H N : Nat) : endRow H N (N - 1) = H := by
  unfold endRow
  rw [if_pos rfl]

theorem endRow_le_startRow (H N i j : Nat) (hij : i < j) (hj : j < N) :
    endRow H N i ≤ startRow H N j := by
  unfold endRow startRow
  rw [if_neg (by omega)]
  exact Nat.mul_le_mul_right _ (by omega)

theorem band_exists (H N y : Nat) (hN : 1 ≤ N) (hy : y < H) :
    ∃ i, i < N ∧ startRow H N i ≤ y ∧ y < endRow H N i := by
  by_cases hlast : startRow H N (N - 1) ≤ y
  · exact ⟨N - 1, by omega, hlast, by rw [endRow_last]; exact hy⟩
  · have hlt : y < (N - 1) * (H / N) := by unfold startRow at hlast; omega
    have hq : 0 < H / N := by
      rcases Nat.eq_zero_or_pos (H / N) with h0 | h0
      · rw [h0] at hlt; simp at hlt
      · exact h0
    have hi : y / (H / N) < N - 1 := (Nat.div_lt_iff_lt_mul hq).2 hlt
    refine ⟨y / (H / N), by omega, ?_, ?_⟩
    · unfold startRow; exact Nat.div_mul_le_self y (H / N)
    · unfold endRow
      rw [if_neg (by omega)]
      have h := Nat.lt_mul_div_succ y hq
      rw [Nat.mul_comm] at h
      exact h

/-! ## Rasters filled by a loop nest -/

theorem FilledOn.start (F : Nat → Nat → ℚ) (o : ImageVariant) (R : Nat → Nat → Prop)
    (hR : ∀ x y, ¬ R x y) : FilledOn R F o o :=
  ⟨rfl, rfl, rfl, rfl, rfl, fun x y h => absurd h (hR x y), fun _ _ _ _ => rfl⟩

theorem FilledOn.congr {R R' : Nat → Nat → Prop} {F : Nat → Nat → ℚ} {o s : ImageVariant}
    (h : FilledOn R F o s) (hR : ∀ x y, R' x y ↔ R x y) : FilledOn R' F o s := by
  obtain ⟨h1, h2, h3, h4, h5, h6, h7⟩ := h
  refine ⟨h1, h2, h3, h4, h5, fun x y hxy => h6 x y ((hR x y).1 hxy), fun c x y hn => h7 c x y ?_⟩
  intro hc
  exact hn ⟨hc.1, (hR x y).2 hc.2⟩

theorem FilledOn.write {R : Nat → Nat → Prop} {F : Nat → Nat → ℚ} {o s : ImageVariant}
    (h : FilledOn R F o s) (x y : Nat) :
    FilledOn (fun x' y' => R x' y' ∨ (x' = x ∧ y' = y)) F o (s.write x y (F x y)) := by
  obtain ⟨h1, h2, h3, h4, h5, h6, h7⟩ := h
  refine ⟨h1, h2, h3, h4, h5, ?_, ?_⟩
  · intro x' y' hxy
    by_cases hc : x' = x ∧ y' = y
    · simp [ImageVariant.write, hc]
    · have hR : R x' y' := by tauto
      simp only [ImageVariant.write]
      rw [if_neg (by tauto)]
      exact h6 x' y' hR
  · intro c x' y' hn
    simp only [ImageVariant.write]
    rw [if_neg (by tauto)]
    exact h7 c x' y' (by tauto)

theorem FilledOn.trans {R R' : Nat → Nat → Prop} {F : Nat → Nat → ℚ} {o s t : ImageVariant}
    (h : FilledOn R F o s) (h' : FilledOn R' F s t) :
    FilledOn (fun x y => R x y ∨ R' x y) F o t := by
  obtain ⟨h1, h2, h3, h4, h5, h6, h7⟩ := h
  obtain ⟨k1, k2, k3, k4, k5, k6, k7⟩ := h'
  refine ⟨k1.trans h1, k2.trans h2, k3.trans h3, k4.trans h4, k5.trans h5, ?_, ?_⟩
  · intro x y hxy
    by_cases hc : R' x y
    · exact k6 x y hc
    · rw [k7 0 x y (by tauto)]
      exact h6 x y (by tauto)
  · intro c x y hn
    rw [k7 c x y (by tauto)]
    exact h7 c x y (by tauto)

/-- A nest of a row loop over `[lo, hi)` and a column loop over `[0, W)` whose
body stores `F x y` at `(x, y)` fills exactly that block of the raster. -/
theorem rows_fill (body : Nat → Nat → ImageVariant → Except Error ImageVariant)
    (F : Nat → Nat → ℚ) (W lo hi w h : Nat)
    (hb : ∀ x y s, x < W → lo ≤ y → y < hi → s.width = w → s.height = h →
      body x y s = .ok (s.write x y (F x y)))
    (hle : lo ≤ hi) (s : ImageVariant) (hw : s.width = w) (hh : s.height = h) :
    ∃ s', forRange lo hi (fun y s => forRange 0 W (fun x s => body x y s) s) s = .ok s' ∧
      FilledOn (fun x y => x < W ∧ lo ≤ y ∧ y < hi) F s s' := by
  refine forRange_inv _ (fun k t => FilledOn (fun x y => x < W ∧ lo ≤ y ∧ y < k) F s t)
    lo hi hle s (FilledOn.start F s _ (by intro x y; omega)) ?_
  intro k t hk hk' hInv
  obtain ⟨u, hu, hI⟩ := forRange_inv (fun x s => body x k s)
    (fun j u => FilledOn (fun x y => (x < W ∧ lo ≤ y ∧ y < k) ∨ (x < j ∧ y = k)) F s u)
    0 W (Nat.zero_le _) t (hInv.congr (by intro x y; omega)) (by
      intro j u _ hj hI
      refine ⟨u.write j k (F j k), hb j k u hj hk hk' (hI.2.2.1.trans hw) (hI.2.2.2.1.trans hh), ?_⟩
      exact (hI.write j k).congr (by intro x y; omega))
  exact ⟨u, hu, hI.congr (by intro x y; omega)⟩

/-- When every band function fills its band with `F`, `ParallelProcess` fills
all rows below `H` with `F`, for every worker count `N ≥ 1`. -/
theorem parallel_fill (host : Host) (func : Nat → Nat → ImageVariant → Except Error ImageVariant)
    (F : Nat → Nat → ℚ) (W H w h : Nat) (hN : 1 ≤ host.NumberOfThreads)
    (hf : ∀ lo hi s, lo ≤ hi → hi ≤ H → s.width = w → s.height = h →
      ∃ s', func lo hi s = .ok s' ∧ FilledOn (fun x y => x < W ∧ lo ≤ y ∧ y < hi) F s s')
    (s : ImageVariant) (hw : s.width = w) (hh : s.height = h) :
    ∃ s', ParallelProcess host H func s = .ok s' ∧ FilledOn (fun x y => x < W ∧ y < H) F s s' := by
  unfold ParallelProcess
  obtain ⟨u, hu, hI⟩ := forRange_inv
    (fun i s => func (startRow H host.NumberOfThreads i) (endRow H host.NumberOfThreads i) s)
    (fun k t => FilledOn (fun x y => x < W ∧
      y < (if k = host.NumberOfThreads then H else startRow H host.NumberOfThreads k)) F s t)
    0 host.NumberOfThreads (Nat.zero_le _) s
    (FilledOn.start F s _ (by
      intro x y
      have h0 : ¬ 0 = host.NumberOfThreads := by omega
      rw [if_neg h0]
      simp [startRow])) (by
      intro k t _ hk hI
      have hse := startRow_le_endRow H host.NumberOfThreads k hk
      have heh := endRow_le_height H host.NumberOfThreads k hk
      obtain ⟨t', ht', hfill⟩ := hf _ _ t hse heh (hI.2.2.1.trans hw) (hI.2.2.2.1.trans hh)
      refine ⟨t', ht', (hI.trans hfill).congr ?_⟩
      intro x y
      have hkN : ¬ k = host.NumberOfThreads := by omega
      rw [if_neg hkN]
      by_cases hlast : k + 1 = host.NumberOfThreads
      · rw [if_pos hlast]
        have hk1 : k = host.NumberOfThreads - 1 := by omega
        have : endRow H host.NumberOfThreads k = H := by rw [hk1]; exact endRow_last _ _
        omega
      · rw [if_neg hlast]
        have := endRow_eq_startRow_succ H host.NumberOfThreads k (by omega)
        omega)
  refine ⟨u, hu, hI.congr ?_⟩
  intro x y
  rw [if_pos rfl]

theorem recordedBands_eq (host : Host) (H : Nat) :
    recordedBands host H = .ok ((List.range host.NumberOfThreads).map
      (fun i => (startRow H host.NumberOfThreads i, endRow H host.NumberOfThreads i))) := by
  unfold recordedBands ParallelProcess
  obtain ⟨l, hl, hInv⟩ := forRange_inv
    (fun i (l : List (Nat × Nat)) => (Except.ok (l ++ [(startRow H host.NumberOfThreads i,
      endRow H host.NumberOfThreads i)]) : Except Error (List (Nat × Nat))))
    (fun k l => l = (List.range k).map
      (fun i => (startRow H host.NumberOfThreads i, endRow H host.NumberOfThreads i)))
    0 host.NumberOfThreads (Nat.zero_le _) [] (by simp)
    (fun k t _ _ ht => ⟨_, rfl, by
      show _ = List.map _ (List.range (k + 1))
      have ht' : t = List.map (fun i => (startRow H host.NumberOfThreads i,
        endRow H host.NumberOfThreads i)) (List.range k) := ht
      rw [ht', List.range_succ, List.map_append]; rfl⟩)
  simp only [hl, hInv]

/-- C1: for every height `H` and worker count `N ≥ 1`, `ParallelProcess` hands
out exactly the bands `[startRow i, endRow i)`, `i < N`, and these bands
partition `[0, H)`: every row below `H` lies in exactly one band, no band
contains a row outside `[0, H)`, and two bands sharing a row are the same band. -/
theorem bands_partition (host : Host) (H : Nat) (hN : 1 ≤ host.NumberOfThreads) :
    recordedBands host H = .ok ((List.range host.NumberOfThreads).map
      (fun i => (startRow H host.NumberOfThreads i, endRow H host.NumberOfThreads i))) ∧
    (∀ y, y < H → ∃! i, i < host.NumberOfThreads ∧
      startRow H host.NumberOfThreads i ≤ y ∧ y < endRow H host.NumberOfThreads i) ∧
    (∀ i y, i < host.NumberOfThreads → startRow H host.NumberOfThreads i ≤ y →
      y < endRow H host.NumberOfThreads i → y < H) ∧
    (∀ i j y, i < host.NumberOfThreads → j < host.NumberOfThreads →
      startRow H host.NumberOfThreads i ≤ y → y < endRow H host.NumberOfThreads i →
      startRow H host.NumberOfThreads j ≤ y → y < endRow H host.NumberOfThreads j → i = j) := by
  have hdisj : ∀ i j y, i < host.NumberOfThreads → j < host.NumberOfThreads →
      startRow H host.NumberOfThreads i ≤ y → y < endRow H host.NumberOfThreads i →
      startRow H host.NumberOfThreads j ≤ y → y < endRow H host.NumberOfThreads j → i = j := by
    intro i j y _ hj hi1 hi2 hj1 hj2
    rcases Nat.lt_trichotomy i j with h | h | h
    · have := endRow_le_startRow H host.NumberOfThreads i j h hj
      omega
    · exact h
    · have := endRow_le_startRow H host.NumberOfThreads j i h (by assumption)
      omega
  refine ⟨recordedBands_eq host H, ?_, ?_, hdisj⟩
  · intro y hy
    obtain ⟨i, hi, h1, h2⟩ := band_exists H host.NumberOfThreads y hN hy
    exact ⟨i, ⟨hi, h1, h2⟩, fun j hj => hdisj j i y hj.1 hi hj.2.1 hj.2.2 h1 h2⟩
  · intro i y hi _ h2
    have := endRow_le_height H host.NumberOfThreads i hi
    omega

/-- Witness for C1 with more workers than rows: `H = 3`, `N = 5`. -/
theorem bands_partition_witness :
    1 ≤ (hostWith 5).NumberOfThreads ∧
    recordedBands (hostWith 5) 3 = .ok [(0, 0), (0, 0), (0, 0), (0, 0), (0, 3)] ∧
    ∃! i, i < 5 ∧ startRow 3 5 i ≤ 2 ∧ 2 < endRow 3 5 i :=
  ⟨by decide, (bands_partition (hostWith 5) 3 (by decide)).1,
    (bands_partition (hostWith 5) 3 (by decide)).2.1 2 (by decide)⟩

/-! ## Per-pixel conversions -/

/-- The loop nest shared by the per-pixel conversions: read `(r, g, b)` at
`(x, y)`, store `G r g b` at `(x, y)`. It succeeds and fills the whole output. -/
theorem pointwise_fill (host : Host) (G : ℚ → ℚ → ℚ → ℚ) (red green blue output : ImageVariant)
    (hN : 1 ≤ host.NumberOfThreads)
    (hgw : green.width = red.width) (hgh : green.height = red.height)
    (hbw : blue.width = red.width) (hbh : blue.height = red.height)
    (how : output.width = red.width) (hoh : output.height = red.height) :
    ∃ out, ParallelProcess host red.height
      (fun startRow endRow output =>
        forRange startRow endRow
          (fun y output =>
            forRange 0 red.width
              (fun x output => do
                let r ← red.Pixel x y
                let g ← green.Pixel x y
                let b ← blue.Pixel x y
                output.SetPixel x y (G r g b))
              output)
          output)
      output = .ok out ∧
      FilledOn (fun x y => x < red.width ∧ y < red.height)
        (fun x y => G (red.samples 0 x y) (green.samples 0 x y) (blue.samples 0 x y))
        output out := by
  refine parallel_fill host _ _ red.width red.height red.width red.height hN ?_ output how hoh
  intro lo hi s hle hhi hsw hsh
  refine rows_fill (fun x y output => do
      let r ← red.Pixel x y
      let g ← green.Pixel x y
      let b ← blue.Pixel x y
      output.SetPixel x y (G r g b)) _ red.width lo hi red.width red.height ?_ hle s hsw hsh
  intro x y t hx _ hy htw hth
  have hy' : y < red.height := by omega
  simp [ImageVariant.Pixel, ImageVariant.SetPixel, hx, hy', hgw, hgh, hbw, hbh, htw, hth,
    bind, Except.bind]

theorem convertStandard_fill (host : Host) (p : RGBToHAProcess)
    (red green blue output : ImageVariant) (hN : 1 ≤ host.NumberOfThreads)
    (hgw : green.width = red.width) (hgh : green.height = red.height)
    (hbw : blue.width = red.width) (hbh : blue.height = red.height)
    (how : output.width = red.width) (hoh : output.height = red.height) :
    ∃ out, ConvertStandardRGBToHA host p red green blue output = .ok out ∧
      FilledOn (fun x y => x < red.width ∧ y < red.height)
        (fun x y => clamp01 (standardHaValue p.m_haWavelength
          (red.samples 0 x y) (green.samples 0 x y) (blue.samples 0 x y)))
        output out :=
  pointwise_fill host (fun r g b => clamp01 (standardHaValue p.m_haWavelength r g b))
    red green blue output hN hgw hgh hbw hbh how hoh

theorem convertSpectral_fill (host : Host) (p : RGBToHAProcess)
    (red green blue output : ImageVariant) (hN : 1 ≤ host.NumberOfThreads)
    (hgw : green.width = red.width) (hgh : green.height = red.height)
    (hbw : blue.width = red.width) (hbh : blue.height = red.height)
    (how : output.width = red.width) (hoh : output.height = red.height) :
    ∃ out, ConvertAdvancedSpectral host p red green blue output = .ok out ∧
      FilledOn (fun x y => x < red.width ∧ y < red.height)
        (fun x y => clamp01 (spectralHaValue p.m_adaptiveProcessing
          (red.samples 0 x y) (green.samples 0 x y) (blue.samples 0 x y)))
        output out :=
  pointwise_fill host (fun r g b => clamp01 (spectralHaValue p.m_adaptiveProcessing r g b))
    red green blue output hN hgw hgh hbw hbh how hoh

theorem standardHaValue_eq (w r g b : ℚ) :
    standardHaValue w r g b = (0.85 * r + 0.10 * g + 0.05 * b) * (w / 656.28) := rfl

theorem spectralBandSum_eq (r g b : ℚ) :
    spectralBandSum r g b = 1.0 * (0.90 * r + 0.08 * g + 0.02 * b)
      + 0.7 * (0.75 * r + 0.20 * g + 0.05 * b) + 0.4 * (0.60 * r + 0.30 * g + 0.10 * b) := by
  simp only [spectralBandSum, List.range, List.range.loop, List.foldl, spectralBands]
  norm_num
  ring

/-- C2: Standard Linear conversion succeeds and stores at every pixel `(x, y)`
the value `clamp01((0.85 r + 0.10 g + 0.05 b) * (w / 656.28))` of the input
samples at `(x, y)`, for every wavelength `w`; the extent of the output is
unchanged, and at `w = 662.28` the value before clamping is the base value
times `662.28 / 656.28`. -/
theorem convertStandard_formula (host : Host) (p : RGBToHAProcess)
    (red green blue output : ImageVariant) (hN : 1 ≤ host.NumberOfThreads)
    (hgw : green.width = red.width) (hgh : green.height = red.height)
    (hbw : blue.width = red.width) (hbh : blue.height = red.height)
    (how : output.width = red.width) (hoh : output.height = red.height) :
    ∃ out, ConvertStandardRGBToHA host p red green blue output = .ok out ∧
      out.width = output.width ∧ out.height = output.height ∧
      (∀ x y, x < red.width → y < red.height →
        out.samples 0 x y = clamp01 ((0.85 * red.samples 0 x y + 0.10 * green.samples 0 x y
          + 0.05 * blue.samples 0 x y) * (p.m_haWavelength / 656.28))) ∧
      (∀ r g b : ℚ, standardHaValue 662.28 r g b
        = (0.85 * r + 0.10 * g + 0.05 * b) * (662.28 / 656.28)) := by
  obtain ⟨out, hout, hfill⟩ :=
    convertStandard_fill host p red green blue output hN hgw hgh hbw hbh how hoh
  refine ⟨out, hout, hfill.2.2.1, hfill.2.2.2.1, ?_, fun r g b => rfl⟩
  intro x y hx hy
  rw [hfill.2.2.2.2.2.1 x y ⟨hx, hy⟩]
  simp only [standardHaValue_eq]

/-- Witness for C2: a 4 x 4 raster of samples `1/2`, two workers, `w = 662.28`. -/
theorem convertStandard_formula_witness :
    ∃ out, ConvertStandardRGBToHA (hostWith 2) { m_haWavelength := 662.28 }
        (constantRaster 4 4 (1/2)) (constantRaster 4 4 (1/2)) (constantRaster 4 4 (1/2))
        (ImageVariant.CreateFloatImage 4 4) = .ok out ∧
      out.samples 0 3 2 = clamp01 ((0.85 * (1/2) + 0.10 * (1/2) + 0.05 * (1/2))
        * (662.28 / 656.28)) := by
  obtain ⟨out, h1, _, _, h2, _⟩ := convertStandard_formula (hostWith 2)
    { m_haWavelength := 662.28 } (constantRaster 4 4 (1/2)) (constantRaster 4 4 (1/2))
    (constantRaster 4 4 (1/2)) (ImageVariant.CreateFloatImage 4 4) (by decide)
    rfl rfl rfl rfl rfl rfl
  exact ⟨out, h1, h2 3 2 (by decide) (by decide)⟩

/-- C3: at the reference wavelength `656.28` the scale factor is exactly `1`
and Standard Linear conversion stores `clamp01(0.85 r + 0.10 g + 0.05 b)` at
every pixel. -/
theorem convertStandard_reference (host : Host) (p : RGBToHAProcess)
    (red green blue output : ImageVariant) (hN : 1 ≤ host.NumberOfThreads)
    (hgw : green.width = red.width) (hgh : green.height = red.height)
    (hbw : blue.width = red.width) (hbh : blue.height = red.height)
    (how : output.width = red.width) (hoh : output.height = red.height)
    (hw : p.m_haWavelength = 656.28) :
    p.m_haWavelength / 656.28 = 1 ∧
    ∃ out, ConvertStandardRGBToHA host p red green blue output = .ok out ∧
      ∀ x y, x < red.width → y < red.height →
        out.samples 0 x y = clamp01 (0.85 * red.samples 0 x y + 0.10 * green.samples 0 x y
          + 0.05 * blue.samples 0 x y) := by
  have hone : p.m_haWavelength / 656.28 = 1 := by rw [hw]; norm_num
  obtain ⟨out, hout, hfill⟩ :=
    convertStandard_fill host p red green blue output hN hgw hgh hbw hbh how hoh
  refine ⟨hone, out, hout, ?_⟩
  intro x y hx hy
  rw [hfill.2.2.2.2.2.1 x y ⟨hx, hy⟩]
  simp only [standardHaValue_eq, hone, mul_one]

/-- Witness for C3: a 3 x 2 raster with distinct channels, three workers. -/
theorem convertStandard_reference_witness :
    ∃ out, ConvertStandardRGBToHA (hostWith 3) { m_haWavelength := 656.28 }
        (constantRaster 3 2 (1/5)) (constantRaster 3 2 (2/5)) (constantRaster 3 2 (4/5))
        (ImageVariant.CreateFloatImage 3 2) = .ok out ∧
      out.samples 0 2 1 = clamp01 (0.85 * (1/5) + 0.10 * (2/5) + 0.05 * (4/5)) := by
  obtain ⟨_, out, h1, h2⟩ := convertStandard_reference (hostWith 3)
    { m_haWavelength := 656.28 } (constantRaster 3 2 (1/5)) (constantRaster 3 2 (2/5))
    (constantRaster 3 2 (4/5)) (ImageVariant.CreateFloatImage 3 2) (by decide)
    rfl rfl rfl rfl rfl rfl rfl
  exact ⟨out, h1, h2 2 1 (by decide) (by decide)⟩

/-! ## `Execute` -/

theorem getChannel_ok (img : ImageVariant) (index : Nat) (h : index < img.numberOfChannels) :
    ∃ c, img.GetChannel index = .ok c ∧ c.width = img.width ∧ c.height = img.height ∧
      ∀ x y, c.samples 0 x y = img.samples index x y := by
  refine ⟨{ valid := true, color := false, width := img.width, height := img.height,
            numberOfChannels := 1,
            samples := fun c x y => if c = 0 then img.samples index x y else 0 },
    by simp only [ImageVariant.GetChannel]; rw [if_pos h], rfl, rfl, ?_⟩
  intro x y
  simp

theorem postProcess_skip (host : Host) (p : RGBToHAProcess) (out : ImageVariant)
    (he : p.m_enhancementStrength = 0) (hn : p.m_noiseReduction = 0)
    (hc : p.m_contrastBoost = 0) : postProcess host p out = .ok out := by
  have h00 : ¬ ((0.0 : ℚ) < 0) := by norm_num
  simp [postProcess, he, hn, hc, h00, bind, Except.bind, pure, Except.pure]

/-- `Execute` on a valid colour image with at least three channels extracts the
three channels, converts into a fresh raster of the same extent, post-processes,
and stores the result in `m_image`. -/
theorem execute_eq (host : Host) (p : RGBToHAProcess)
    (hv : p.m_image.valid = true) (hc : p.m_image.color = true)
    (hn : 3 ≤ p.m_image.numberOfChannels) :
    ∃ red green blue,
      (red.width = p.m_image.width ∧ red.height = p.m_image.height ∧
        ∀ x y, red.samples 0 x y = p.m_image.samples 0 x y) ∧
      (green.width = p.m_image.width ∧ green.height = p.m_image.height ∧
        ∀ x y, green.samples 0 x y = p.m_image.samples 1 x y) ∧
      (blue.width = p.m_image.width ∧ blue.height = p.m_image.height ∧
        ∀ x y, blue.samples 0 x y = p.m_image.samples 2 x y) ∧
      Execute host p =
        (convert host p red green blue
          (ImageVariant.CreateFloatImage p.m_image.width p.m_image.height)).bind
          (fun out => (postProcess host p out).bind
            (fun out => .ok { p with m_image := out })) := by
  obtain ⟨r, hr, hr1, hr2, hr3⟩ := getChannel_ok p.m_image 0 (by omega)
  obtain ⟨g, hg, hg1, hg2, hg3⟩ := getChannel_ok p.m_image 1 (by omega)
  obtain ⟨b, hb, hb1, hb2, hb3⟩ := getChannel_ok p.m_image 2 (by omega)
  refine ⟨r, g, b, ⟨hr1, hr2, hr3⟩, ⟨hg1, hg2, hg3⟩, ⟨hb1, hb2, hb3⟩, ?_⟩
  have hlt : ¬ p.m_image.numberOfChannels < 3 := by omega
  simp only [Execute, hv, hc, hr, hg, hb, hlt]
  simp [bind, Except.bind, pure, Except.pure]

theorem clamp01_of_mem (v : ℚ) (h0 : 0 ≤ v) (h1 : v ≤ 1) : clamp01 v = v := by
  unfold clamp01
  rw [min_eq_right h1, max_eq_right h0]

theorem clamp01_of_one_le (v : ℚ) (h1 : 1 ≤ v) : clamp01 v = 1 := by
  unfold clamp01
  rw [min_eq_left h1, max_eq_right zero_le_one]

/-! ## Multi-Band Spectral conversion -/

theorem spectralHaValue_eq (adaptive : Bool) (r g b : ℚ) :
    spectralHaValue adaptive r g b =
      (1.0 * (0.90 * r + 0.08 * g + 0.02 * b) + 0.7 * (0.75 * r + 0.20 * g + 0.05 * b)
        + 0.4 * (0.60 * r + 0.30 * g + 0.10 * b))
      * (if adaptive = true then 1 + (0.299 * r + 0.587 * g + 0.114 * b - 0.5) * 0.5 else 1) := by
  unfold spectralHaValue
  rw [spectralBandSum_eq]
  cases adaptive
  · simp
  · simp only [if_true]
    norm_num

theorem FilledOn.unique {R : Nat → Nat → Prop} {F F' : Nat → Nat → ℚ} {o s s' : ImageVariant}
    (h : FilledOn R F o s) (h' : FilledOn R F' o s') (hF : ∀ x y, R x y → F x y = F' x y) :
    s = s' := by
  obtain ⟨h1, h2, h3, h4, h5, h6, h7⟩ := h
  obtain ⟨k1, k2, k3, k4, k5, k6, k7⟩ := h'
  cases s
  cases s'
  simp only at h1 h2 h3 h4 h5 h6 h7 k1 k2 k3 k4 k5 k6 k7
  simp only [ImageVariant.mk.injEq]
  refine ⟨h1.trans k1.symm, h2.trans k2.symm, h3.trans k3.symm, h4.trans k4.symm,
    h5.trans k5.symm, ?_⟩
  funext c x y
  by_cases hc : c = 0 ∧ R x y
  · obtain ⟨rfl, hR⟩ := hc
    rw [h6 x y hR, k6 x y hR, hF x y hR]
  · rw [h7 c x y hc, k7 c x y hc]

/-- C5: Multi-Band Spectral conversion succeeds and stores at every pixel
`clamp01(S * F)` with `S = 1.0 (0.90 r + 0.08 g + 0.02 b) + 0.7 (0.75 r + 0.20 g
+ 0.05 b) + 0.4 (0.60 r + 0.30 g + 0.10 b)` and `F = 1 + (0.299 r + 0.587 g +
0.114 b - 0.5) * 0.5` when `adaptiveProcessing` is set, `F = 1` otherwise. -/
theorem convertSpectral_formula (host : Host) (p : RGBToHAProcess)
    (red green blue output : ImageVariant) (hN : 1 ≤ host.NumberOfThreads)
    (hgw : green.width = red.width) (hgh : green.height = red.height)
    (hbw : blue.width = red.width) (hbh : blue.height = red.height)
    (how : output.width = red.width) (hoh : output.height = red.height) :
    ∃ out, ConvertAdvancedSpectral host p red green blue output = .ok out ∧
      out.width = output.width ∧ out.height = output.height ∧
      ∀ x y, x < red.width → y < red.height →
        out.samples 0 x y = clamp01
          ((1.0 * (0.90 * red.samples 0 x y + 0.08 * green.samples 0 x y
              + 0.02 * blue.samples 0 x y)
            + 0.7 * (0.75 * red.samples 0 x y + 0.20 * green.samples 0 x y
              + 0.05 * blue.samples 0 x y)
            + 0.4 * (0.60 * red.samples 0 x y + 0.30 * green.samples 0 x y
              + 0.10 * blue.samples 0 x y))
          * (if p.m_adaptiveProcessing = true then
              1 + (0.299 * red.samples 0 x y + 0.587 * green.samples 0 x y
                + 0.114 * blue.samples 0 x y - 0.5) * 0.5
            else 1)) := by
  obtain ⟨out, hout, hfill⟩ :=
    convertSpectral_fill host p red green blue output hN hgw hgh hbw hbh how hoh
  refine ⟨out, hout, hfill.2.2.1, hfill.2.2.2.1, ?_⟩
  intro x y hx hy
  rw [hfill.2.2.2.2.2.1 x y ⟨hx, hy⟩]
  simp only [spectralHaValue_eq]

/-- Witness for C5: a 2 x 3 raster, adaptive processing on, two workers. -/
theorem convertSpectral_formula_witness :
    ∃ out, ConvertAdvancedSpectral (hostWith 2) { m_adaptiveProcessing := true }
        (constantRaster 2 3 (1/4)) (constantRaster 2 3 (1/8)) (constantRaster 2 3 (1/2))
        (ImageVariant.CreateFloatImage 2 3) = .ok out ∧
      out.samples 0 1 2 = clamp01
        ((1.0 * (0.90 * (1/4) + 0.08 * (1/8) + 0.02 * (1/2))
          + 0.7 * (0.75 * (1/4) + 0.20 * (1/8) + 0.05 * (1/2))
          + 0.4 * (0.60 * (1/4) + 0.30 * (1/8) + 0.10 * (1/2)))
        * (1 + (0.299 * (1/4) + 0.587 * (1/8) + 0.114 * (1/2) - 0.5) * 0.5)) := by
  obtain ⟨out, h1, _, _, h2⟩ := convertSpectral_formula (hostWith 2)
    { m_adaptiveProcessing := true } (constantRaster 2 3 (1/4)) (constantRaster 2 3 (1/8))
    (constantRaster 2 3 (1/2)) (ImageVariant.CreateFloatImage 2 3) (by decide)
    rfl rfl rfl rfl rfl rfl
  exact ⟨out, h1, h2 1 2 (by decide) (by decide)⟩

/-- C6: on an image whose every pixel has luminance `0.299 r + 0.587 g +
0.114 b` exactly `0.5`, Multi-Band Spectral conversion with
`adaptiveProcessing = true` succeeds and produces the same raster as with
`adaptiveProcessing = false`. -/
theorem convertSpectral_midLuminance (host : Host) (p : RGBToHAProcess)
    (red green blue output : ImageVariant) (hN : 1 ≤ host.NumberOfThreads)
    (hgw : green.width = red.width) (hgh : green.height = red.height)
    (hbw : blue.width = red.width) (hbh : blue.height = red.height)
    (how : output.width = red.width) (hoh : output.height = red.height)
    (hlum : ∀ x y, x < red.width → y < red.height →
      0.299 * red.samples 0 x y + 0.587 * green.samples 0 x y
        + 0.114 * blue.samples 0 x y = 0.5) :
    ∃ out,
      ConvertAdvancedSpectral host { p with m_adaptiveProcessing := true }
        red green blue output = .ok out ∧
      ConvertAdvancedSpectral host { p with m_adaptiveProcessing := false }
        red green blue output = .ok out := by
  obtain ⟨out, hout, hfill⟩ := convertSpectral_fill host { p with m_adaptiveProcessing := true }
    red green blue output hN hgw hgh hbw hbh how hoh
  obtain ⟨out', hout', hfill'⟩ := convertSpectral_fill host
    { p with m_adaptiveProcessing := false } red green blue output hN hgw hgh hbw hbh how hoh
  have heq : out = out' := by
    refine hfill.unique hfill' ?_
    intro x y hxy
    simp only [spectralHaValue_eq, hlum x y hxy.1 hxy.2]
    norm_num
  refine ⟨out, hout, ?_⟩
  rw [heq]
  exact hout'

/-- Witness for C6: the mid-gray 2 x 2 image `r = g = b = 0.5`. -/
theorem convertSpectral_midLuminance_witness :
    ∃ out,
      ConvertAdvancedSpectral (hostWith 1) { m_adaptiveProcessing := true }
        (constantRaster 2 2 0.5) (constantRaster 2 2 0.5) (constantRaster 2 2 0.5)
        (ImageVariant.CreateFloatImage 2 2) = .ok out ∧
      ConvertAdvancedSpectral (hostWith 1) { m_adaptiveProcessing := false }
        (constantRaster 2 2 0.5) (constantRaster 2 2 0.5) (constantRaster 2 2 0.5)
        (ImageVariant.CreateFloatImage 2 2) = .ok out :=
  convertSpectral_midLuminance (hostWith 1) {} (constantRaster 2 2 0.5)
    (constantRaster 2 2 0.5) (constantRaster 2 2 0.5) (ImageVariant.CreateFloatImage 2 2)
    (by decide) rfl rfl rfl rfl rfl rfl
    (by intro x y _ _; simp only [constantRaster]; norm_num)

/-- C7: through `Execute` with `method = 1`, `adaptiveProcessing = true` and all
post-processing strengths `0`, a white input pixel `(r, g, b) = (1, 1, 1)` at
`(x, y)` gives output exactly `1` at `(x, y)`: the band sum is `2.1`, the
luminance is `1`, the adaptive factor is `1.25`, and the product `2.625` is
clamped to `1`. -/
theorem execute_white (host : Host) (p : RGBToHAProcess) (x y : Nat)
    (hN : 1 ≤ host.NumberOfThreads)
    (hvalid : p.m_image.valid = true) (hcolor : p.m_image.color = true)
    (hchan : 3 ≤ p.m_image.numberOfChannels)
    (hx : x < p.m_image.width) (hy : y < p.m_image.height)
    (hwhite : p.m_image.samples 0 x y = 1 ∧ p.m_image.samples 1 x y = 1 ∧
      p.m_image.samples 2 x y = 1)
    (hm : p.m_conversionMethod = 1) (ha : p.m_adaptiveProcessing = true)
    (he : p.m_enhancementStrength = 0) (hn : p.m_noiseReduction = 0)
    (hc : p.m_contrastBoost = 0) :
    (∃ p', Execute host p = .ok p' ∧ p'.m_image.Pixel x y = .ok 1) ∧
      spectralBandSum 1 1 1 = 2.1 ∧
      (0.299 * 1 + 0.587 * 1 + 0.114 * 1 : ℚ) = 1.0 ∧
      (1.0 + (1.0 - 0.5) * 0.5 : ℚ) = 1.25 ∧
      spectralHaValue true 1 1 1 = 2.625 ∧ clamp01 2.625 = 1 := by
  obtain ⟨red, green, blue, ⟨hr1, hr2, hr3⟩, ⟨hg1, hg2, hg3⟩, ⟨hb1, hb2, hb3⟩, hex⟩ :=
    execute_eq host p hvalid hcolor hchan
  obtain ⟨out, hout, hfill⟩ := convertSpectral_fill host p red green blue
    (ImageVariant.CreateFloatImage p.m_image.width p.m_image.height) hN
    (hg1.trans hr1.symm) (hg2.trans hr2.symm) (hb1.trans hr1.symm) (hb2.trans hr2.symm)
    hr1.symm hr2.symm
  have hconv : convert host p red green blue
      (ImageVariant.CreateFloatImage p.m_image.width p.m_image.height) = .ok out := by
    simp only [convert, hm]
    exact hout
  obtain ⟨_, _, hw', hh', _, hS, _⟩ := hfill
  have hsum : spectralBandSum 1 1 1 = 2.1 := by rw [spectralBandSum_eq]; norm_num
  have hval : spectralHaValue true 1 1 1 = 2.625 := by rw [spectralHaValue_eq]; norm_num
  have hclamp : clamp01 2.625 = 1 := clamp01_of_one_le _ (by norm_num)
  refine ⟨⟨{ p with m_image := out }, ?_, ?_⟩, hsum, by norm_num, by norm_num, hval, hclamp⟩
  · rw [hex, hconv]
    simp only [Except.bind, postProcess_skip host p out he hn hc]
  · have hwx : x < out.width := by rw [hw']; exact hx
    have hhy : y < out.height := by rw [hh']; exact hy
    simp only [ImageVariant.Pixel]
    rw [if_pos ⟨hwx, hhy⟩, hS x y ⟨by rw [hr1]; exact hx, by rw [hr2]; exact hy⟩]
    simp only [hr3, hg3, hb3, hwhite.1, hwhite.2.1, hwhite.2.2, ha, hval, hclamp]

/-- Witness for C7: the 2 x 2 image whose pixel `(0, 0)` is white and whose other
pixels are black. -/
theorem execute_white_witness :
    ∃ p', Execute (hostWith 2)
        { m_conversionMethod := 1, m_adaptiveProcessing := true, m_enhancementStrength := 0,
          m_noiseReduction := 0, m_contrastBoost := 0,
          m_image := rgbImage 2 2 (fun x y => if x = 0 ∧ y = 0 then 1 else 0)
            (fun x y => if x = 0 ∧ y = 0 then 1 else 0)
            (fun x y => if x = 0 ∧ y = 0 then 1 else 0) }
        = .ok p' ∧ p'.m_image.Pixel 0 0 = .ok 1 :=
  (execute_white (hostWith 2)
    { m_conversionMethod := 1, m_adaptiveProcessing := true, m_enhancementStrength := 0,
      m_noiseReduction := 0, m_contrastBoost := 0,
      m_image := rgbImage 2 2 (fun x y => if x = 0 ∧ y = 0 then 1 else 0)
        (fun x y => if x = 0 ∧ y = 0 then 1 else 0)
        (fun x y => if x = 0 ∧ y = 0 then 1 else 0) }
    0 0 (by decide) rfl rfl (by decide) (by decide) (by decide)
    (by simp [rgbImage]) rfl rfl rfl rfl rfl).1

/-! ## Multi-scale pyramid -/

theorem rowSamples_succ (high : ImageVariant) (x y dy j : Nat) (k : Nat) :
    ((List.range (j + 1)).filter
        (fun dx => decide (x * k + dx < high.width ∧ y * k + dy < high.height))).map
      (fun dx => high.samples 0 (x * k + dx) (y * k + dy))
    = ((List.range j).filter
        (fun dx => decide (x * k + dx < high.width ∧ y * k + dy < high.height))).map
      (fun dx => high.samples 0 (x * k + dx) (y * k + dy))
      ++ (if x * k + j < high.width ∧ y * k + dy < high.height
          then [high.samples 0 (x * k + j) (y * k + dy)] else []) := by
  rw [List.range_succ, List.filter_append, List.map_append]
  by_cases h : x * k + j < high.width ∧ y * k + dy < high.height
  · simp [List.filter, h]
  · simp [List.filter, h]

/-- The column loop of one block row adds the in-extent samples of that row to
the sum and their number to the count. -/
theorem boxRow_eq (high : ImageVariant) (k x y dy : Nat) (acc : ℚ × Nat) :
    forRange 0 k
      (fun dx acc =>
        let sx := x * k + dx
        let sy := y * k + dy
        if sx < high.width ∧ sy < high.height then do
          let v ← high.Pixel sx sy
          pure (acc.1 + v, acc.2 + 1)
        else pure acc)
      acc
    = .ok (acc.1 + (rowSamples high k x y dy).sum, acc.2 + (rowSamples high k x y dy).length) := by
  obtain ⟨r, hr, hI⟩ := forRange_inv
    (fun dx (acc : ℚ × Nat) =>
      let sx := x * k + dx
      let sy := y * k + dy
      if sx < high.width ∧ sy < high.height then do
        let v ← high.Pixel sx sy
        pure (acc.1 + v, acc.2 + 1)
      else (pure acc : Except Error (ℚ × Nat)))
    (fun j r => r = (acc.1 + (((List.range j).filter
        (fun dx => decide (x * k + dx < high.width ∧ y * k + dy < high.height))).map
        (fun dx => high.samples 0 (x * k + dx) (y * k + dy))).sum,
      acc.2 + (((List.range j).filter
        (fun dx => decide (x * k + dx < high.width ∧ y * k + dy < high.height))).map
        (fun dx => high.samples 0 (x * k + dx) (y * k + dy))).length))
    0 k (Nat.zero_le _) acc (by simp) (by
      intro j t _ _ ht
      subst ht
      simp only [rowSamples_succ]
      by_cases h : x * k + j < high.width ∧ y * k + dy < high.height
      · refine ⟨_, by simp [h, ImageVariant.Pixel, bind, Except.bind, pure, Except.pure]; rfl, ?_⟩
        simp [h, add_assoc]
      · refine ⟨_, by simp only [h, if_false, pure, Except.pure]; rfl, ?_⟩
        simp [h])
  rw [hr, hI]
  rfl

/-- The box filter accumulates exactly the in-extent samples of the block: their
sum and their number. It never fails, since every read is guarded. -/
theorem boxAccumulate_eq (high : ImageVariant) (k x y : Nat) :
    boxAccumulate high k x y
      = .ok ((blockSamples high k x y).sum, (blockSamples high k x y).length) := by
  unfold boxAccumulate
  obtain ⟨r, hr, hI⟩ := forRange_inv
    (fun dy (acc : ℚ × Nat) =>
      forRange 0 k
        (fun dx acc =>
          let sx := x * k + dx
          let sy := y * k + dy
          if sx < high.width ∧ sy < high.height then do
            let v ← high.Pixel sx sy
            pure (acc.1 + v, acc.2 + 1)
          else pure acc)
        acc)
    (fun i r => r = (((List.range i).flatMap (fun dy => rowSamples high k x y dy)).sum,
      ((List.range i).flatMap (fun dy => rowSamples high k x y dy)).length))
    0 k (Nat.zero_le _) ((0.0 : ℚ), 0) (by norm_num) (by
      intro i t _ _ ht
      subst ht
      refine ⟨_, boxRow_eq high k x y i _, ?_⟩
      simp [List.range_succ, List.flatMap_append])
  rw [hr, hI]
  rfl

theorem blockSamples_length_pos (high : ImageVariant) (k x y : Nat) (hk : 0 < k)
    (hx : x * k < high.width) (hy : y * k < high.height) :
    0 < (blockSamples high k x y).length := by
  rw [List.length_pos]
  intro hnil
  have hmem : high.samples 0 (x * k + 0) (y * k + 0) ∈ blockSamples high k x y := by
    simp only [blockSamples, rowSamples, List.mem_flatMap, List.mem_map, List.mem_filter,
      List.mem_range, decide_eq_true_eq]
    exact ⟨0, hk, 0, ⟨hk, by simpa using hx, by simpa using hy⟩, rfl⟩
  rw [hnil] at hmem
  exact absurd hmem (List.not_mem_nil _)

/-- A downsampling pass succeeds and stores in every sample of `res` the value
`( count > 0 ) ? sum / count : 0.0` of its block. -/
theorem downsample_fill (high : ImageVariant) (k : Nat) (res : ImageVariant) :
    ∃ res', downsample high k res = .ok res' ∧
      FilledOn (fun x y => x < res.width ∧ y < res.height)
        (fun x y => if 0 < (blockSamples high k x y).length then blockMean high k x y else 0)
        res res' := by
  unfold downsample
  obtain ⟨res', h1, h2⟩ := rows_fill
    (fun x y res => do
      let acc ← boxAccumulate high k x y
      res.SetPixel x y (if acc.2 > 0 then acc.1 / (acc.2 : ℚ) else 0.0))
    (fun x y => if 0 < (blockSamples high k x y).length then blockMean high k x y else 0)
    res.width 0 res.height res.width res.height (by
      intro x y s hx _ hy hsw hsh
      simp only [boxAccumulate_eq, bind, Except.bind, ImageVariant.SetPixel, hsw, hsh]
      rw [if_pos ⟨hx, hy⟩]
      simp only [blockMean, gt_iff_lt]
      norm_num) (Nat.zero_le _) res rfl rfl
  exact ⟨res', h1, h2.congr (by intro x y; omega)⟩

/-- `ProcessMultiScale` succeeds: the full-resolution level is the Standard
Linear result, and the two downsampled levels hold the box-filter values
computed from it. -/
theorem processMultiScale_spec (host : Host) (p : RGBToHAProcess)
    (red green blue lowRes midRes highRes : ImageVariant) (hN : 1 ≤ host.NumberOfThreads)
    (hgw : green.width = red.width) (hgh : green.height = red.height)
    (hbw : blue.width = red.width) (hbh : blue.height = red.height)
    (how : highRes.width = red.width) (hoh : highRes.height = red.height) :
    ∃ low mid high,
      ProcessMultiScale host p red green blue lowRes midRes highRes = .ok (low, mid, high) ∧
      ConvertStandardRGBToHA host p red green blue highRes = .ok high ∧
      high.width = red.width ∧ high.height = red.height ∧
      FilledOn (fun x y => x < midRes.width ∧ y < midRes.height)
        (fun x y => if 0 < (blockSamples high 2 x y).length then blockMean high 2 x y else 0)
        midRes mid ∧
      FilledOn (fun x y => x < lowRes.width ∧ y < lowRes.height)
        (fun x y => if 0 < (blockSamples high 4 x y).length then blockMean high 4 x y else 0)
        lowRes low := by
  obtain ⟨high, hhigh, hfill⟩ :=
    convertStandard_fill host p red green blue highRes hN hgw hgh hbw hbh how hoh
  obtain ⟨mid, hmid, hmfill⟩ := downsample_fill high 2 midRes
  obtain ⟨low, hlow, hlfill⟩ := downsample_fill high 4 lowRes
  refine ⟨low, mid, high, ?_, hhigh, hfill.2.2.1.trans how, hfill.2.2.2.1.trans hoh,
    hmfill, hlfill⟩
  simp only [ProcessMultiScale, hhigh, hmid, hlow, bind, Except.bind, pure, Except.pure]

/-- The recombination of one pixel succeeds whenever `(x, y)` lies inside the
full-resolution level: the two pyramid lookups are guarded by their own bounds. -/
theorem combineScales_eq (low mid high : ImageVariant) (x y : Nat)
    (hx : x < high.width) (hy : y < high.height) :
    combineScales low mid high x y = .ok (clamp01 (0.6 * high.samples 0 x y
      + (if x / 2 < mid.width ∧ y / 2 < mid.height then 0.3 * mid.samples 0 (x / 2) (y / 2)
          else 0)
      + (if x / 4 < low.width ∧ y / 4 < low.height then 0.1 * low.samples 0 (x / 4) (y / 4)
          else 0))) := by
  have h00 : (0.0 : ℚ) = 0 := by norm_num
  by_cases hm : x / 2 < mid.width ∧ y / 2 < mid.height <;>
  by_cases hl : x / 4 < low.width ∧ y / 4 < low.height <;>
  simp [combineScales, ImageVariant.Pixel, hx, hy, hm, hl, h00, bind, Except.bind, pure,
    Except.pure]

/-- `ConvertAdaptiveMultiScale` succeeds: it builds the pyramid with
`ProcessMultiScale` on freshly created levels and fills the output with the
recombination of the three levels. -/
theorem convertAdaptive_fill (host : Host) (p : RGBToHAProcess)
    (red green blue output : ImageVariant) (hN : 1 ≤ host.NumberOfThreads)
    (hgw : green.width = red.width) (hgh : green.height = red.height)
    (hbw : blue.width = red.width) (hbh : blue.height = red.height)
    (how : output.width = red.width) (hoh : output.height = red.height) :
    ∃ low mid high out,
      ProcessMultiScale host p red green blue
        (ImageVariant.CreateFloatImage (red.width / 4) (red.height / 4))
        (ImageVariant.CreateFloatImage (red.width / 2) (red.height / 2))
        (ImageVariant.CreateFloatImage red.width red.height) = .ok (low, mid, high) ∧
      ConvertStandardRGBToHA host p red green blue
        (ImageVariant.CreateFloatImage red.width red.height) = .ok high ∧
      (low.width = red.width / 4 ∧ low.height = red.height / 4) ∧
      (mid.width = red.width / 2 ∧ mid.height = red.height / 2) ∧
      (high.width = red.width ∧ high.height = red.height) ∧
      ConvertAdaptiveMultiScale host p red green blue output = .ok out ∧
      FilledOn (fun x y => x < red.width ∧ y < red.height)
        (fun x y => clamp01 (0.6 * high.samples 0 x y
          + (if x / 2 < mid.width ∧ y / 2 < mid.height then 0.3 * mid.samples 0 (x / 2) (y / 2)
              else 0)
          + (if x / 4 < low.width ∧ y / 4 < low.height then 0.1 * low.samples 0 (x / 4) (y / 4)
              else 0)))
        output out := by
  obtain ⟨low, mid, high, hpms, hstd, hhw, hhh, hmid, hlow⟩ := processMultiScale_spec host p
    red green blue (ImageVariant.CreateFloatImage (red.width / 4) (red.height / 4))
    (ImageVariant.CreateFloatImage (red.width / 2) (red.height / 2))
    (ImageVariant.CreateFloatImage red.width red.height) hN hgw hgh hbw hbh rfl rfl
  obtain ⟨out, hout, hfill⟩ := parallel_fill host
    (fun startRow endRow output =>
      forRange startRow endRow
        (fun y output =>
          forRange 0 red.width
            (fun x output => do
              let haValue ← combineScales low mid high x y
              output.SetPixel x y haValue)
            output)
        output)
    (fun x y => clamp01 (0.6 * high.samples 0 x y
      + (if x / 2 < mid.width ∧ y / 2 < mid.height then 0.3 * mid.samples 0 (x / 2) (y / 2)
          else 0)
      + (if x / 4 < low.width ∧ y / 4 < low.height then 0.1 * low.samples 0 (x / 4) (y / 4)
          else 0)))
    red.width red.height red.width red.height hN (by
      intro lo hi s hle hhi hsw hsh
      refine rows_fill (fun x y output => do
          let haValue ← combineScales low mid high x y
          output.SetPixel x y haValue) _ red.width lo hi red.width red.height ?_ hle s hsw hsh
      intro x y t hx _ hy htw hth
      have hy' : y < red.height := by omega
      beta_reduce
      rw [combineScales_eq low mid high x y (by rw [hhw]; exact hx) (by rw [hhh]; exact hy')]
      simp only [bind, Except.bind, ImageVariant.SetPixel, htw, hth]
      rw [if_pos ⟨hx, hy'⟩])
    output how hoh
  refine ⟨low, mid, high, out, hpms, hstd, ⟨hlow.2.2.1, hlow.2.2.2.1⟩,
    ⟨hmid.2.2.1, hmid.2.2.2.1⟩, ⟨hhw, hhh⟩, ?_, hfill⟩
  simp only [ConvertAdaptiveMultiScale, hpms, bind, Except.bind]
  exact hout

/-- C8: Adaptive Multi-Scale conversion on a `W x H` image succeeds and stores at
every pixel `(x, y)` the value `clamp01(0.6 high[x, y] + M + L)`, where `high`
is the Standard Linear result, `M = 0.3 mid[x/2, y/2]` if `x/2 < W/2` and
`y/2 < H/2` and `M = 0` otherwise, `L = 0.1 low[x/4, y/4]` if `x/4 < W/4` and
`y/4 < H/4` and `L = 0` otherwise; `low`, `mid`, `high` are the levels built by
`ProcessMultiScale`, of extents `(W/4) x (H/4)`, `(W/2) x (H/2)` and `W x H`. -/
theorem convertAdaptive_formula (host : Host) (p : RGBToHAProcess)
    (red green blue output : ImageVariant) (hN : 1 ≤ host.NumberOfThreads)
    (hgw : green.width = red.width) (hgh : green.height = red.height)
    (hbw : blue.width = red.width) (hbh : blue.height = red.height)
    (how : output.width = red.width) (hoh : output.height = red.height) :
    ∃ low mid high out,
      ProcessMultiScale host p red green blue
        (ImageVariant.CreateFloatImage (red.width / 4) (red.height / 4))
        (ImageVariant.CreateFloatImage (red.width / 2) (red.height / 2))
        (ImageVariant.CreateFloatImage red.width red.height) = .ok (low, mid, high) ∧
      ConvertStandardRGBToHA host p red green blue
        (ImageVariant.CreateFloatImage red.width red.height) = .ok high ∧
      (low.width = red.width / 4 ∧ low.height = red.height / 4) ∧
      (mid.width = red.width / 2 ∧ mid.height = red.height / 2) ∧
      (high.width = red.width ∧ high.height = red.height) ∧
      ConvertAdaptiveMultiScale host p red green blue output = .ok out ∧
      ∀ x y, x < red.width → y < red.height →
        out.samples 0 x y = clamp01 (0.6 * high.samples 0 x y
          + (if x / 2 < red.width / 2 ∧ y / 2 < red.height / 2
              then 0.3 * mid.samples 0 (x / 2) (y / 2) else 0)
          + (if x / 4 < red.width / 4 ∧ y / 4 < red.height / 4
              then 0.1 * low.samples 0 (x / 4) (y / 4) else 0)) := by
  obtain ⟨low, mid, high, out, h1, h2, h3, h4, h5, h6, hfill⟩ :=
    convertAdaptive_fill host p red green blue output hN hgw hgh hbw hbh how hoh
  refine ⟨low, mid, high, out, h1, h2, h3, h4, h5, h6, ?_⟩
  intro x y hx hy
  rw [hfill.2.2.2.2.2.1 x y ⟨hx, hy⟩]
  simp only [h3.1, h3.2, h4.1, h4.2]

/-- Witness for C8: a 5 x 3 image, pixel `(4, 2)`, whose half-resolution lookup is
skipped (`2 < 2` fails) and whose quarter-resolution lookup is skipped too. -/
theorem convertAdaptive_formula_witness :
    ∃ low mid high out,
      ProcessMultiScale (hostWith 2) {} (constantRaster 5 3 (1/2)) (constantRaster 5 3 (1/2))
        (constantRaster 5 3 (1/2)) (ImageVariant.CreateFloatImage (5 / 4) (3 / 4))
        (ImageVariant.CreateFloatImage (5 / 2) (3 / 2))
        (ImageVariant.CreateFloatImage 5 3) = .ok (low, mid, high) ∧
      ConvertAdaptiveMultiScale (hostWith 2) {} (constantRaster 5 3 (1/2))
        (constantRaster 5 3 (1/2)) (constantRaster 5 3 (1/2))
        (ImageVariant.CreateFloatImage 5 3) = .ok out ∧
      out.samples 0 4 2 = clamp01 (0.6 * high.samples 0 4 2 + 0 + 0) := by
  obtain ⟨low, mid, high, out, h1, _, _, _, _, h6, h7⟩ := convertAdaptive_formula (hostWith 2) {}
    (constantRaster 5 3 (1/2)) (constantRaster 5 3 (1/2)) (constantRaster 5 3 (1/2))
    (ImageVariant.CreateFloatImage 5 3) (by decide) rfl rfl rfl rfl rfl rfl
  refine ⟨low, mid, high, out, h1, h6, ?_⟩
  have h := h7 4 2 (by decide) (by decide)
  simp only [constantRaster] at h
  rw [h]
  norm_num

/-- C9: for every image extent `W x H` (zero, odd, not divisible by 4 included)
and every worker count `N ≥ 1`, the pyramid build `ProcessMultiScale` and the
whole Adaptive Multi-Scale conversion run to completion: no pixel read or write
falls outside the raster it accesses, so no out-of-bounds failure is raised. -/
theorem convertAdaptive_inBounds (host : Host) (p : RGBToHAProcess)
    (red green blue output : ImageVariant) (hN : 1 ≤ host.NumberOfThreads)
    (hgw : green.width = red.width) (hgh : green.height = red.height)
    (hbw : blue.width = red.width) (hbh : blue.height = red.height)
    (how : output.width = red.width) (hoh : output.height = red.height) :
    (∃ levels, ProcessMultiScale host p red green blue
        (ImageVariant.CreateFloatImage (red.width / 4) (red.height / 4))
        (ImageVariant.CreateFloatImage (red.width / 2) (red.height / 2))
        (ImageVariant.CreateFloatImage red.width red.height) = .ok levels) ∧
    (∃ out, ConvertAdaptiveMultiScale host p red green blue output = .ok out) ∧
    ConvertAdaptiveMultiScale host p red green blue output ≠ .error .OutOfBounds := by
  obtain ⟨low, mid, high, out, h1, _, _, _, _, h6, _⟩ :=
    convertAdaptive_fill host p red green blue output hN hgw hgh hbw hbh how hoh
  refine ⟨⟨(low, mid, high), h1⟩, ⟨out, h6⟩, ?_⟩
  rw [h6]
  intro h
  cases h

/-- Witness for C9: a 3 x 3 image (extent not divisible by 2 or 4). -/
theorem convertAdaptive_inBounds_witness :
    ∃ out, ConvertAdaptiveMultiScale (hostWith 2) {} (constantRaster 3 3 (1/2))
      (constantRaster 3 3 (1/4)) (constantRaster 3 3 (3/4))
      (ImageVariant.CreateFloatImage 3 3) = .ok out :=
  (convertAdaptive_inBounds (hostWith 2) {} (constantRaster 3 3 (1/2))
    (constantRaster 3 3 (1/4)) (constantRaster 3 3 (3/4))
    (ImageVariant.CreateFloatImage 3 3) (by decide) rfl rfl rfl rfl rfl rfl).2.1

/-- C10: `ProcessMultiScale` succeeds on every `W x H` input; the
full-resolution level is the Standard Linear result; every half-resolution
sample whose 2 x 2 block meets the extent equals the arithmetic mean of the
in-extent samples `high[2x+dx, 2y+dy]`, and every quarter-resolution sample
whose 4 x 4 block meets the extent equals the arithmetic mean of the in-extent
samples `high[4x+dx, 4y+dy]`; the divisor is the (positive) number of in-extent
samples. -/
theorem processMultiScale_levels (host : Host) (p : RGBToHAProcess)
    (red green blue lowRes midRes highRes : ImageVariant) (hN : 1 ≤ host.NumberOfThreads)
    (hgw : green.width = red.width) (hgh : green.height = red.height)
    (hbw : blue.width = red.width) (hbh : blue.height = red.height)
    (how : highRes.width = red.width) (hoh : highRes.height = red.height) :
    ∃ low mid high,
      ProcessMultiScale host p red green blue lowRes midRes highRes = .ok (low, mid, high) ∧
      ConvertStandardRGBToHA host p red green blue highRes = .ok high ∧
      (high.width = red.width ∧ high.height = red.height) ∧
      (∀ x y, x < midRes.width → y < midRes.height → x * 2 < red.width → y * 2 < red.height →
        0 < (blockSamples high 2 x y).length ∧
        mid.samples 0 x y
          = (blockSamples high 2 x y).sum / ((blockSamples high 2 x y).length : ℚ)) ∧
      (∀ x y, x < lowRes.width → y < lowRes.height → x * 4 < red.width → y * 4 < red.height →
        0 < (blockSamples high 4 x y).length ∧
        low.samples 0 x y
          = (blockSamples high 4 x y).sum / ((blockSamples high 4 x y).length : ℚ)) := by
  obtain ⟨low, mid, high, hpms, hstd, hhw, hhh, hmid, hlow⟩ := processMultiScale_spec host p
    red green blue lowRes midRes highRes hN hgw hgh hbw hbh how hoh
  refine ⟨low, mid, high, hpms, hstd, ⟨hhw, hhh⟩, ?_, ?_⟩
  · intro x y hx hy hx2 hy2
    have hpos := blockSamples_length_pos high 2 x y (by decide)
      (by rw [hhw]; exact hx2) (by rw [hhh]; exact hy2)
    refine ⟨hpos, ?_⟩
    rw [hmid.2.2.2.2.2.1 x y ⟨hx, hy⟩]
    simp only [hpos, if_true, blockMean]
  · intro x y hx hy hx4 hy4
    have hpos := blockSamples_length_pos high 4 x y (by decide)
      (by rw [hhw]; exact hx4) (by rw [hhh]; exact hy4)
    refine ⟨hpos, ?_⟩
    rw [hlow.2.2.2.2.2.1 x y ⟨hx, hy⟩]
    simp only [hpos, if_true, blockMean]

/-- Witness for C10: a 3 x 3 input with the levels allocated as in
`ConvertAdaptiveMultiScale` (half level 1 x 1, quarter level 0 x 0). -/
theorem processMultiScale_levels_witness :
    ∃ low mid high,
      ProcessMultiScale (hostWith 2) {} (constantRaster 3 3 (1/2)) (constantRaster 3 3 (1/4))
        (constantRaster 3 3 (3/4)) (ImageVariant.CreateFloatImage (3 / 4) (3 / 4))
        (ImageVariant.CreateFloatImage (3 / 2) (3 / 2))
        (ImageVariant.CreateFloatImage 3 3) = .ok (low, mid, high) ∧
      0 < (blockSamples high 2 0 0).length ∧
      mid.samples 0 0 0 = (blockSamples high 2 0 0).sum / ((blockSamples high 2 0 0).length : ℚ) := by
  obtain ⟨low, mid, high, h1, _, _, h4, _⟩ := processMultiScale_levels (hostWith 2) {}
    (constantRaster 3 3 (1/2)) (constantRaster 3 3 (1/4)) (constantRaster 3 3 (3/4))
    (ImageVariant.CreateFloatImage (3 / 4) (3 / 4)) (ImageVariant.CreateFloatImage (3 / 2) (3 / 2))
    (ImageVariant.CreateFloatImage 3 3) (by decide) rfl rfl rfl rfl rfl rfl
  exact ⟨low, mid, high, h1, h4 0 0 (by decide) (by decide) (by decide) (by decide)⟩

/-! ## Rasters written in place by a loop nest -/

theorem WrittenOn.init (Q : Nat → Nat → ℚ → Prop) (o : ImageVariant) (R : Nat → Nat → Prop)
    (hR : ∀ x y, ¬ R x y) : WrittenOn R Q o o :=
  ⟨rfl, rfl, rfl, rfl, rfl, fun x y h => absurd h (hR x y), fun _ _ _ _ => rfl⟩

theorem WrittenOn.mono {R R' : Nat → Nat → Prop} {Q : Nat → Nat → ℚ → Prop}
    {o s : ImageVariant} (h : WrittenOn R Q o s) (hR : ∀ x y, R' x y ↔ R x y) :
    WrittenOn R' Q o s := by
  obtain ⟨h1, h2, h3, h4, h5, h6, h7⟩ := h
  refine ⟨h1, h2, h3, h4, h5, fun x y hxy => h6 x y ((hR x y).1 hxy), fun c x y hn => h7 c x y ?_⟩
  intro hc
  exact hn ⟨hc.1, (hR x y).2 hc.2⟩

theorem WrittenOn.store {R : Nat → Nat → Prop} {Q : Nat → Nat → ℚ → Prop} {o s : ImageVariant}
    (h : WrittenOn R Q o s) (x y : Nat) (v : ℚ) (hv : Q x y v) :
    WrittenOn (fun x' y' => R x' y' ∨ (x' = x ∧ y' = y)) Q o (s.write x y v) := by
  obtain ⟨h1, h2, h3, h4, h5, h6, h7⟩ := h
  refine ⟨h1, h2, h3, h4, h5, ?_, ?_⟩
  · intro x' y' hxy
    by_cases hc : x' = x ∧ y' = y
    · obtain ⟨rfl, rfl⟩ := hc
      simpa [ImageVariant.write] using hv
    · have hR : R x' y' := by tauto
      simp only [ImageVariant.write]
      rw [if_neg (by tauto)]
      exact h6 x' y' hR
  · intro c x' y' hn
    simp only [ImageVariant.write]
    rw [if_neg (by tauto)]
    exact h7 c x' y' (by tauto)

theorem WrittenOn.chain {R R' : Nat → Nat → Prop} {Q : Nat → Nat → ℚ → Prop}
    {o s t : ImageVariant} (h : WrittenOn R Q o s) (h' : WrittenOn R' Q s t) :
    WrittenOn (fun x y => R x y ∨ R' x y) Q o t := by
  obtain ⟨h1, h2, h3, h4, h5, h6, h7⟩ := h
  obtain ⟨k1, k2, k3, k4, k5, k6, k7⟩ := h'
  refine ⟨k1.trans h1, k2.trans h2, k3.trans h3, k4.trans h4, k5.trans h5, ?_, ?_⟩
  · intro x y hxy
    by_cases hc : R' x y
    · exact k6 x y hc
    · rw [k7 0 x y (by tauto)]
      exact h6 x y (by tauto)
  · intro c x y hn
    rw [k7 c x y (by tauto)]
    exact h7 c x y (by tauto)

/-- A nest of a row loop over `[lo, hi)` and a column loop over `[0, W)` whose
body stores at `(x, y)` a value satisfying `Q x y`; the body may rely on the
sample at `(x, y)` still being the one of the reference raster `o`. -/
theorem rows_written (body : Nat → Nat → ImageVariant → Except Error ImageVariant)
    (Q : Nat → Nat → ℚ → Prop) (W lo hi w h : Nat) (o : ImageVariant)
    (hb : ∀ x y s, x < W → lo ≤ y → y < hi → s.width = w → s.height = h →
      s.samples 0 x y = o.samples 0 x y → ∃ v, body x y s = .ok (s.write x y v) ∧ Q x y v)
    (hle : lo ≤ hi) (s : ImageVariant) (hw : s.width = w) (hh : s.height = h)
    (hso : ∀ x y, lo ≤ y → s.samples 0 x y = o.samples 0 x y) :
    ∃ s', forRange lo hi (fun y s => forRange 0 W (fun x s => body x y s) s) s = .ok s' ∧
      WrittenOn (fun x y => x < W ∧ lo ≤ y ∧ y < hi) Q s s' := by
  refine forRange_inv _ (fun k t => WrittenOn (fun x y => x < W ∧ lo ≤ y ∧ y < k) Q s t)
    lo hi hle s (WrittenOn.init Q s _ (by intro x y; omega)) ?_
  intro k t hk hk' hInv
  obtain ⟨u, hu, hI⟩ := forRange_inv (fun x s => body x k s)
    (fun j u => WrittenOn (fun x y => (x < W ∧ lo ≤ y ∧ y < k) ∨ (x < j ∧ y = k)) Q s u)
    0 W (Nat.zero_le _) t (hInv.mono (by intro x y; omega)) (by
      intro j u _ hj hI
      have hsame : u.samples 0 j k = o.samples 0 j k := by
        rw [hI.2.2.2.2.2.2 0 j k (by omega)]
        exact hso j k hk
      obtain ⟨v, hv, hQ⟩ := hb j k u hj hk hk' (hI.2.2.1.trans hw) (hI.2.2.2.1.trans hh) hsame
      refine ⟨u.write j k v, hv, ?_⟩
      exact (hI.store j k v hQ).mono (by intro x y; omega))
  exact ⟨u, hu, hI.mono (by intro x y; omega)⟩

/-- When every band function writes its band with values satisfying `Q`,
`ParallelProcess` writes all rows below `H` so, for every worker count `N ≥ 1`;
a band function may rely on the rows from its first row on still being those of
the initial raster. -/
theorem parallel_written (host : Host)
    (func : Nat → Nat → ImageVariant → Except Error ImageVariant)
    (Q : Nat → Nat → ℚ → Prop) (W H w h : Nat) (hN : 1 ≤ host.NumberOfThreads)
    (o : ImageVariant)
    (hf : ∀ lo hi s, lo ≤ hi → hi ≤ H → s.width = w → s.height = h →
      (∀ x y, lo ≤ y → s.samples 0 x y = o.samples 0 x y) →
      ∃ s', func lo hi s = .ok s' ∧ WrittenOn (fun x y => x < W ∧ lo ≤ y ∧ y < hi) Q s s')
    (hw : o.width = w) (hh : o.height = h) :
    ∃ s', ParallelProcess host H func o = .ok s' ∧ WrittenOn (fun x y => x < W ∧ y < H) Q o s' := by
  unfold ParallelProcess
  obtain ⟨u, hu, hI⟩ := forRange_inv
    (fun i s => func (startRow H host.NumberOfThreads i) (endRow H host.NumberOfThreads i) s)
    (fun k t => WrittenOn (fun x y => x < W ∧
      y < (if k = host.NumberOfThreads then H else startRow H host.NumberOfThreads k)) Q o t)
    0 host.NumberOfThreads (Nat.zero_le _) o
    (WrittenOn.init Q o _ (by
      intro x y
      have h0 : ¬ 0 = host.NumberOfThreads := by omega
      rw [if_neg h0]
      simp [startRow])) (by
      intro k t _ hk hI
      have hse := startRow_le_endRow H host.NumberOfThreads k hk
      have heh := endRow_le_height H host.NumberOfThreads k hk
      have hkN : ¬ k = host.NumberOfThreads := by omega
      rw [if_neg hkN] at hI
      obtain ⟨t', ht', hfill⟩ := hf _ _ t hse heh (hI.2.2.1.trans hw) (hI.2.2.2.1.trans hh)
        (fun x y hy => hI.2.2.2.2.2.2 0 x y (by omega))
      refine ⟨t', ht', (hI.chain hfill).mono ?_⟩
      intro x y
      by_cases hlast : k + 1 = host.NumberOfThreads
      · rw [if_pos hlast]
        have hk1 : k = host.NumberOfThreads - 1 := by omega
        have : endRow H host.NumberOfThreads k = H := by rw [hk1]; exact endRow_last _ _
        omega
      · rw [if_neg hlast]
        have := endRow_eq_startRow_succ H host.NumberOfThreads k (by omega)
        omega)
  refine ⟨u, hu, hI.mono ?_⟩
  intro x y
  rw [if_pos rfl]

/-! ## Nonlinear Multi-Layer Approximation -/

theorem convertNeural_fill (host : Host) (p : RGBToHAProcess)
    (red green blue output : ImageVariant) (hN : 1 ≤ host.NumberOfThreads)
    (hgw : green.width = red.width) (hgh : green.height = red.height)
    (hbw : blue.width = red.width) (hbh : blue.height = red.height)
    (how : output.width = red.width) (hoh : output.height = red.height) :
    ∃ out, ConvertNeuralApproximation host p red green blue output = .ok out ∧
      FilledOn (fun x y => x < red.width ∧ y < red.height)
        (fun x y => clamp01 (neuralHaValue host
          (red.samples 0 x y) (green.samples 0 x y) (blue.samples 0 x y)))
        output out :=
  pointwise_fill host (fun r g b => clamp01 (neuralHaValue host r g b))
    red green blue output hN hgw hgh hbw hbh how hoh

theorem neuralHaValue_eq (host : Host) (r g b : ℚ) :
    neuralHaValue host r g b =
      1 / (1 + host.exp (-(0.85 * r + 0.10 * g + 0.05 * b + 0.02 * (r * g) + 0.01 * (r * b))))
        * (1 - 0.2 * 0)
      + 1 / (1 + host.exp (-(0.70 * r + 0.20 * g + 0.08 * b + 0.01 * (r * g) + 0.01 * (r * b))))
        * (1 - 0.2 * 1)
      + 1 / (1 + host.exp (-(0.60 * r + 0.25 * g + 0.12 * b + 0.02 * (r * g) + 0.01 * (r * b))))
        * (1 - 0.2 * 2) := by
  have w00 : weights 0 0 = 0.85 := rfl
  have w01 : weights 0 1 = 0.10 := rfl
  have w02 : weights 0 2 = 0.05 := rfl
  have w03 : weights 0 3 = 0.02 := rfl
  have w04 : weights 0 4 = 0.01 := rfl
  have w10 : weights 1 0 = 0.70 := rfl
  have w11 : weights 1 1 = 0.20 := rfl
  have w12 : weights 1 2 = 0.08 := rfl
  have w13 : weights 1 3 = 0.01 := rfl
  have w14 : weights 1 4 = 0.01 := rfl
  have w20 : weights 2 0 = 0.60 := rfl
  have w21 : weights 2 1 = 0.25 := rfl
  have w22 : weights 2 2 = 0.12 := rfl
  have w23 : weights 2 3 = 0.02 := rfl
  have w24 : weights 2 4 = 0.01 := rfl
  simp only [neuralHaValue, List.range, List.range.loop, List.foldl,
    w00, w01, w02, w03, w04, w10, w11, w12, w13, w14, w20, w21, w22, w23, w24]
  norm_num

/-- C11: Nonlinear Multi-Layer Approximation succeeds and stores at every pixel
`clamp01` of the sum over the layers `l = 0, 1, 2` of
`sigmoid(w_l . (r, g, b, r g, r b)) * (1 - 0.2 l)`, with
`sigmoid(t) = 1 / (1 + exp(-t))` and the weight vectors
`w_0 = (0.85, 0.10, 0.05, 0.02, 0.01)`, `w_1 = (0.70, 0.20, 0.08, 0.01, 0.01)`,
`w_2 = (0.60, 0.25, 0.12, 0.02, 0.01)`; `exp` is the exponential of the host. -/
theorem convertNeural_formula (host : Host) (p : RGBToHAProcess)
    (red green blue output : ImageVariant) (hN : 1 ≤ host.NumberOfThreads)
    (hgw : green.width = red.width) (hgh : green.height = red.height)
    (hbw : blue.width = red.width) (hbh : blue.height = red.height)
    (how : output.width = red.width) (hoh : output.height = red.height) :
    ∃ out, ConvertNeuralApproximation host p red green blue output = .ok out ∧
      out.width = output.width ∧ out.height = output.height ∧
      ∀ x y, x < red.width → y < red.height →
        out.samples 0 x y = clamp01
          (1 / (1 + host.exp (-(0.85 * red.samples 0 x y + 0.10 * green.samples 0 x y
              + 0.05 * blue.samples 0 x y + 0.02 * (red.samples 0 x y * green.samples 0 x y)
              + 0.01 * (red.samples 0 x y * blue.samples 0 x y)))) * (1 - 0.2 * 0)
          + 1 / (1 + host.exp (-(0.70 * red.samples 0 x y + 0.20 * green.samples 0 x y
              + 0.08 * blue.samples 0 x y + 0.01 * (red.samples 0 x y * green.samples 0 x y)
              + 0.01 * (red.samples 0 x y * blue.samples 0 x y)))) * (1 - 0.2 * 1)
          + 1 / (1 + host.exp (-(0.60 * red.samples 0 x y + 0.25 * green.samples 0 x y
              + 0.12 * blue.samples 0 x y + 0.02 * (red.samples 0 x y * green.samples 0 x y)
              + 0.01 * (red.samples 0 x y * blue.samples 0 x y)))) * (1 - 0.2 * 2)) := by
  obtain ⟨out, hout, hfill⟩ :=
    convertNeural_fill host p red green blue output hN hgw hgh hbw hbh how hoh
  refine ⟨out, hout, hfill.2.2.1, hfill.2.2.2.1, ?_⟩
  intro x y hx hy
  rw [hfill.2.2.2.2.2.1 x y ⟨hx, hy⟩]
  simp only [neuralHaValue_eq]

/-- Witness for C11: a 2 x 2 raster, two workers. -/
theorem convertNeural_formula_witness :
    ∃ out, ConvertNeuralApproximation (hostWith 2) {}
        (constantRaster 2 2 (1/2)) (constantRaster 2 2 (1/4)) (constantRaster 2 2 (1/8))
        (ImageVariant.CreateFloatImage 2 2) = .ok out ∧
      out.samples 0 1 1 = clamp01
        (1 / (1 + (hostWith 2).exp (-(0.85 * (1/2) + 0.10 * (1/4) + 0.05 * (1/8)
            + 0.02 * ((1/2) * (1/4)) + 0.01 * ((1/2) * (1/8))))) * (1 - 0.2 * 0)
        + 1 / (1 + (hostWith 2).exp (-(0.70 * (1/2) + 0.20 * (1/4) + 0.08 * (1/8)
            + 0.01 * ((1/2) * (1/4)) + 0.01 * ((1/2) * (1/8))))) * (1 - 0.2 * 1)
        + 1 / (1 + (hostWith 2).exp (-(0.60 * (1/2) + 0.25 * (1/4) + 0.12 * (1/8)
            + 0.02 * ((1/2) * (1/4)) + 0.01 * ((1/2) * (1/8))))) * (1 - 0.2 * 2)) := by
  obtain ⟨out, h1, _, _, h2⟩ := convertNeural_formula (hostWith 2) {}
    (constantRaster 2 2 (1/2)) (constantRaster 2 2 (1/4)) (constantRaster 2 2 (1/8))
    (ImageVariant.CreateFloatImage 2 2) (by decide) rfl rfl rfl rfl rfl rfl
  exact ⟨out, h1, h2 1 1 (by decide) (by decide)⟩

/-! ## Range of the conversion results -/

theorem clamp01_mem (v : ℚ) : 0 ≤ clamp01 v ∧ clamp01 v ≤ 1 := by
  unfold clamp01
  exact ⟨le_max_left _ _, max_le zero_le_one (min_le_left _ _)⟩

/-- C12: each of the four conversions succeeds on every input and every
parameter record, and every sample of its output lies in `[0, 1]`, whatever the
input samples and the wavelength are. -/
theorem conversions_in_unit (host : Host) (p : RGBToHAProcess)
    (red green blue output : ImageVariant) (hN : 1 ≤ host.NumberOfThreads)
    (hgw : green.width = red.width) (hgh : green.height = red.height)
    (hbw : blue.width = red.width) (hbh : blue.height = red.height)
    (how : output.width = red.width) (hoh : output.height = red.height) :
    (∃ out, ConvertStandardRGBToHA host p red green blue output = .ok out ∧
      ∀ x y, x < red.width → y < red.height →
        0 ≤ out.samples 0 x y ∧ out.samples 0 x y ≤ 1) ∧
    (∃ out, ConvertAdvancedSpectral host p red green blue output = .ok out ∧
      ∀ x y, x < red.width → y < red.height →
        0 ≤ out.samples 0 x y ∧ out.samples 0 x y ≤ 1) ∧
    (∃ out, ConvertAdaptiveMultiScale host p red green blue output = .ok out ∧
      ∀ x y, x < red.width → y < red.height →
        0 ≤ out.samples 0 x y ∧ out.samples 0 x y ≤ 1) ∧
    (∃ out, ConvertNeuralApproximation host p red green blue output = .ok out ∧
      ∀ x y, x < red.width → y < red.height →
        0 ≤ out.samples 0 x y ∧ out.samples 0 x y ≤ 1) := by
  refine ⟨?_, ?_, ?_, ?_⟩
  · obtain ⟨out, hout, hfill⟩ :=
      convertStandard_fill host p red green blue output hN hgw hgh hbw hbh how hoh
    refine ⟨out, hout, fun x y hx hy => ?_⟩
    rw [hfill.2.2.2.2.2.1 x y ⟨hx, hy⟩]
    exact clamp01_mem _
  · obtain ⟨out, hout, hfill⟩ :=
      convertSpectral_fill host p red green blue output hN hgw hgh hbw hbh how hoh
    refine ⟨out, hout, fun x y hx hy => ?_⟩
    rw [hfill.2.2.2.2.2.1 x y ⟨hx, hy⟩]
    exact clamp01_mem _
  · obtain ⟨_, _, _, out, _, _, _, _, _, hout, hfill⟩ :=
      convertAdaptive_fill host p red green blue output hN hgw hgh hbw hbh how hoh
    refine ⟨out, hout, fun x y hx hy => ?_⟩
    rw [hfill.2.2.2.2.2.1 x y ⟨hx, hy⟩]
    exact clamp01_mem _
  · obtain ⟨out, hout, hfill⟩ :=
      convertNeural_fill host p red green blue output hN hgw hgh hbw hbh how hoh
    refine ⟨out, hout, fun x y hx hy => ?_⟩
    rw [hfill.2.2.2.2.2.1 x y ⟨hx, hy⟩]
    exact clamp01_mem _

/-- Witness for C12: input samples `5` and `-3` outside `[0, 1]` and wavelength
`700`; the Standard Linear output sample at `(0, 0)` still lies in `[0, 1]`. -/
theorem conversions_in_unit_witness :
    ∃ out, ConvertStandardRGBToHA (hostWith 3) { m_haWavelength := 700 }
        (constantRaster 2 2 5) (constantRaster 2 2 (-3)) (constantRaster 2 2 5)
        (ImageVariant.CreateFloatImage 2 2) = .ok out ∧
      0 ≤ out.samples 0 0 0 ∧ out.samples 0 0 0 ≤ 1 := by
  obtain ⟨out, h1, h2⟩ := (conversions_in_unit (hostWith 3) { m_haWavelength := 700 }
    (constantRaster 2 2 5) (constantRaster 2 2 (-3)) (constantRaster 2 2 5)
    (ImageVariant.CreateFloatImage 2 2) (by decide) rfl rfl rfl rfl rfl rfl).1
  exact ⟨out, h1, h2 0 0 (by decide) (by decide)⟩

/-! ## Post-processing stages -/

/-- The per-pixel body of `ApplyEnhancements` succeeds inside the raster (the
four neighbour reads are guarded by the interior test) and returns a clamped
value. -/
theorem enhancePixel_ok (mean stdDev strength : ℚ) (W H : Nat) (output : ImageVariant)
    (x y : Nat) (hw : output.width = W) (hh : output.height = H) (hx : x < W) (hy : y < H) :
    ∃ v, enhancePixel mean stdDev strength W H output x y = .ok (clamp01 v) := by
  unfold enhancePixel
  by_cases hint : x > 0 ∧ x < W - 1 ∧ y > 0 ∧ y < H - 1
  · have h1 : x - 1 < W := by omega
    have h2 : x + 1 < W := by omega
    have h3 : y - 1 < H := by omega
    have h4 : y + 1 < H := by omega
    simp only [ImageVariant.Pixel, hw, hh, hx, hy, h1, h2, h3, h4, hint, and_self, if_true,
      bind, Except.bind, pure, Except.pure]
    exact ⟨_, rfl⟩
  · simp only [ImageVariant.Pixel, hw, hh, hx, hy, hint, and_self, if_true, if_false,
      bind, Except.bind, pure, Except.pure]
    exact ⟨_, rfl⟩

/-- `ApplyEnhancements` succeeds on every raster and every strength, keeps the
extent, and leaves every sample of channel 0 in `[0, 1]`. -/
theorem applyEnhancements_written (host : Host) (p : RGBToHAProcess) (image : ImageVariant)
    (hN : 1 ≤ host.NumberOfThreads) :
    ∃ out, ApplyEnhancements host p image = .ok out ∧
      WrittenOn (fun x y => x < image.width ∧ y < image.height)
        (fun _ _ v => 0 ≤ v ∧ v ≤ 1) image out := by
  unfold ApplyEnhancements
  refine parallel_written host _ _ image.width image.height image.width image.height hN image
    ?_ rfl rfl
  intro lo hi s hle hhi hsw hsh hso
  refine rows_written (fun x y output => do
      let pixel ← enhancePixel (host.Mean image) (host.StdDev image) p.m_enhancementStrength
        image.width image.height output x y
      output.SetPixel x y pixel) _ image.width lo hi image.width image.height s ?_ hle s hsw hsh
    (fun _ _ _ => rfl)
  intro x y t hx _ hy htw hth _
  have hy' : y < image.height := by omega
  obtain ⟨v, hv⟩ := enhancePixel_ok (host.Mean image) (host.StdDev image)
    p.m_enhancementStrength image.width image.height t x y htw hth hx hy'
  refine ⟨clamp01 v, ?_, clamp01_mem v⟩
  beta_reduce
  rw [hv]
  simp only [bind, Except.bind, ImageVariant.SetPixel, htw, hth]
  rw [if_pos ⟨hx, hy'⟩]

/-- `ApplyContrastBoost` with `range = p95 - p5 > 0` succeeds and replaces
every sample of channel 0 by `boostPixel` of its previous value. -/
theorem applyContrastBoost_fill (host : Host) (p : RGBToHAProcess) (image : ImageVariant)
    (hN : 1 ≤ host.NumberOfThreads)
    (hrange : host.Percentile image 95.0 - host.Percentile image 5.0 > 0) :
    ∃ out, ApplyContrastBoost host p image = .ok out ∧
      FilledOn (fun x y => x < image.width ∧ y < image.height)
        (fun x y => boostPixel (host.Percentile image 5.0)
          (host.Percentile image 95.0 - host.Percentile image 5.0) p.m_contrastBoost
          (image.samples 0 x y))
        image out := by
  unfold ApplyContrastBoost
  simp only [hrange, if_true]
  refine parallel_written host _
    (fun x y v => v = boostPixel (host.Percentile image 5.0)
      (host.Percentile image 95.0 - host.Percentile image 5.0) p.m_contrastBoost
      (image.samples 0 x y))
    image.width image.height image.width image.height hN image ?_ rfl rfl
  intro lo hi s hle hhi hsw hsh hso
  refine rows_written (fun x y output => do
      let pixel ← output.Pixel x y
      output.SetPixel x y (boostPixel (host.Percentile image 5.0)
        (host.Percentile image 95.0 - host.Percentile image 5.0) p.m_contrastBoost pixel))
    _ image.width lo hi image.width image.height image ?_ hle s hsw hsh hso
  intro x y t hx _ hy htw hth hsame
  have hy' : y < image.height := by omega
  refine ⟨_, ?_, rfl⟩
  simp only [ImageVariant.Pixel, ImageVariant.SetPixel, htw, hth, hx, hy', and_self, if_true,
    bind, Except.bind, hsame]

theorem applyContrastBoost_flat (host : Host) (p : RGBToHAProcess) (image : ImageVariant)
    (hrange : ¬ host.Percentile image 95.0 - host.Percentile image 5.0 > 0) :
    ApplyContrastBoost host p image = .ok image := by
  unfold ApplyContrastBoost
  simp only [hrange, if_false]

/-- The neighbourhood loops of the bilateral pass never fail (every read is
guarded), and any property of `(weightedSum, weightSum)` that holds initially
and is kept when an in-bounds neighbour is added with a weight of the form
`exp a * exp b` holds for the result. -/
theorem bilateralAccumulate_inv (host : Host) (sigmaSpace sigmaColor : ℚ)
    (image : ImageVariant) (x y : Nat) (centerPixel : ℚ) (I : ℚ × ℚ → Prop)
    (h0 : I (0, 0))
    (hstep : ∀ (acc : ℚ × ℚ) (nx ny : Nat) (w : ℚ), nx < image.width → ny < image.height →
      (∃ a b, w = host.exp a * host.exp b) → I acc →
      I (acc.1 + image.samples 0 nx ny * w, acc.2 + w)) :
    ∃ acc, bilateralAccumulate host sigmaSpace sigmaColor image.width image.height image x y
      centerPixel = .ok acc ∧ I acc := by
  unfold bilateralAccumulate
  have h00 : I ((0.0 : ℚ), (0.0 : ℚ)) := by norm_num; exact h0
  refine forRange_inv _ (fun _ acc => I acc) 0 (2 * 3 + 1) (Nat.zero_le _) _ h00 ?_
  intro i acc _ _ hacc
  refine forRange_inv _ (fun _ acc => I acc) 0 (2 * 3 + 1) (Nat.zero_le _) acc hacc ?_
  intro j acc' _ _ hacc'
  by_cases hg : (x : Int) + ((j : Int) - (3 : Nat)) ≥ 0 ∧
      (x : Int) + ((j : Int) - (3 : Nat)) < image.width ∧
      (y : Int) + ((i : Int) - (3 : Nat)) ≥ 0 ∧ (y : Int) + ((i : Int) - (3 : Nat)) < image.height
  · have hx : ((x : Int) + ((j : Int) - (3 : Nat))).toNat < image.width := by omega
    have hy : ((y : Int) + ((i : Int) - (3 : Nat))).toNat < image.height := by omega
    have hnew := hstep acc' ((x : Int) + ((j : Int) - (3 : Nat))).toNat
      ((y : Int) + ((i : Int) - (3 : Nat))).toNat
      (host.exp (((-(((j : Int) - (3 : Nat)) * ((j : Int) - (3 : Nat))
          + ((i : Int) - (3 : Nat)) * ((i : Int) - (3 : Nat))) : Int) : ℚ)
          / (2 * sigmaSpace * sigmaSpace))
        * host.exp (-(centerPixel - image.samples 0 ((x : Int) + ((j : Int) - (3 : Nat))).toNat
            ((y : Int) + ((i : Int) - (3 : Nat))).toNat)
          * (centerPixel - image.samples 0 ((x : Int) + ((j : Int) - (3 : Nat))).toNat
            ((y : Int) + ((i : Int) - (3 : Nat))).toNat) / (2 * sigmaColor * sigmaColor)))
      hx hy ⟨_, _, rfl⟩ hacc'
    refine ⟨_, ?_, hnew⟩
    simp only [hg, and_self, if_true, ImageVariant.Pixel, hx, hy, bind, Except.bind, pure,
      Except.pure]
  · refine ⟨acc', ?_, hacc'⟩
    simp only [hg, if_false, pure, Except.pure]

/-- `ApplyNoiseReduction` succeeds: the first pass fills a temporary raster with
filtered values, each satisfying any property `Qt` that the filtered value of
every pixel has; the blend pass replaces every sample `o` by
`o * (1 - n) + f * n` with `f` the temporary sample. -/
theorem applyNoiseReduction_written (host : Host) (p : RGBToHAProcess) (image : ImageVariant)
    (hN : 1 ≤ host.NumberOfThreads) (Qt : Nat → Nat → ℚ → Prop)
    (hQt : ∀ x y acc, x < image.width → y < image.height →
      bilateralAccumulate host 2.0 0.1 image.width image.height image x y (image.samples 0 x y)
        = .ok acc →
      Qt x y (if acc.2 > 0 then acc.1 / acc.2 else image.samples 0 x y)) :
    ∃ temp out, ApplyNoiseReduction host p image = .ok out ∧
      WrittenOn (fun x y => x < image.width ∧ y < image.height) Qt
        (ImageVariant.CreateFloatImage image.width image.height) temp ∧
      FilledOn (fun x y => x < image.width ∧ y < image.height)
        (fun x y => image.samples 0 x y * (1.0 - p.m_noiseReduction)
          + temp.samples 0 x y * p.m_noiseReduction)
        image out := by
  obtain ⟨temp, htemp, hT⟩ := parallel_written host
    (fun startRow endRow tempImage =>
      forRange startRow endRow
        (fun y tempImage =>
          forRange 0 image.width
            (fun x tempImage => do
              let centerPixel ← image.Pixel x y
              let acc ← bilateralAccumulate host 2.0 0.1 image.width image.height image x y
                centerPixel
              tempImage.SetPixel x y (if acc.2 > 0 then acc.1 / acc.2 else centerPixel))
            tempImage)
        tempImage)
    Qt image.width image.height image.width image.height hN
    (ImageVariant.CreateFloatImage image.width image.height) (by
      intro lo hi s hle hhi hsw hsh hso
      refine rows_written (fun x y tempImage => do
          let centerPixel ← image.Pixel x y
          let acc ← bilateralAccumulate host 2.0 0.1 image.width image.height image x y
            centerPixel
          tempImage.SetPixel x y (if acc.2 > 0 then acc.1 / acc.2 else centerPixel))
        Qt image.width lo hi image.width image.height s ?_ hle s hsw hsh (fun _ _ _ => rfl)
      intro x y t hx _ hy htw hth _
      have hy' : y < image.height := by omega
      obtain ⟨acc, hacc, _⟩ := bilateralAccumulate_inv host 2.0 0.1 image x y
        (image.samples 0 x y) (fun _ => True) trivial (fun _ _ _ _ _ _ _ _ => trivial)
      refine ⟨_, ?_, hQt x y acc hx hy' hacc⟩
      simp only [ImageVariant.Pixel, ImageVariant.SetPixel, hx, hy', htw, hth, and_self, if_true,
        bind, Except.bind, hacc])
    rfl rfl
  obtain ⟨out, hout, hO⟩ := parallel_written host
    (fun startRow endRow output =>
      forRange startRow endRow
        (fun y output =>
          forRange 0 image.width
            (fun x output => do
              let original ← output.Pixel x y
              let filtered ← temp.Pixel x y
              output.SetPixel x y
                (original * (1.0 - p.m_noiseReduction) + filtered * p.m_noiseReduction))
            output)
        output)
    (fun x y v => v = image.samples 0 x y * (1.0 - p.m_noiseReduction)
      + temp.samples 0 x y * p.m_noiseReduction)
    image.width image.height image.width image.height hN image (by
      intro lo hi s hle hhi hsw hsh hso
      refine rows_written (fun x y output => do
          let original ← output.Pixel x y
          let filtered ← temp.Pixel x y
          output.SetPixel x y
            (original * (1.0 - p.m_noiseReduction) + filtered * p.m_noiseReduction))
        _ image.width lo hi image.width image.height image ?_ hle s hsw hsh hso
      intro x y t hx _ hy htw hth hsame
      have hy' : y < image.height := by omega
      have htw' : temp.width = image.width := hT.2.2.1
      have hth' : temp.height = image.height := hT.2.2.2.1
      refine ⟨_, ?_, rfl⟩
      simp only [ImageVariant.Pixel, ImageVariant.SetPixel, hx, hy', htw, hth, htw', hth',
        and_self, if_true, bind, Except.bind, hsame])
    rfl rfl
  refine ⟨temp, out, ?_, hT, hO⟩
  simp only [ApplyNoiseReduction, htemp]
  exact hout

theorem WrittenOn.inUnit {o s : ImageVariant}
    (h : WrittenOn (fun x y => x < o.width ∧ y < o.height) (fun _ _ v => 0 ≤ v ∧ v ≤ 1) o s) :
    InUnit s := by
  intro x y hx hy
  exact h.2.2.2.2.2.1 x y ⟨by rw [← h.2.2.1]; exact hx, by rw [← h.2.2.2.1]; exact hy⟩

theorem FilledOn.unitRange {o s : ImageVariant} {F : Nat → Nat → ℚ}
    (h : FilledOn (fun x y => x < o.width ∧ y < o.height) F o s)
    (hF : ∀ x y, x < o.width → y < o.height → 0 ≤ F x y ∧ F x y ≤ 1) : InUnit s := by
  intro x y hx hy
  have hx' : x < o.width := by rw [← h.2.2.1]; exact hx
  have hy' : y < o.height := by rw [← h.2.2.2.1]; exact hy
  rw [h.2.2.2.2.2.1 x y ⟨hx', hy'⟩]
  exact hF x y hx' hy'

theorem applyEnhancements_inUnit (host : Host) (p : RGBToHAProcess) (image : ImageVariant)
    (hN : 1 ≤ host.NumberOfThreads) :
    ∃ out, ApplyEnhancements host p image = .ok out ∧ out.width = image.width ∧
      out.height = image.height ∧ InUnit out := by
  obtain ⟨out, hout, hW⟩ := applyEnhancements_written host p image hN
  exact ⟨out, hout, hW.2.2.1, hW.2.2.2.1, hW.inUnit⟩

/-- The filtered value of the bilateral pass is a weighted average with
non-negative weights, so it lies in `[0, 1]` when the samples do. -/
theorem bilateral_filtered_inUnit (host : Host) (hexp : ∀ t, 0 ≤ host.exp t)
    (image : ImageVariant) (himg : InUnit image) (x y : Nat) (acc : ℚ × ℚ)
    (hx : x < image.width) (hy : y < image.height)
    (hacc : bilateralAccumulate host 2.0 0.1 image.width image.height image x y
      (image.samples 0 x y) = .ok acc) :
    0 ≤ (if acc.2 > 0 then acc.1 / acc.2 else image.samples 0 x y) ∧
      (if acc.2 > 0 then acc.1 / acc.2 else image.samples 0 x y) ≤ 1 := by
  obtain ⟨acc', hacc', h1, h2⟩ := bilateralAccumulate_inv host 2.0 0.1 image x y
    (image.samples 0 x y) (fun a => 0 ≤ a.1 ∧ a.1 ≤ a.2) ⟨le_refl _, le_refl _⟩ (by
      intro a nx ny w hnx hny hw ha
      obtain ⟨e1, e2, rfl⟩ := hw
      have hw0 : 0 ≤ host.exp e1 * host.exp e2 := mul_nonneg (hexp e1) (hexp e2)
      obtain ⟨hv0, hv1⟩ := himg nx ny hnx hny
      refine ⟨add_nonneg ha.1 (mul_nonneg hv0 hw0), add_le_add ha.2 ?_⟩
      exact mul_le_of_le_one_left hw0 hv1)
  rw [hacc] at hacc'
  cases hacc'
  by_cases hpos : acc.2 > 0
  · simp only [hpos, if_true]
    exact ⟨div_nonneg h1 (le_of_lt hpos), (div_le_one hpos).2 h2⟩
  · simp only [hpos, if_false]
    exact himg x y hx hy

theorem applyNoiseReduction_inUnit (host : Host) (p : RGBToHAProcess) (image : ImageVariant)
    (hN : 1 ≤ host.NumberOfThreads) (hexp : ∀ t, 0 ≤ host.exp t) (himg : InUnit image)
    (hn0 : 0 ≤ p.m_noiseReduction) (hn1 : p.m_noiseReduction ≤ 1) :
    ∃ out, ApplyNoiseReduction host p image = .ok out ∧ out.width = image.width ∧
      out.height = image.height ∧ InUnit out := by
  obtain ⟨temp, out, hout, hT, hO⟩ := applyNoiseReduction_written host p image hN
    (fun _ _ v => 0 ≤ v ∧ v ≤ 1)
    (fun x y acc hx hy hacc => bilateral_filtered_inUnit host hexp image himg x y acc hx hy hacc)
  refine ⟨out, hout, hO.2.2.1, hO.2.2.2.1, hO.unitRange ?_⟩
  intro x y hx hy
  obtain ⟨ho0, ho1⟩ := himg x y hx hy
  obtain ⟨hf0, hf1⟩ := hT.2.2.2.2.2.1 x y ⟨hx, hy⟩
  have h10 : (1.0 : ℚ) = 1 := by norm_num
  rw [h10]
  constructor
  · exact add_nonneg (mul_nonneg ho0 (by linarith)) (mul_nonneg hf0 hn0)
  · nlinarith [mul_nonneg (sub_nonneg.2 ho1) (sub_nonneg.2 hn1),
      mul_nonneg (sub_nonneg.2 hf1) hn0]

theorem boostPixel_mem (p5 range cb v : ℚ) :
    0 ≤ boostPixel p5 range cb v ∧ boostPixel p5 range cb v ≤ 1 :=
  clamp01_mem _

theorem applyContrastBoost_inUnit (host : Host) (p : RGBToHAProcess) (image : ImageVariant)
    (hN : 1 ≤ host.NumberOfThreads) (himg : InUnit image) :
    ∃ out, ApplyContrastBoost host p image = .ok out ∧ out.width = image.width ∧
      out.height = image.height ∧ InUnit out := by
  by_cases hrange : host.Percentile image 95.0 - host.Percentile image 5.0 > 0
  · obtain ⟨out, hout, hfill⟩ := applyContrastBoost_fill host p image hN hrange
    exact ⟨out, hout, hfill.2.2.1, hfill.2.2.2.1,
      hfill.unitRange (fun x y _ _ => boostPixel_mem _ _ _ _)⟩
  · exact ⟨image, applyContrastBoost_flat host p image hrange, rfl, rfl, himg⟩

/-- The post-processing chain as a composition of its three guarded stages. -/
theorem postProcess_eq (host : Host) (p : RGBToHAProcess) (image : ImageVariant) :
    postProcess host p image =
      (if p.m_enhancementStrength > 0.0 then ApplyEnhancements host p image
        else .ok image).bind
      (fun o1 => (if p.m_noiseReduction > 0.0 then ApplyNoiseReduction host p o1
        else .ok o1).bind
      (fun o2 => if p.m_contrastBoost > 0.0 then ApplyContrastBoost host p o2 else .ok o2)) := by
  unfold postProcess
  by_cases he : p.m_enhancementStrength > 0.0 <;> by_cases hn : p.m_noiseReduction > 0.0 <;>
    simp only [he, hn, if_true, if_false, bind, Except.bind, pure, Except.pure]

/-- The post-processing chain succeeds and keeps every sample in `[0, 1]` when
the noise-reduction amount lies in `[0, 1]` and `exp` is non-negative. -/
theorem postProcess_inUnit (host : Host) (p : RGBToHAProcess) (image : ImageVariant)
    (hN : 1 ≤ host.NumberOfThreads) (hexp : ∀ t, 0 ≤ host.exp t) (himg : InUnit image)
    (hn0 : 0 ≤ p.m_noiseReduction) (hn1 : p.m_noiseReduction ≤ 1) :
    ∃ out, postProcess host p image = .ok out ∧ out.width = image.width ∧
      out.height = image.height ∧ InUnit out := by
  have h1 : ∃ o1, (if p.m_enhancementStrength > 0.0 then ApplyEnhancements host p image
      else .ok image) = .ok o1 ∧ o1.width = image.width ∧ o1.height = image.height ∧
      InUnit o1 := by
    by_cases he : p.m_enhancementStrength > 0.0
    · rw [if_pos he]; exact applyEnhancements_inUnit host p image hN
    · rw [if_neg he]; exact ⟨image, rfl, rfl, rfl, himg⟩
  obtain ⟨o1, ho1, hw1, hh1, hu1⟩ := h1
  have h2 : ∃ o2, (if p.m_noiseReduction > 0.0 then ApplyNoiseReduction host p o1
      else .ok o1) = .ok o2 ∧ o2.width = o1.width ∧ o2.height = o1.height ∧ InUnit o2 := by
    by_cases hn : p.m_noiseReduction > 0.0
    · rw [if_pos hn]; exact applyNoiseReduction_inUnit host p o1 hN hexp hu1 hn0 hn1
    · rw [if_neg hn]; exact ⟨o1, rfl, rfl, rfl, hu1⟩
  obtain ⟨o2, ho2, hw2, hh2, hu2⟩ := h2
  have h3 : ∃ o3, (if p.m_contrastBoost > 0.0 then ApplyContrastBoost host p o2
      else .ok o2) = .ok o3 ∧ o3.width = o2.width ∧ o3.height = o2.height ∧ InUnit o3 := by
    by_cases hc : p.m_contrastBoost > 0.0
    · rw [if_pos hc]; exact applyContrastBoost_inUnit host p o2 hN hu2
    · rw [if_neg hc]; exact ⟨o2, rfl, rfl, rfl, hu2⟩
  obtain ⟨o3, ho3, hw3, hh3, hu3⟩ := h3
  refine ⟨o3, ?_, hw3.trans (hw2.trans hw1), hh3.trans (hh2.trans hh1), hu3⟩
  rw [postProcess_eq, ho1]
  simp only [Except.bind]
  rw [ho2]
  exact ho3

/-- C13: on a raster whose samples lie in `[0, 1]`, with `noiseReduction` in
`[0, 1]` (and any enhancement strength and contrast boost, in particular those
in `[0, 1]`) and a non-negative `exp`, each post-processing stage succeeds and
leaves every sample in `[0, 1]`: Enhancement and Contrast Boost by their final
clamp, Noise Reduction because the filtered value is a weighted average of
samples in `[0, 1]` and the blend is a convex combination; so does the whole
chain of enabled stages. -/
theorem stages_in_unit (host : Host) (p : RGBToHAProcess) (image : ImageVariant)
    (hN : 1 ≤ host.NumberOfThreads) (hexp : ∀ t, 0 ≤ host.exp t) (himg : InUnit image)
    (hn0 : 0 ≤ p.m_noiseReduction) (hn1 : p.m_noiseReduction ≤ 1) :
    (∃ out, ApplyEnhancements host p image = .ok out ∧ InUnit out) ∧
    (∃ out, ApplyNoiseReduction host p image = .ok out ∧ InUnit out) ∧
    (∃ out, ApplyContrastBoost host p image = .ok out ∧ InUnit out) ∧
    (∃ out, postProcess host p image = .ok out ∧ InUnit out) := by
  obtain ⟨o1, h1, _, _, u1⟩ := applyEnhancements_inUnit host p image hN
  obtain ⟨o2, h2, _, _, u2⟩ := applyNoiseReduction_inUnit host p image hN hexp himg hn0 hn1
  obtain ⟨o3, h3, _, _, u3⟩ := applyContrastBoost_inUnit host p image hN himg
  obtain ⟨o4, h4, _, _, u4⟩ := postProcess_inUnit host p image hN hexp himg hn0 hn1
  exact ⟨⟨o1, h1, u1⟩, ⟨o2, h2, u2⟩, ⟨o3, h3, u3⟩, ⟨o4, h4, u4⟩⟩

/-- Witness for C13: a 3 x 3 raster of samples `1/2`, default strengths
`0.5, 0.3, 0.4`, two workers. -/
theorem stages_in_unit_witness :
    ∃ out, postProcess (hostWith 2) {} (constantRaster 3 3 (1/2)) = .ok out ∧ InUnit out :=
  (stages_in_unit (hostWith 2) {} (constantRaster 3 3 (1/2)) (by decide)
    (by intro t; simp [hostWith])
    (by intro x y _ _; simp only [constantRaster]; norm_num)
    (by norm_num) (by norm_num)).2.2.2

/-! ## Success of `Execute` -/

/-- The conversion selected by the `switch` succeeds for every method code and
every parameter record; the result has the extent of the output raster and
samples in `[0, 1]`. -/
theorem convert_ok (host : Host) (p : RGBToHAProcess)
    (red green blue output : ImageVariant) (hN : 1 ≤ host.NumberOfThreads)
    (hgw : green.width = red.width) (hgh : green.height = red.height)
    (hbw : blue.width = red.width) (hbh : blue.height = red.height)
    (how : output.width = red.width) (hoh : output.height = red.height) :
    ∃ out, convert host p red green blue output = .ok out ∧ out.width = output.width ∧
      out.height = output.height ∧ InUnit out := by
  have hunit : ∀ (F : Nat → Nat → ℚ) (out : ImageVariant),
      FilledOn (fun x y => x < red.width ∧ y < red.height) (fun x y => clamp01 (F x y))
        output out → InUnit out := by
    intro F out hfill x y hx hy
    rw [hfill.2.2.2.2.2.1 x y ⟨by rw [← how, ← hfill.2.2.1]; exact hx,
      by rw [← hoh, ← hfill.2.2.2.1]; exact hy⟩]
    exact clamp01_mem _
  obtain ⟨o0, h0, f0⟩ := convertStandard_fill host p red green blue output hN hgw hgh hbw hbh how hoh
  obtain ⟨o1, h1, f1⟩ := convertSpectral_fill host p red green blue output hN hgw hgh hbw hbh how hoh
  obtain ⟨_, _, _, o2, _, _, _, _, _, h2, f2⟩ :=
    convertAdaptive_fill host p red green blue output hN hgw hgh hbw hbh how hoh
  obtain ⟨o3, h3, f3⟩ := convertNeural_fill host p red green blue output hN hgw hgh hbw hbh how hoh
  unfold convert
  split
  · exact ⟨o0, h0, f0.2.2.1, f0.2.2.2.1, hunit _ o0 f0⟩
  · split
    · exact ⟨o1, h1, f1.2.2.1, f1.2.2.2.1, hunit _ o1 f1⟩
    · split
      · exact ⟨o2, h2, f2.2.2.1, f2.2.2.2.1, hunit _ o2 f2⟩
      · split
        · exact ⟨o3, h3, f3.2.2.1, f3.2.2.2.1, hunit _ o3 f3⟩
        · exact ⟨o0, h0, f0.2.2.1, f0.2.2.2.1, hunit _ o0 f0⟩

theorem applyNoiseReduction_ok (host : Host) (p : RGBToHAProcess) (image : ImageVariant)
    (hN : 1 ≤ host.NumberOfThreads) :
    ∃ out, ApplyNoiseReduction host p image = .ok out ∧ out.width = image.width ∧
      out.height = image.height := by
  obtain ⟨_, out, hout, _, hO⟩ := applyNoiseReduction_written host p image hN
    (fun _ _ _ => True) (fun _ _ _ _ _ _ => trivial)
  exact ⟨out, hout, hO.2.2.1, hO.2.2.2.1⟩

theorem applyContrastBoost_ok (host : Host) (p : RGBToHAProcess) (image : ImageVariant)
    (hN : 1 ≤ host.NumberOfThreads) :
    ∃ out, ApplyContrastBoost host p image = .ok out ∧ out.width = image.width ∧
      out.height = image.height := by
  by_cases hrange : host.Percentile image 95.0 - host.Percentile image 5.0 > 0
  · obtain ⟨out, hout, hfill⟩ := applyContrastBoost_fill host p image hN hrange
    exact ⟨out, hout, hfill.2.2.1, hfill.2.2.2.1⟩
  · exact ⟨image, applyContrastBoost_flat host p image hrange, rfl, rfl⟩

/-- The post-processing chain succeeds for every parameter record and keeps the
extent of the raster. -/
theorem postProcess_ok (host : Host) (p : RGBToHAProcess) (image : ImageVariant)
    (hN : 1 ≤ host.NumberOfThreads) :
    ∃ out, postProcess host p image = .ok out ∧ out.width = image.width ∧
      out.height = image.height := by
  have h1 : ∃ o1, (if p.m_enhancementStrength > 0.0 then ApplyEnhancements host p image
      else .ok image) = .ok o1 ∧ o1.width = image.width ∧ o1.height = image.height := by
    by_cases he : p.m_enhancementStrength > 0.0
    · rw [if_pos he]
      obtain ⟨o, ho, hw, hh, _⟩ := applyEnhancements_inUnit host p image hN
      exact ⟨o, ho, hw, hh⟩
    · rw [if_neg he]; exact ⟨image, rfl, rfl, rfl⟩
  obtain ⟨o1, ho1, hw1, hh1⟩ := h1
  have h2 : ∃ o2, (if p.m_noiseReduction > 0.0 then ApplyNoiseReduction host p o1
      else .ok o1) = .ok o2 ∧ o2.width = o1.width ∧ o2.height = o1.height := by
    by_cases hn : p.m_noiseReduction > 0.0
    · rw [if_pos hn]; exact applyNoiseReduction_ok host p o1 hN
    · rw [if_neg hn]; exact ⟨o1, rfl, rfl, rfl⟩
  obtain ⟨o2, ho2, hw2, hh2⟩ := h2
  have h3 : ∃ o3, (if p.m_contrastBoost > 0.0 then ApplyContrastBoost host p o2
      else .ok o2) = .ok o3 ∧ o3.width = o2.width ∧ o3.height = o2.height := by
    by_cases hc : p.m_contrastBoost > 0.0
    · rw [if_pos hc]; exact applyContrastBoost_ok host p o2 hN
    · rw [if_neg hc]; exact ⟨o2, rfl, rfl, rfl⟩
  obtain ⟨o3, ho3, hw3, hh3⟩ := h3
  refine ⟨o3, ?_, hw3.trans (hw2.trans hw1), hh3.trans (hh2.trans hh1)⟩
  rw [postProcess_eq, ho1]
  simp only [Except.bind]
  rw [ho2]
  exact ho3

/-- `Execute` on a valid colour image with at least three channels, written
with the three extracted channels. -/
theorem execute_unfold (host : Host) (p : RGBToHAProcess) (red green blue : ImageVariant)
    (hv : p.m_image.valid = true) (hc : p.m_image.color = true)
    (hn : 3 ≤ p.m_image.numberOfChannels)
    (hr : p.m_image.GetChannel 0 = .ok red) (hg : p.m_image.GetChannel 1 = .ok green)
    (hb : p.m_image.GetChannel 2 = .ok blue) :
    Execute host p =
      (convert host p red green blue
        (ImageVariant.CreateFloatImage p.m_image.width p.m_image.height)).bind
        (fun out => (postProcess host p out).bind
          (fun out => .ok { p with m_image := out })) := by
  have hlt : ¬ p.m_image.numberOfChannels < 3 := by omega
  simp only [Execute, hv, hc, hr, hg, hb, hlt]
  simp [bind, Except.bind, pure, Except.pure]

/-- `Execute` succeeds on every valid colour image with at least three
channels, for every parameter record and every worker count `N ≥ 1`; the output
is what the post-processing chain makes of the selected conversion's result. -/
theorem execute_ok (host : Host) (p : RGBToHAProcess) (hN : 1 ≤ host.NumberOfThreads)
    (hv : p.m_image.valid = true) (hc : p.m_image.color = true)
    (hn : 3 ≤ p.m_image.numberOfChannels) :
    ∃ red green blue conv out,
      p.m_image.GetChannel 0 = .ok red ∧ p.m_image.GetChannel 1 = .ok green ∧
      p.m_image.GetChannel 2 = .ok blue ∧
      convert host p red green blue
        (ImageVariant.CreateFloatImage p.m_image.width p.m_image.height) = .ok conv ∧
      conv.width = p.m_image.width ∧ conv.height = p.m_image.height ∧ InUnit conv ∧
      postProcess host p conv = .ok out ∧
      out.width = p.m_image.width ∧ out.height = p.m_image.height ∧
      Execute host p = .ok { p with m_image := out } := by
  obtain ⟨r, hr, hr1, hr2, _⟩ := getChannel_ok p.m_image 0 (by omega)
  obtain ⟨g, hg, hg1, hg2, _⟩ := getChannel_ok p.m_image 1 (by omega)
  obtain ⟨b, hb, hb1, hb2, _⟩ := getChannel_ok p.m_image 2 (by omega)
  obtain ⟨conv, hconv, hcw, hch, hcu⟩ := convert_ok host p r g b
    (ImageVariant.CreateFloatImage p.m_image.width p.m_image.height) hN
    (hg1.trans hr1.symm) (hg2.trans hr2.symm) (hb1.trans hr1.symm) (hb2.trans hr2.symm)
    hr1.symm hr2.symm
  obtain ⟨out, hout, how, hoh⟩ := postProcess_ok host p conv hN
  refine ⟨r, g, b, conv, out, hr, hg, hb, hconv, hcw, hch, hcu, hout, how.trans hcw,
    hoh.trans hch, ?_⟩
  rw [execute_unfold host p r g b hv hc hn hr hg hb, hconv]
  simp only [Except.bind, hout]

theorem convert_qualityMode (host : Host) (p : RGBToHAProcess) (q : Int)
    (red green blue output : ImageVariant) :
    convert host { p with m_qualityMode := q } red green blue output
      = convert host p red green blue output := rfl

theorem postProcess_qualityMode (host : Host) (p : RGBToHAProcess) (q : Int)
    (image : ImageVariant) :
    postProcess host { p with m_qualityMode := q } image = postProcess host p image := rfl

theorem postProcess_method (host : Host) (p : RGBToHAProcess) (m : Int)
    (image : ImageVariant) :
    postProcess host { p with m_conversionMethod := m } image = postProcess host p image := rfl

theorem convertStandard_method (host : Host) (p : RGBToHAProcess) (m : Int)
    (red green blue output : ImageVariant) :
    ConvertStandardRGBToHA host { p with m_conversionMethod := m } red green blue output
      = ConvertStandardRGBToHA host p red green blue output := rfl

/-- C19: `qualityMode` is advisory only. For every input and every two parameter
records that differ only in `qualityMode`, `Execute` fails with the same error
or succeeds with the same output raster: the run with `qualityMode` replaced by
`q` is the original run with `qualityMode` replaced by `q` in the resulting
process, and the two runs agree on the error or on the output image. -/
theorem execute_qualityMode (host : Host) (p : RGBToHAProcess) (q : Int) :
    Execute host { p with m_qualityMode := q }
      = (Execute host p).map (fun p' => { p' with m_qualityMode := q }) ∧
    (Execute host { p with m_qualityMode := q }).map (fun p' => p'.m_image)
      = (Execute host p).map (fun p' => p'.m_image) := by
  have key : Execute host { p with m_qualityMode := q }
      = (Execute host p).map (fun p' => { p' with m_qualityMode := q }) := by
    unfold Execute
    simp only [convert_qualityMode, postProcess_qualityMode]
    by_cases hv : p.m_image.valid = true
    · by_cases hc : p.m_image.color = true
      · by_cases hn : p.m_image.numberOfChannels < 3
        · simp [hv, hc, hn, Except.map]
        · simp only [hv, hc, hn, not_true_eq_false, if_false, bind, Except.bind, pure,
            Except.pure]
          cases p.m_image.GetChannel 0 <;> simp only [Except.map]
          cases p.m_image.GetChannel 1 <;> simp only [Except.map]
          cases p.m_image.GetChannel 2 <;> simp only [Except.map]
          rename_i r g b
          cases convert host p r g b
            (ImageVariant.CreateFloatImage p.m_image.width p.m_image.height) <;>
            simp only [Except.map]
          rename_i conv
          cases postProcess host p conv <;> simp only [Except.map]
      · simp [hv, hc, Except.map]
    · simp [hv, Except.map]
  refine ⟨key, ?_⟩
  rw [key]
  cases Execute host p <;> rfl

/-- For non-negative strengths the guards `strength > 0.0` of `Execute` skip a
stage exactly when its strength is `0.0`. -/
theorem postProcess_eq_specPipeline (host : Host) (p : RGBToHAProcess) (image : ImageVariant)
    (he : 0 ≤ p.m_enhancementStrength) (hn : 0 ≤ p.m_noiseReduction)
    (hc : 0 ≤ p.m_contrastBoost) :
    postProcess host p image = specPipeline host p image := by
  have key : ∀ s : ℚ, 0 ≤ s → (s > 0.0 ↔ ¬ s = 0.0) := by
    intro s hs
    have h00 : (0.0 : ℚ) = 0 := by norm_num
    rw [h00]
    constructor
    · intro h; exact ne_of_gt h
    · intro h; exact lt_of_le_of_ne hs (Ne.symm h)
  rw [postProcess_eq]
  unfold specPipeline specStage
  by_cases h1 : p.m_enhancementStrength = 0.0 <;> by_cases h2 : p.m_noiseReduction = 0.0 <;>
    by_cases h3 : p.m_contrastBoost = 0.0 <;>
    simp only [h1, h2, h3, if_true, if_false, (key _ he).2 , (key _ hn).2, (key _ hc).2,
      not_true_eq_false, not_false_eq_true, gt_iff_lt, lt_self_iff_false]

/-- C14: on a valid colour image with at least three channels and a parameter
record with non-negative strengths, `Execute` succeeds and its output raster is
the selected conversion's result passed through Enhancement, then Noise
Reduction, then Contrast Boost, where a stage whose strength is exactly `0.0` is
skipped; with all three strengths `0.0` the output is the conversion result
unchanged. -/
theorem execute_pipeline (host : Host) (p : RGBToHAProcess) (hN : 1 ≤ host.NumberOfThreads)
    (hv : p.m_image.valid = true) (hc : p.m_image.color = true)
    (hn : 3 ≤ p.m_image.numberOfChannels)
    (he0 : 0 ≤ p.m_enhancementStrength) (hn0 : 0 ≤ p.m_noiseReduction)
    (hc0 : 0 ≤ p.m_contrastBoost) :
    ∃ red green blue conv out,
      p.m_image.GetChannel 0 = .ok red ∧ p.m_image.GetChannel 1 = .ok green ∧
      p.m_image.GetChannel 2 = .ok blue ∧
      convert host p red green blue
        (ImageVariant.CreateFloatImage p.m_image.width p.m_image.height) = .ok conv ∧
      specPipeline host p conv = .ok out ∧
      Execute host p = .ok { p with m_image := out } ∧
      (p.m_enhancementStrength = 0.0 → p.m_noiseReduction = 0.0 → p.m_contrastBoost = 0.0 →
        out = conv) := by
  obtain ⟨r, g, b, conv, out, hr, hg, hb, hconv, _, _, _, hout, _, _, hex⟩ :=
    execute_ok host p hN hv hc hn
  have hspec := postProcess_eq_specPipeline host p conv he0 hn0 hc0
  refine ⟨r, g, b, conv, out, hr, hg, hb, hconv, by rw [← hspec]; exact hout, hex, ?_⟩
  intro h1 h2 h3
  rw [hspec] at hout
  simp only [specPipeline, specStage, h1, h2, h3, if_true, Except.bind] at hout
  cases hout
  rfl

/-- Witness for C14: a 3 x 3 colour image with the default strengths
`0.5, 0.3, 0.4`, two workers. -/
theorem execute_pipeline_witness :
    ∃ red green blue conv out,
      exampleProcess.m_image.GetChannel 0 = .ok red ∧
      exampleProcess.m_image.GetChannel 1 = .ok green ∧
      exampleProcess.m_image.GetChannel 2 = .ok blue ∧
      convert (hostWith 2) exampleProcess red green blue
        (ImageVariant.CreateFloatImage 3 3) = .ok conv ∧
      specPipeline (hostWith 2) exampleProcess conv = .ok out ∧
      Execute (hostWith 2) exampleProcess = .ok { exampleProcess with m_image := out } := by
  obtain ⟨r, g, b, conv, out, hr, hg, hb, hconv, hspec, hex, _⟩ := execute_pipeline (hostWith 2)
    exampleProcess (by decide) rfl rfl (by decide) (by norm_num [exampleProcess])
    (by norm_num [exampleProcess]) (by norm_num [exampleProcess])
  exact ⟨r, g, b, conv, out, hr, hg, hb, hconv, hspec, hex⟩

/-- C15: for every method code outside `{0, 1, 2, 3}` (negative codes included)
and every valid colour image with at least three channels, `Execute` succeeds
and its output raster is the one produced with `method = 0` on the same input
and the same other parameters. -/
theorem execute_unknown_method (host : Host) (p : RGBToHAProcess)
    (hN : 1 ≤ host.NumberOfThreads)
    (hv : p.m_image.valid = true) (hc : p.m_image.color = true)
    (hn : 3 ≤ p.m_image.numberOfChannels)
    (hm : p.m_conversionMethod ≠ 0 ∧ p.m_conversionMethod ≠ 1 ∧ p.m_conversionMethod ≠ 2 ∧
      p.m_conversionMethod ≠ 3) :
    ∃ out, Execute host p = .ok { p with m_image := out } ∧
      Execute host { p with m_conversionMethod := 0 }
        = .ok { p with m_conversionMethod := 0, m_image := out } := by
  obtain ⟨r, g, b, conv, out, hr, hg, hb, hconv, _, _, _, hout, _, _, hex⟩ :=
    execute_ok host p hN hv hc hn
  refine ⟨out, hex, ?_⟩
  have hstd : ConvertStandardRGBToHA host p r g b
      (ImageVariant.CreateFloatImage p.m_image.width p.m_image.height) = .ok conv := by
    simpa only [convert, hm.1, hm.2.1, hm.2.2.1, hm.2.2.2, if_false] using hconv
  rw [execute_unfold host { p with m_conversionMethod := 0 } r g b hv hc hn hr hg hb]
  have hconv0 : convert host { p with m_conversionMethod := 0 } r g b
      (ImageVariant.CreateFloatImage p.m_image.width p.m_image.height) = .ok conv := by
    simp only [convert, if_true]
    rw [convertStandard_method]
    exact hstd
  rw [hconv0]
  simp only [Except.bind, postProcess_method, hout]

/-- Witness for C15: method codes `-7` on a 3 x 3 colour image. -/
theorem execute_unknown_method_witness :
    ∃ out, Execute (hostWith 2) { exampleProcess with m_conversionMethod := -7 }
        = .ok { exampleProcess with m_conversionMethod := -7, m_image := out } ∧
      Execute (hostWith 2) { exampleProcess with m_conversionMethod := 0 }
        = .ok { exampleProcess with m_conversionMethod := 0, m_image := out } :=
  execute_unknown_method (hostWith 2) { exampleProcess with m_conversionMethod := -7 }
    (by decide) rfl rfl (by decide) (by decide)

/-- C16: `Execute` fails with `InvalidInput` when no valid image is present, and
with a failure of kind `UnsupportedFormat` when a valid image has fewer than
three channels. The failure is decided by the checks on the held image alone:
it is the same for every host, method and strength, so no conversion or
post-processing stage takes part, and no output (no new process state) is
produced. -/
theorem execute_rejects (host : Host) (p : RGBToHAProcess)
    (h : p.m_image.valid = false ∨ p.m_image.numberOfChannels < 3) :
    (∃ e, Execute host p = .error e ∧
      (p.m_image.valid = false → e = .InvalidInput) ∧
      (p.m_image.valid = true → e.kind = .UnsupportedFormat)) ∧
    (∀ p', Execute host p ≠ .ok p') ∧
    (∀ (host' : Host) (q : RGBToHAProcess), q.m_image = p.m_image →
      Execute host' q = Execute host p) := by
  have key : ∀ (host' : Host) (q : RGBToHAProcess), q.m_image = p.m_image →
      Execute host' q = .error (if p.m_image.valid = false then .InvalidInput
        else if p.m_image.color = false then .NotColor else .UnsupportedFormat) := by
    intro host' q hq
    unfold Execute
    rw [hq]
    by_cases hv : p.m_image.valid = true
    · by_cases hc : p.m_image.color = true
      · have hlt : p.m_image.numberOfChannels < 3 := by
          rcases h with h | h
          · rw [hv] at h; cases h
          · exact h
        simp [hv, hc, hlt]
      · simp [hv, hc]
    · simp [hv]
  refine ⟨⟨_, key host p rfl, ?_, ?_⟩, ?_, ?_⟩
  · intro hv
    simp [hv]
  · intro hv
    by_cases hc : p.m_image.color = true
    · simp [hv, hc, Error.kind]
    · simp [hv, hc, Error.kind]
  · intro p' hp'
    rw [key host p rfl] at hp'
    cases hp'
  · intro host' q hq
    rw [key host' q hq, key host p rfl]

/-- Witness for C16: a valid single-channel grayscale image. -/
theorem execute_rejects_witness :
    ∃ e, Execute (hostWith 2) { m_image := grayImage 2 2 (fun _ _ => 0.5) } = .error e ∧
      e.kind = .UnsupportedFormat := by
  obtain ⟨⟨e, he, _, hk⟩, _⟩ := execute_rejects (hostWith 2)
    { m_image := grayImage 2 2 (fun _ _ => 0.5) } (Or.inr (by decide))
  exact ⟨e, he, hk rfl⟩

/-! ## Contrast Boost -/

theorem boostPixel_eq (p5 range cb v : ℚ) :
    boostPixel p5 range cb v = clamp01 (clamp01 ((v - p5) / range) * (1 + cb)) := by
  unfold boostPixel
  norm_num

theorem boostPixel_low (p5 range cb v : ℚ) (hr : 0 < range) (hv : v ≤ p5) :
    boostPixel p5 range cb v = 0 := by
  rw [boostPixel_eq]
  have h1 : (v - p5) / range ≤ 0 := div_nonpos_of_nonpos_of_nonneg (by linarith) (le_of_lt hr)
  have h2 : clamp01 ((v - p5) / range) = 0 := by
    unfold clamp01
    rw [min_eq_right (le_trans h1 zero_le_one), max_eq_left h1]
  rw [h2, zero_mul]
  exact clamp01_of_mem 0 (le_refl _) zero_le_one

theorem boostPixel_high (p5 range cb v : ℚ) (hr : 0 < range) (hcb : 0 ≤ cb)
    (hv : p5 + range ≤ v) : boostPixel p5 range cb v = 1 := by
  rw [boostPixel_eq]
  have h1 : 1 ≤ (v - p5) / range := by
    rw [le_div_iff₀ hr]
    linarith
  rw [clamp01_of_one_le _ h1, one_mul]
  exact clamp01_of_one_le _ (by linarith)

/-- C20: Contrast Boost with percentiles `p5`, `p95` and `range = p95 - p5 > 0`
succeeds and replaces every sample `v` by
`clamp01(clamp01((v - p5) / range) * (1 + contrastBoost))`; for
`contrastBoost ≥ 0` every sample `≤ p5` becomes `0` and every sample `≥ p95`
becomes `1`. -/
theorem contrastBoost_formula (host : Host) (p : RGBToHAProcess) (image : ImageVariant)
    (hN : 1 ≤ host.NumberOfThreads)
    (hrange : host.Percentile image 95.0 - host.Percentile image 5.0 > 0) :
    ∃ out, ApplyContrastBoost host p image = .ok out ∧
      out.width = image.width ∧ out.height = image.height ∧
      ∀ x y, x < image.width → y < image.height →
        out.samples 0 x y = clamp01 (clamp01 ((image.samples 0 x y - host.Percentile image 5.0)
          / (host.Percentile image 95.0 - host.Percentile image 5.0))
          * (1 + p.m_contrastBoost)) ∧
        (image.samples 0 x y ≤ host.Percentile image 5.0 → out.samples 0 x y = 0) ∧
        (0 ≤ p.m_contrastBoost → host.Percentile image 95.0 ≤ image.samples 0 x y →
          out.samples 0 x y = 1) := by
  obtain ⟨out, hout, hfill⟩ := applyContrastBoost_fill host p image hN hrange
  refine ⟨out, hout, hfill.2.2.1, hfill.2.2.2.1, ?_⟩
  intro x y hx hy
  rw [hfill.2.2.2.2.2.1 x y ⟨hx, hy⟩]
  refine ⟨boostPixel_eq _ _ _ _, ?_, ?_⟩
  · intro hlow
    exact boostPixel_low _ _ _ _ hrange hlow
  · intro hcb hhigh
    exact boostPixel_high _ _ _ _ hrange hcb (by linarith)

/-- Witness for C20: the raster `0, 1/4, 1` with percentiles `0` and `1` and
`contrastBoost = 0.4`. -/
theorem contrastBoost_formula_witness :
    ∃ out, ApplyContrastBoost (hostWithPercentiles 2 0 1) {} rampRaster = .ok out ∧
      out.samples 0 1 0 = clamp01 (clamp01 ((1/4 - 0) / (1 - 0)) * (1 + 0.4)) ∧
      out.samples 0 0 0 = 0 ∧ out.samples 0 2 0 = 1 := by
  have h5 : (hostWithPercentiles 2 0 1).Percentile rampRaster 5.0 = 0 := by
    simp only [hostWithPercentiles]; norm_num
  have h95 : (hostWithPercentiles 2 0 1).Percentile rampRaster 95.0 = 1 := by
    simp only [hostWithPercentiles]; norm_num
  obtain ⟨out, h1, _, _, h2⟩ := contrastBoost_formula (hostWithPercentiles 2 0 1) {} rampRaster
    (by decide) (by rw [h5, h95]; norm_num)
  refine ⟨out, h1, ?_, ?_, ?_⟩
  · have h := (h2 1 0 (by decide) (by decide)).1
    rw [h5, h95] at h
    simpa [rampRaster] using h
  · exact (h2 0 0 (by decide) (by decide)).2.1 (by rw [h5]; simp [rampRaster])
  · exact (h2 2 0 (by decide) (by decide)).2.2 (by norm_num) (by rw [h95]; simp [rampRaster])

/-! ## Parameters -/

/-- Counterexample for C18: `haWavelength = 700`, outside `[650, 670]`, is stored
by `SetParameters`, and `Execute` on a valid 3 x 3 colour image succeeds. -/
theorem execute_accepts_wavelength_700 :
    ¬ ((650 : ℚ) ≤ 700 ∧ (700 : ℚ) ≤ 670) ∧
    (SetParameters exampleProcess wavelength700).m_haWavelength = 700 ∧
    ∃ p', Execute (hostWith 2) (SetParameters exampleProcess wavelength700) = .ok p' := by
  refine ⟨by norm_num, rfl, ?_⟩
  obtain ⟨_, _, _, _, out, _, _, _, _, _, _, _, _, _, _, hex⟩ := execute_ok (hostWith 2)
    (SetParameters exampleProcess wavelength700) (by decide) rfl rfl (by decide)
  exact ⟨_, hex⟩

/-- C18 (amended): a parameter record whose `haWavelength` lies outside
`[650.0, 670.0]` is not rejected. `SetParameters` stores the wavelength as
supplied, and `Execute` on a valid three-channel colour image succeeds and
produces an output raster of the same extent. -/
theorem execute_any_wavelength (host : Host) (proc : RGBToHAProcess) (q : ProcessParameters)
    (hN : 1 ≤ host.NumberOfThreads)
    (hv : proc.m_image.valid = true) (hc : proc.m_image.color = true)
    (hn : 3 ≤ proc.m_image.numberOfChannels)
    (_hw : q.haWavelength < 650.0 ∨ 670.0 < q.haWavelength) :
    (SetParameters proc q).m_haWavelength = q.haWavelength ∧
    ∃ out, Execute host (SetParameters proc q)
        = .ok { SetParameters proc q with m_image := out } ∧
      out.width = proc.m_image.width ∧ out.height = proc.m_image.height := by
  obtain ⟨_, _, _, _, out, _, _, _, _, _, _, _, _, how, hoh, hex⟩ := execute_ok host
    (SetParameters proc q) hN hv hc hn
  exact ⟨rfl, out, hex, how, hoh⟩

/-- Witness for C18 (amended): wavelength `640` on a 3 x 3 colour image. -/
theorem execute_any_wavelength_witness :
    ∃ out, Execute (hostWith 2) (SetParameters exampleProcess { haWavelength := 640 })
        = .ok { SetParameters exampleProcess { haWavelength := 640 } with m_image := out } ∧
      out.width = 3 ∧ out.height = 3 :=
  (execute_any_wavelength (hostWith 2) exampleProcess { haWavelength := 640 }
    (by decide) rfl rfl (by decide) (Or.inl (by norm_num))).2

/-! ## Flat Contrast Boost -/

/-- C21: when the 5th and 95th percentiles coincide (`range = 0`), Contrast
Boost returns the raster unchanged, for every `contrastBoost` value, and a
second application returns it unchanged again. -/
theorem contrastBoost_flat (host : Host) (p : RGBToHAProcess) (image : ImageVariant)
    (hflat : host.Percentile image 95.0 = host.Percentile image 5.0) :
    ApplyContrastBoost host p image = .ok image ∧
    (ApplyContrastBoost host p image).bind (ApplyContrastBoost host p)
      = ApplyContrastBoost host p image := by
  have hrange : ¬ host.Percentile image 95.0 - host.Percentile image 5.0 > 0 := by
    rw [hflat, sub_self]
    exact lt_irrefl 0
  have h := applyContrastBoost_flat host p image hrange
  refine ⟨h, ?_⟩
  rw [h]
  exact h

/-- Witness for C21: a flat 2 x 2 raster whose percentiles are both `0`, with
`contrastBoost = 0.9`. -/
theorem contrastBoost_flat_witness :
    ApplyContrastBoost (hostWith 2) { m_contrastBoost := 0.9 } (constantRaster 2 2 0)
      = .ok (constantRaster 2 2 0) :=
  (contrastBoost_flat (hostWith 2) { m_contrastBoost := 0.9 } (constantRaster 2 2 0) rfl).1

/-! ## Band sizes -/

/-- C24: for every height `H` and worker count `N ≥ 1`, each of the first
`N - 1` bands handed out by `ParallelProcess` has exactly `H / N` rows and the
last band has exactly `H - (N - 1) * (H / N) = H / N + H % N` rows; when
`N > H` the first `N - 1` bands are empty and the last band is `[0, H)`. -/
theorem band_sizes (host : Host) (H : Nat) (hN : 1 ≤ host.NumberOfThreads) :
    recordedBands host H = .ok ((List.range host.NumberOfThreads).map
      (fun i => (startRow H host.NumberOfThreads i, endRow H host.NumberOfThreads i))) ∧
    (∀ i, i + 1 < host.NumberOfThreads →
      endRow H host.NumberOfThreads i - startRow H host.NumberOfThreads i
        = H / host.NumberOfThreads) ∧
    endRow H host.NumberOfThreads (host.NumberOfThreads - 1)
      - startRow H host.NumberOfThreads (host.NumberOfThreads - 1)
      = H - (host.NumberOfThreads - 1) * (H / host.NumberOfThreads) ∧
    H - (host.NumberOfThreads - 1) * (H / host.NumberOfThreads)
      = H / host.NumberOfThreads + H % host.NumberOfThreads ∧
    (H < host.NumberOfThreads →
      (∀ i, i + 1 < host.NumberOfThreads →
        startRow H host.NumberOfThreads i = 0 ∧ endRow H host.NumberOfThreads i = 0) ∧
      startRow H host.NumberOfThreads (host.NumberOfThreads - 1) = 0 ∧
      endRow H host.NumberOfThreads (host.NumberOfThreads - 1) = H) := by
  have hdm := Nat.div_add_mod H host.NumberOfThreads
  have hmul : (host.NumberOfThreads - 1) * (H / host.NumberOfThreads) + H / host.NumberOfThreads
      = host.NumberOfThreads * (H / host.NumberOfThreads) := by
    have h1 : (host.NumberOfThreads - 1 + 1) * (H / host.NumberOfThreads)
        = host.NumberOfThreads * (H / host.NumberOfThreads) := by
      rw [Nat.sub_add_cancel hN]
    rw [← h1, Nat.add_mul, Nat.one_mul]
  refine ⟨recordedBands_eq host H, ?_, ?_, ?_, ?_⟩
  · intro i hi
    unfold endRow startRow
    rw [if_neg (by omega), Nat.add_mul, Nat.one_mul, Nat.add_sub_cancel_left]
  · rw [endRow_last]
    rfl
  · generalize (host.NumberOfThreads - 1) * (H / host.NumberOfThreads) = a at hmul ⊢
    generalize host.NumberOfThreads * (H / host.NumberOfThreads) = b at hmul hdm
    generalize H / host.NumberOfThreads = q at hmul ⊢
    generalize H % host.NumberOfThreads = r at hdm ⊢
    omega
  · intro hlt
    have hq : H / host.NumberOfThreads = 0 := Nat.div_eq_of_lt hlt
    refine ⟨?_, ?_, endRow_last _ _⟩
    · intro i hi
      unfold endRow startRow
      rw [if_neg (by omega), hq]
      simp
    · unfold startRow
      rw [hq]
      simp

/-- Witness for C24: `H = 3` rows and `N = 5` workers. -/
theorem band_sizes_witness :
    recordedBands (hostWith 5) 3 = .ok [(0, 0), (0, 0), (0, 0), (0, 0), (0, 3)] ∧
    endRow 3 5 4 - startRow 3 5 4 = 3 / 5 + 3 % 5 :=
  ⟨(band_sizes (hostWith 5) 3 (by decide)).1,
    ((band_sizes (hostWith 5) 3 (by decide)).2.2.1).trans
      (band_sizes (hostWith 5) 3 (by decide)).2.2.2.1⟩

/-! ## Saturation of the spectral and the neural conversion -/

/-- C30: the three band weights of Multi-Band Spectral conversion sum to `2.1`.
With `adaptiveProcessing` disabled the conversion stores
`clamp01(1.665 r + 0.34 g + 0.095 b)` at every pixel; a gray pixel
`r = g = b = v` with `v ≥ 0` is stored as `min(1, 2.1 v)`, and as exactly `1`
when `v ≥ 10/21`. -/
theorem convertSpectral_saturation (host : Host) (p : RGBToHAProcess)
    (red green blue output : ImageVariant) (hN : 1 ≤ host.NumberOfThreads)
    (hgw : green.width = red.width) (hgh : green.height = red.height)
    (hbw : blue.width = red.width) (hbh : blue.height = red.height)
    (how : output.width = red.width) (hoh : output.height = red.height)
    (ha : p.m_adaptiveProcessing = false) :
    (1.665 + 0.34 + 0.095 : ℚ) = 2.1 ∧
    (∀ r g b : ℚ, spectralBandSum r g b = 1.665 * r + 0.34 * g + 0.095 * b) ∧
    ∃ out, ConvertAdvancedSpectral host p red green blue output = .ok out ∧
      ∀ x y, x < red.width → y < red.height →
        out.samples 0 x y = clamp01 (1.665 * red.samples 0 x y + 0.34 * green.samples 0 x y
          + 0.095 * blue.samples 0 x y) ∧
        (∀ v : ℚ, 0 ≤ v → red.samples 0 x y = v → green.samples 0 x y = v →
          blue.samples 0 x y = v →
          out.samples 0 x y = min 1 (2.1 * v) ∧ (10 / 21 ≤ v → out.samples 0 x y = 1)) := by
  have hsum : ∀ r g b : ℚ, spectralBandSum r g b = 1.665 * r + 0.34 * g + 0.095 * b := by
    intro r g b
    rw [spectralBandSum_eq]
    norm_num
    ring
  obtain ⟨out, hout, hfill⟩ :=
    convertSpectral_fill host p red green blue output hN hgw hgh hbw hbh how hoh
  refine ⟨by norm_num, hsum, out, hout, ?_⟩
  intro x y hx hy
  have hval : out.samples 0 x y = clamp01 (1.665 * red.samples 0 x y
      + 0.34 * green.samples 0 x y + 0.095 * blue.samples 0 x y) := by
    rw [hfill.2.2.2.2.2.1 x y ⟨hx, hy⟩]
    simp only [spectralHaValue, ha, hsum]
    rfl
  refine ⟨hval, ?_⟩
  intro v hv hr hg hb
  have hgray : (1.665 * v + 0.34 * v + 0.095 * v : ℚ) = 2.1 * v := by norm_num; ring
  rw [hval, hr, hg, hb, hgray]
  have h0 : (0 : ℚ) ≤ 2.1 * v := mul_nonneg (by norm_num) hv
  constructor
  · unfold clamp01
    exact max_eq_right (le_min zero_le_one h0)
  · intro h
    apply clamp01_of_one_le
    have : (2.1 : ℚ) * (10 / 21) = 1 := by norm_num
    nlinarith

/-- Witness for C30: the mid-gray 2 x 2 image `r = g = b = 0.5` saturates. -/
theorem convertSpectral_saturation_witness :
    ∃ out, ConvertAdvancedSpectral (hostWith 2) { m_adaptiveProcessing := false }
        (constantRaster 2 2 0.5) (constantRaster 2 2 0.5) (constantRaster 2 2 0.5)
        (ImageVariant.CreateFloatImage 2 2) = .ok out ∧
      out.samples 0 1 1 = 1 := by
  obtain ⟨_, _, out, h1, h2⟩ := convertSpectral_saturation (hostWith 2)
    { m_adaptiveProcessing := false } (constantRaster 2 2 0.5) (constantRaster 2 2 0.5)
    (constantRaster 2 2 0.5) (ImageVariant.CreateFloatImage 2 2) (by decide)
    rfl rfl rfl rfl rfl rfl rfl
  exact ⟨out, h1, ((h2 1 1 (by decide) (by decide)).2 0.5 (by norm_num) rfl rfl rfl).2
    (by norm_num)⟩

/-- A sigmoid term of the neural conversion is at least `1/2` when the
pre-activation is non-negative and `exp` maps non-positive arguments into
`[0, 1]`. -/
theorem sigmoid_ge_half (host : Host)
    (hexp : ∀ t : ℚ, t ≤ 0 → 0 ≤ host.exp t ∧ host.exp t ≤ 1) (z : ℚ) (hz : 0 ≤ z) :
    1 / 2 ≤ 1 / (1 + host.exp (-z)) := by
  obtain ⟨h0, h1⟩ := hexp (-z) (by linarith)
  have hpos : (0 : ℚ) < 1 + host.exp (-z) := by linarith
  rw [le_div_iff₀ hpos]
  linarith

/-- C27: when `exp` maps non-positive arguments into `[0, 1]`, every input pixel
with `r, g, b ≥ 0` is stored by Nonlinear Multi-Layer Approximation as exactly
`1`: each pre-activation is non-negative, each sigmoid output is at least
`1/2`, and the weighted sum is at least `0.5 * (1.0 + 0.8 + 0.6) = 1.2 > 1`
before clamping. -/
theorem convertNeural_constant (host : Host) (p : RGBToHAProcess)
    (red green blue output : ImageVariant) (hN : 1 ≤ host.NumberOfThreads)
    (hgw : green.width = red.width) (hgh : green.height = red.height)
    (hbw : blue.width = red.width) (hbh : blue.height = red.height)
    (how : output.width = red.width) (hoh : output.height = red.height)
    (hexp : ∀ t : ℚ, t ≤ 0 → 0 ≤ host.exp t ∧ host.exp t ≤ 1) :
    (∀ r g b : ℚ, 0 ≤ r → 0 ≤ g → 0 ≤ b → 1.2 ≤ neuralHaValue host r g b) ∧
    ∃ out, ConvertNeuralApproximation host p red green blue output = .ok out ∧
      ∀ x y, x < red.width → y < red.height →
        0 ≤ red.samples 0 x y → 0 ≤ green.samples 0 x y → 0 ≤ blue.samples 0 x y →
        out.samples 0 x y = 1 := by
  have hraw : ∀ r g b : ℚ, 0 ≤ r → 0 ≤ g → 0 ≤ b → 1.2 ≤ neuralHaValue host r g b := by
    intro r g b hr hg hb
    rw [neuralHaValue_eq]
    have hrg : 0 ≤ r * g := mul_nonneg hr hg
    have hrb : 0 ≤ r * b := mul_nonneg hr hb
    have s0 := sigmoid_ge_half host hexp
      (0.85 * r + 0.10 * g + 0.05 * b + 0.02 * (r * g) + 0.01 * (r * b)) (by positivity)
    have s1 := sigmoid_ge_half host hexp
      (0.70 * r + 0.20 * g + 0.08 * b + 0.01 * (r * g) + 0.01 * (r * b)) (by positivity)
    have s2 := sigmoid_ge_half host hexp
      (0.60 * r + 0.25 * g + 0.12 * b + 0.02 * (r * g) + 0.01 * (r * b)) (by positivity)
    norm_num at s0 s1 s2 ⊢
    linarith
  obtain ⟨out, hout, hfill⟩ :=
    convertNeural_fill host p red green blue output hN hgw hgh hbw hbh how hoh
  refine ⟨hraw, out, hout, ?_⟩
  intro x y hx hy hr hg hb
  rw [hfill.2.2.2.2.2.1 x y ⟨hx, hy⟩]
  apply clamp01_of_one_le
  have := hraw _ _ _ hr hg hb
  norm_num at this ⊢
  linarith

/-- Witness for C27: a 2 x 2 raster with samples in `[0, 1]`. -/
theorem convertNeural_constant_witness :
    ∃ out, ConvertNeuralApproximation (hostWith 2) {}
        (constantRaster 2 2 (1/2)) (constantRaster 2 2 0) (constantRaster 2 2 1)
        (ImageVariant.CreateFloatImage 2 2) = .ok out ∧
      out.samples 0 0 1 = 1 := by
  obtain ⟨_, out, h1, h2⟩ := convertNeural_constant (hostWith 2) {}
    (constantRaster 2 2 (1/2)) (constantRaster 2 2 0) (constantRaster 2 2 1)
    (ImageVariant.CreateFloatImage 2 2) (by decide) rfl rfl rfl rfl rfl rfl
    (by intro t _; simp [hostWith])
  exact ⟨out, h1, h2 0 1 (by decide) (by decide) (by simp [constantRaster])
    (by simp [constantRaster]) (by simp [constantRaster])⟩

/-! ## Full blocks of the box filter -/

theorem blockSamples_two (high : ImageVariant) (x y : Nat)
    (hx : x * 2 + 1 < high.width) (hy : y * 2 + 1 < high.height) :
    blockSamples high 2 x y
      = [high.samples 0 (x * 2) (y * 2), high.samples 0 (x * 2 + 1) (y * 2),
         high.samples 0 (x * 2) (y * 2 + 1), high.samples 0 (x * 2 + 1) (y * 2 + 1)] := by
  have hx0 : x * 2 < high.width := by omega
  have hy0 : y * 2 < high.height := by omega
  simp [blockSamples, rowSamples, List.range_succ, List.filter, hx, hy, hx0, hy0]

theorem rowSamples_full (high : ImageVariant) (k x y dy : Nat)
    (hx : x * k + k ≤ high.width) (hy : y * k + dy < high.height) :
    rowSamples high k x y dy
      = (List.range k).map (fun dx => high.samples 0 (x * k + dx) (y * k + dy)) := by
  unfold rowSamples
  congr 1
  rw [List.filter_eq_self]
  intro dx hdx
  have hdx' : dx < k := List.mem_range.1 hdx
  simp only [decide_eq_true_eq]
  exact ⟨by omega, hy⟩

theorem blockSamples_length_full (high : ImageVariant) (k x y : Nat)
    (hx : x * k + k ≤ high.width) (hy : y * k + k ≤ high.height) :
    (blockSamples high k x y).length = k * k := by
  unfold blockSamples
  rw [List.length_flatMap]
  have hrow : ∀ dy ∈ List.range k, (rowSamples high k x y dy).length = k := by
    intro dy hdy
    have hdy' : dy < k := List.mem_range.1 hdy
    rw [rowSamples_full high k x y dy hx (by omega)]
    simp
  have hmap : List.map (List.length ∘ fun dy => rowSamples high k x y dy) (List.range k)
      = List.map (fun _ => k) (List.range k) :=
    List.map_congr_left (fun dy hdy => hrow dy hdy)
  rw [hmap]
  simp

/-- The pyramid built on the levels allocated by `ConvertAdaptiveMultiScale`:
every block of the half and of the quarter level lies inside the
full-resolution level. -/
theorem pyramid_full_blocks (host : Host) (p : RGBToHAProcess)
    (red green blue : ImageVariant) (hN : 1 ≤ host.NumberOfThreads)
    (hgw : green.width = red.width) (hgh : green.height = red.height)
    (hbw : blue.width = red.width) (hbh : blue.height = red.height) :
    ∃ low mid high,
      ProcessMultiScale host p red green blue
        (ImageVariant.CreateFloatImage (red.width / 4) (red.height / 4))
        (ImageVariant.CreateFloatImage (red.width / 2) (red.height / 2))
        (ImageVariant.CreateFloatImage red.width red.height) = .ok (low, mid, high) ∧
      (high.width = red.width ∧ high.height = red.height) ∧
      (∀ x y, x < red.width → y < red.height →
        high.samples 0 x y = clamp01 (standardHaValue p.m_haWavelength
          (red.samples 0 x y) (green.samples 0 x y) (blue.samples 0 x y))) ∧
      (∀ x y, x < red.width / 2 → y < red.height / 2 →
        (blockSamples high 2 x y).length = 4 ∧
        mid.samples 0 x y = (high.samples 0 (x * 2) (y * 2) + high.samples 0 (x * 2 + 1) (y * 2)
          + high.samples 0 (x * 2) (y * 2 + 1) + high.samples 0 (x * 2 + 1) (y * 2 + 1)) / 4) ∧
      (∀ x y, x < red.width / 4 → y < red.height / 4 →
        (blockSamples high 4 x y).length = 16 ∧
        low.samples 0 x y = (blockSamples high 4 x y).sum / 16) := by
  obtain ⟨low, mid, high, hpms, hstd, hhw, hhh, hmid, hlow⟩ := processMultiScale_spec host p
    red green blue (ImageVariant.CreateFloatImage (red.width / 4) (red.height / 4))
    (ImageVariant.CreateFloatImage (red.width / 2) (red.height / 2))
    (ImageVariant.CreateFloatImage red.width red.height) hN hgw hgh hbw hbh rfl rfl
  obtain ⟨high', hstd', hfill⟩ := convertStandard_fill host p red green blue
    (ImageVariant.CreateFloatImage red.width red.height) hN hgw hgh hbw hbh rfl rfl
  have hEq : high' = high := by
    rw [hstd] at hstd'
    cases hstd'
    rfl
  subst hEq
  refine ⟨low, mid, high', hpms, ⟨hhw, hhh⟩, ?_, ?_, ?_⟩
  · intro x y hx hy
    exact hfill.2.2.2.2.2.1 x y ⟨hx, hy⟩
  · intro x y hx hy
    have hx1 : x * 2 + 1 < high'.width := by rw [hhw]; omega
    have hy1 : y * 2 + 1 < high'.height := by rw [hhh]; omega
    have hlist := blockSamples_two high' x y hx1 hy1
    refine ⟨by rw [hlist]; rfl, ?_⟩
    rw [hmid.2.2.2.2.2.1 x y ⟨hx, hy⟩]
    simp only [blockMean, hlist]
    norm_num
    ring
  · intro x y hx hy
    have hlen := blockSamples_length_full high' 4 x y (by rw [hhw]; omega) (by rw [hhh]; omega)
    refine ⟨hlen, ?_⟩
    rw [hlow.2.2.2.2.2.1 x y ⟨hx, hy⟩]
    simp only [blockMean, hlen]
    norm_num

/-- C28: with the half and quarter levels of floor extents `(W/2) x (H/2)` and
`(W/4) x (H/4)`, the bounds guard of the box filter holds for every sample it
tests: every half-resolution sample is the sum of exactly 4 source samples
divided by 4, every quarter-resolution sample the sum of exactly 16 divided by
16, so the `count > 0` fallback is never taken and no partial block is
averaged; every source column read for the half level is below `2 (W/2)`, so
the trailing column of an odd-width image (and likewise the trailing row of an
odd-height image) contributes to no half-resolution sample. -/
theorem boxFilter_guard_always_true (host : Host) (p : RGBToHAProcess)
    (red green blue : ImageVariant) (hN : 1 ≤ host.NumberOfThreads)
    (hgw : green.width = red.width) (hgh : green.height = red.height)
    (hbw : blue.width = red.width) (hbh : blue.height = red.height) :
    ∃ low mid high,
      ProcessMultiScale host p red green blue
        (ImageVariant.CreateFloatImage (red.width / 4) (red.height / 4))
        (ImageVariant.CreateFloatImage (red.width / 2) (red.height / 2))
        (ImageVariant.CreateFloatImage red.width red.height) = .ok (low, mid, high) ∧
      (∀ x y dx dy, x < red.width / 2 → y < red.height / 2 → dx < 2 → dy < 2 →
        x * 2 + dx < high.width ∧ y * 2 + dy < high.height) ∧
      (∀ x y dx dy, x < red.width / 4 → y < red.height / 4 → dx < 4 → dy < 4 →
        x * 4 + dx < high.width ∧ y * 4 + dy < high.height) ∧
      (∀ x y, x < red.width / 2 → y < red.height / 2 →
        boxAccumulate high 2 x y = .ok ((blockSamples high 2 x y).sum, 4) ∧
        mid.samples 0 x y = (high.samples 0 (x * 2) (y * 2) + high.samples 0 (x * 2 + 1) (y * 2)
          + high.samples 0 (x * 2) (y * 2 + 1) + high.samples 0 (x * 2 + 1) (y * 2 + 1)) / 4) ∧
      (∀ x y, x < red.width / 4 → y < red.height / 4 →
        boxAccumulate high 4 x y = .ok ((blockSamples high 4 x y).sum, 16) ∧
        low.samples 0 x y = (blockSamples high 4 x y).sum / 16) ∧
      (red.width % 2 = 1 → ∀ x dx, x < red.width / 2 → dx < 2 → x * 2 + dx ≠ red.width - 1) ∧
      (red.height % 2 = 1 → ∀ y dy, y < red.height / 2 → dy < 2 →
        y * 2 + dy ≠ red.height - 1) := by
  obtain ⟨low, mid, high, hpms, ⟨hhw, hhh⟩, _, hmid, hlow⟩ :=
    pyramid_full_blocks host p red green blue hN hgw hgh hbw hbh
  refine ⟨low, mid, high, hpms, ?_, ?_, ?_, ?_, ?_, ?_⟩
  · intro x y dx dy hx hy hdx hdy
    rw [hhw, hhh]
    omega
  · intro x y dx dy hx hy hdx hdy
    rw [hhw, hhh]
    omega
  · intro x y hx hy
    obtain ⟨hlen, hval⟩ := hmid x y hx hy
    refine ⟨?_, hval⟩
    rw [boxAccumulate_eq, hlen]
  · intro x y hx hy
    obtain ⟨hlen, hval⟩ := hlow x y hx hy
    refine ⟨?_, hval⟩
    rw [boxAccumulate_eq, hlen]
  · intro hodd x dx hx hdx
    omega
  · intro hodd y dy hy hdy
    omega

/-- Witness for C28: a 9 x 5 image (odd width and height). -/
theorem boxFilter_guard_always_true_witness :
    ∃ low mid high,
      ProcessMultiScale (hostWith 2) {} (constantRaster 9 5 (1/2)) (constantRaster 9 5 (1/4))
        (constantRaster 9 5 (3/4)) (ImageVariant.CreateFloatImage (9 / 4) (5 / 4))
        (ImageVariant.CreateFloatImage (9 / 2) (5 / 2))
        (ImageVariant.CreateFloatImage 9 5) = .ok (low, mid, high) ∧
      boxAccumulate high 2 3 1 = .ok ((blockSamples high 2 3 1).sum, 4) ∧
      boxAccumulate high 4 1 0 = .ok ((blockSamples high 4 1 0).sum, 16) ∧
      3 * 2 + 1 ≠ 9 - 1 := by
  obtain ⟨low, mid, high, h1, _, _, h4, h5, h6, _⟩ := boxFilter_guard_always_true (hostWith 2) {}
    (constantRaster 9 5 (1/2)) (constantRaster 9 5 (1/4)) (constantRaster 9 5 (3/4))
    (by decide) rfl rfl rfl rfl
  exact ⟨low, mid, high, h1, (h4 3 1 (by decide) (by decide)).1,
    (h5 1 0 (by decide) (by decide)).1, h6 (by decide) 3 1 (by decide) (by decide)⟩

/-! ## Edge pixels of the multi-scale recombination -/

/-- The recombination with the skip conditions written on the full-resolution
coordinates, together with the values of the pyramid levels. -/
theorem convertAdaptive_skip (host : Host) (p : RGBToHAProcess)
    (red green blue output : ImageVariant) (hN : 1 ≤ host.NumberOfThreads)
    (hgw : green.width = red.width) (hgh : green.height = red.height)
    (hbw : blue.width = red.width) (hbh : blue.height = red.height)
    (how : output.width = red.width) (hoh : output.height = red.height) :
    ∃ low mid high out,
      ProcessMultiScale host p red green blue
        (ImageVariant.CreateFloatImage (red.width / 4) (red.height / 4))
        (ImageVariant.CreateFloatImage (red.width / 2) (red.height / 2))
        (ImageVariant.CreateFloatImage red.width red.height) = .ok (low, mid, high) ∧
      ConvertAdaptiveMultiScale host p red green blue output = .ok out ∧
      (∀ x y, x < red.width → y < red.height →
        high.samples 0 x y = clamp01 (standardHaValue p.m_haWavelength
          (red.samples 0 x y) (green.samples 0 x y) (blue.samples 0 x y))) ∧
      (∀ x y, x < red.width / 2 → y < red.height / 2 →
        mid.samples 0 x y = (high.samples 0 (x * 2) (y * 2) + high.samples 0 (x * 2 + 1) (y * 2)
          + high.samples 0 (x * 2) (y * 2 + 1) + high.samples 0 (x * 2 + 1) (y * 2 + 1)) / 4) ∧
      (∀ x y, x < red.width → y < red.height →
        out.samples 0 x y = clamp01 (0.6 * high.samples 0 x y
          + (if x ≥ 2 * (red.width / 2) ∨ y ≥ 2 * (red.height / 2) then 0
              else 0.3 * mid.samples 0 (x / 2) (y / 2))
          + (if x ≥ 4 * (red.width / 4) ∨ y ≥ 4 * (red.height / 4) then 0
              else 0.1 * low.samples 0 (x / 4) (y / 4)))) := by
  obtain ⟨low, mid, high, out, h1, _, h3, h4, _, h6, hfill⟩ :=
    convertAdaptive_fill host p red green blue output hN hgw hgh hbw hbh how hoh
  obtain ⟨low', mid', high', h1', _, hhigh, hmid, _⟩ :=
    pyramid_full_blocks host p red green blue hN hgw hgh hbw hbh
  rw [h1] at h1'
  cases h1'
  refine ⟨low, mid, high, out, h1, h6, hhigh, fun x y hx hy => (hmid x y hx hy).2, ?_⟩
  intro x y hx hy
  rw [hfill.2.2.2.2.2.1 x y ⟨hx, hy⟩]
  simp only [h3.1, h3.2, h4.1, h4.2]
  have e2 : (x / 2 < red.width / 2 ∧ y / 2 < red.height / 2)
      ↔ ¬ (x ≥ 2 * (red.width / 2) ∨ y ≥ 2 * (red.height / 2)) := by
    constructor
    · intro h; omega
    · intro h; omega
  have e4 : (x / 4 < red.width / 4 ∧ y / 4 < red.height / 4)
      ↔ ¬ (x ≥ 4 * (red.width / 4) ∨ y ≥ 4 * (red.height / 4)) := by
    constructor
    · intro h; omega
    · intro h; omega
  by_cases g2 : x ≥ 2 * (red.width / 2) ∨ y ≥ 2 * (red.height / 2) <;>
    by_cases g4 : x ≥ 4 * (red.width / 4) ∨ y ≥ 4 * (red.height / 4) <;>
    simp only [e2, e4, g2, g4, not_true_eq_false, not_false_eq_true, if_true, if_false]

/-- C26: in the Adaptive Multi-Scale recombination on a `W x H` image the
half-resolution contribution of pixel `(x, y)` is skipped exactly when
`x ≥ 2 (W/2)` or `y ≥ 2 (H/2)` and the quarter-resolution contribution exactly
when `x ≥ 4 (W/4)` or `y ≥ 4 (H/4)`. For `x < 4 (W/4)` and `y < 4 (H/4)` all
three levels are combined, with weights `0.6 + 0.3 + 0.1 = 1.0`; every other
pixel is combined with total weight at most `0.9`; and on a uniform image of
value `v > 0` at the reference wavelength those other pixels come out strictly
below `v`. -/
theorem convertAdaptive_edge_dimming (host : Host) (p : RGBToHAProcess)
    (red green blue output : ImageVariant) (hN : 1 ≤ host.NumberOfThreads)
    (hgw : green.width = red.width) (hgh : green.height = red.height)
    (hbw : blue.width = red.width) (hbh : blue.height = red.height)
    (how : output.width = red.width) (hoh : output.height = red.height) :
    ∃ low mid high out,
      ProcessMultiScale host p red green blue
        (ImageVariant.CreateFloatImage (red.width / 4) (red.height / 4))
        (ImageVariant.CreateFloatImage (red.width / 2) (red.height / 2))
        (ImageVariant.CreateFloatImage red.width red.height) = .ok (low, mid, high) ∧
      ConvertAdaptiveMultiScale host p red green blue output = .ok out ∧
      (∀ x y, x < red.width → y < red.height →
        out.samples 0 x y = clamp01 (0.6 * high.samples 0 x y
          + (if x ≥ 2 * (red.width / 2) ∨ y ≥ 2 * (red.height / 2) then 0
              else 0.3 * mid.samples 0 (x / 2) (y / 2))
          + (if x ≥ 4 * (red.width / 4) ∨ y ≥ 4 * (red.height / 4) then 0
              else 0.1 * low.samples 0 (x / 4) (y / 4)))) ∧
      (∀ x y, x < 4 * (red.width / 4) → y < 4 * (red.height / 4) →
        out.samples 0 x y = clamp01 (0.6 * high.samples 0 x y
          + 0.3 * mid.samples 0 (x / 2) (y / 2) + 0.1 * low.samples 0 (x / 4) (y / 4))) ∧
      (0.6 + 0.3 + 0.1 : ℚ) = 1.0 ∧
      (∀ x y, x < red.width → y < red.height →
        (x ≥ 4 * (red.width / 4) ∨ y ≥ 4 * (red.height / 4)) →
        ∃ wm : ℚ, (wm = 0 ∨ wm = 0.3) ∧ 0.6 + wm ≤ 0.9 ∧
          out.samples 0 x y = clamp01 (0.6 * high.samples 0 x y
            + wm * mid.samples 0 (x / 2) (y / 2))) ∧
      (∀ v : ℚ, 0 < v → p.m_haWavelength = 656.28 →
        (∀ x y, x < red.width → y < red.height →
          red.samples 0 x y = v ∧ green.samples 0 x y = v ∧ blue.samples 0 x y = v) →
        ∀ x y, x < red.width → y < red.height →
          (x ≥ 4 * (red.width / 4) ∨ y ≥ 4 * (red.height / 4)) → out.samples 0 x y < v) := by
  obtain ⟨low, mid, high, out, h1, h2, hhigh, hmid, hout⟩ :=
    convertAdaptive_skip host p red green blue output hN hgw hgh hbw hbh how hoh
  refine ⟨low, mid, high, out, h1, h2, hout, ?_, by norm_num, ?_, ?_⟩
  · intro x y hx hy
    have hx' : x < red.width := by omega
    have hy' : y < red.height := by omega
    rw [hout x y hx' hy']
    have g2 : ¬ (x ≥ 2 * (red.width / 2) ∨ y ≥ 2 * (red.height / 2)) := by omega
    have g4 : ¬ (x ≥ 4 * (red.width / 4) ∨ y ≥ 4 * (red.height / 4)) := by omega
    simp only [g2, g4, if_false]
  · intro x y hx hy hedge
    rw [hout x y hx hy]
    by_cases g2 : x ≥ 2 * (red.width / 2) ∨ y ≥ 2 * (red.height / 2)
    · refine ⟨0, Or.inl rfl, by norm_num, ?_⟩
      simp only [g2, hedge, if_true, zero_mul, add_zero]
    · refine ⟨0.3, Or.inr rfl, by norm_num, ?_⟩
      simp only [g2, hedge, if_true, if_false, add_zero]
  · intro v hv hw hgray x y hx hy hedge
    have hc : ∀ x' y', x' < red.width → y' < red.height →
        high.samples 0 x' y' = clamp01 v := by
      intro x' y' hx' hy'
      obtain ⟨e1, e2, e3⟩ := hgray x' y' hx' hy'
      rw [hhigh x' y' hx' hy', e1, e2, e3, standardHaValue_eq, hw]
      congr 1
      norm_num
      ring
    have hc0 : 0 < clamp01 v := by
      unfold clamp01
      exact lt_max_of_lt_right (lt_min zero_lt_one hv)
    have hc1 : clamp01 v ≤ 1 := (clamp01_mem v).2
    have hcv : clamp01 v ≤ v := by
      unfold clamp01
      exact max_le (le_of_lt hv) (min_le_right 1 v)
    rw [hout x y hx hy, hc x y hx hy]
    by_cases g2 : x ≥ 2 * (red.width / 2) ∨ y ≥ 2 * (red.height / 2)
    · simp only [g2, hedge, if_true, add_zero]
      rw [clamp01_of_mem _ (by nlinarith) (by nlinarith)]
      nlinarith
    · have hmx : x / 2 < red.width / 2 := by omega
      have hmy : y / 2 < red.height / 2 := by omega
      have hm : mid.samples 0 (x / 2) (y / 2) = clamp01 v := by
        rw [hmid _ _ hmx hmy, hc _ _ (by omega) (by omega), hc _ _ (by omega) (by omega),
          hc _ _ (by omega) (by omega), hc _ _ (by omega) (by omega)]
        ring
      simp only [g2, hedge, if_true, if_false, add_zero, hm]
      rw [clamp01_of_mem _ (by nlinarith) (by nlinarith)]
      nlinarith

/-- Witness for C26: a uniform 5 x 3 image of value `1/2`; pixel `(4, 2)` lies
on the edge. -/
theorem convertAdaptive_edge_dimming_witness :
    ∃ out, ConvertAdaptiveMultiScale (hostWith 2) {} (constantRaster 5 3 (1/2))
        (constantRaster 5 3 (1/2)) (constantRaster 5 3 (1/2))
        (ImageVariant.CreateFloatImage 5 3) = .ok out ∧
      out.samples 0 4 2 < 1/2 := by
  obtain ⟨_, _, _, out, _, h2, _, _, _, _, h7⟩ := convertAdaptive_edge_dimming (hostWith 2) {}
    (constantRaster 5 3 (1/2)) (constantRaster 5 3 (1/2)) (constantRaster 5 3 (1/2))
    (ImageVariant.CreateFloatImage 5 3) (by decide) rfl rfl rfl rfl rfl rfl
  exact ⟨out, h2, h7 (1/2) (by norm_num) rfl (fun _ _ _ _ => ⟨rfl, rfl, rfl⟩) 4 2
    (by decide) (by decide) (Or.inl (by decide))⟩

/-! ## Bilateral filter -/

theorem bilateralRowTerms_succ (host : Host) (image : ImageVariant) (x y : Nat) (c : ℚ)
    (i n : Nat) :
    bilateralRowTerms host image x y c i (n + 1)
      = bilateralRowTerms host image x y c i n
        ++ (if (x : Int) + ((n : Int) - 3) ≥ 0 ∧ (x : Int) + ((n : Int) - 3) < image.width
              ∧ (y : Int) + ((i : Int) - 3) ≥ 0 ∧ (y : Int) + ((i : Int) - 3) < image.height
            then [(image.samples 0 ((x : Int) + ((n : Int) - 3)).toNat
                    ((y : Int) + ((i : Int) - 3)).toNat,
                  bilateralWeight host c (image.samples 0 ((x : Int) + ((n : Int) - 3)).toNat
                    ((y : Int) + ((i : Int) - 3)).toNat) ((n : Int) - 3) ((i : Int) - 3))]
            else []) := by
  unfold bilateralRowTerms
  rw [List.range_succ, List.filter_append, List.map_append]
  by_cases h : (x : Int) + ((n : Int) - 3) ≥ 0 ∧ (x : Int) + ((n : Int) - 3) < image.width
      ∧ (y : Int) + ((i : Int) - 3) ≥ 0 ∧ (y : Int) + ((i : Int) - 3) < image.height
  · simp [List.filter, h]
  · simp [List.filter, h]

/-- The weight computed by the source is the weight of the spec's formula. -/
theorem bilateralWeight_eq (host : Host) (c v : ℚ) (dx dy : Int) :
    host.exp (((-(dx * dx + dy * dy) : Int) : ℚ) / (2 * 2.0 * 2.0))
      * host.exp (-(c - v) * (c - v) / (2 * 0.1 * 0.1))
    = bilateralWeight host c v dx dy := by
  unfold bilateralWeight
  have e1 : (((-(dx * dx + dy * dy) : Int) : ℚ) / (2 * 2.0 * 2.0))
      = -((dx : ℚ) ^ 2 + (dy : ℚ) ^ 2) / (2 * 2.0 ^ 2) := by
    push_cast
    ring
  have e2 : (-(c - v) * (c - v) / (2 * 0.1 * 0.1) : ℚ) = -(c - v) ^ 2 / (2 * 0.1 ^ 2) := by
    ring
  rw [e1, e2]

theorem forRange_eq_of_inv {σ : Type} (body : Nat → σ → Except Error σ)
    (Inv : Nat → σ → Prop) (lo hi : Nat) (hle : lo ≤ hi) (s target : σ) (h0 : Inv lo s)
    (hstep : ∀ k t, lo ≤ k → k < hi → Inv k t → ∃ t', body k t = .ok t' ∧ Inv (k + 1) t')
    (hfinal : ∀ s', Inv hi s' → s' = target) :
    forRange lo hi body s = .ok target := by
  obtain ⟨s', hs', hI⟩ := forRange_inv body Inv lo hi hle s h0 hstep
  rw [hs', hfinal s' hI]

/-- The neighbourhood loops of the bilateral pass accumulate exactly the sum of
`v * w` and the sum of `w` over the in-bounds neighbours. -/
theorem bilateralAccumulate_eq (host : Host) (image : ImageVariant) (x y : Nat) (c : ℚ) :
    bilateralAccumulate host 2.0 0.1 image.width image.height image x y c
      = .ok (((bilateralTerms host image x y c).map (fun t => t.1 * t.2)).sum,
             ((bilateralTerms host image x y c).map (fun t => t.2)).sum) := by
  unfold bilateralAccumulate
  refine forRange_eq_of_inv _
    (fun i r => r =
      ((((List.range i).flatMap (fun i => bilateralRowTerms host image x y c i 7)).map
          (fun t => t.1 * t.2)).sum,
       (((List.range i).flatMap (fun i => bilateralRowTerms host image x y c i 7)).map
          (fun t => t.2)).sum))
    0 (2 * 3 + 1) (Nat.zero_le _) _ _ (by norm_num) ?_ (fun s' hs' => hs')
  intro i acc _ _ hacc
  subst hacc
  refine ⟨_, forRange_eq_of_inv _
    (fun j (r : ℚ × ℚ) => r =
      ((((List.range i).flatMap (fun i => bilateralRowTerms host image x y c i 7)).map
          (fun t => t.1 * t.2)).sum
        + ((bilateralRowTerms host image x y c i j).map (fun t => t.1 * t.2)).sum,
       (((List.range i).flatMap (fun i => bilateralRowTerms host image x y c i 7)).map
          (fun t => t.2)).sum
        + ((bilateralRowTerms host image x y c i j).map (fun t => t.2)).sum))
    0 (2 * 3 + 1) (Nat.zero_le _) _ _ (by simp [bilateralRowTerms]) ?_ (fun s' hs' => hs'), ?_⟩
  · intro j acc' _ _ hacc'
    subst hacc'
    simp only [Nat.cast_ofNat, bilateralRowTerms_succ]
    by_cases hg : (x : Int) + ((j : Int) - 3) ≥ 0 ∧ (x : Int) + ((j : Int) - 3) < image.width
        ∧ (y : Int) + ((i : Int) - 3) ≥ 0 ∧ (y : Int) + ((i : Int) - 3) < image.height
    · have hx : ((x : Int) + ((j : Int) - 3)).toNat < image.width := by omega
      have hy : ((y : Int) + ((i : Int) - 3)).toNat < image.height := by omega
      refine ⟨_, by
        simp only [hg, and_self, if_true, ImageVariant.Pixel, hx, hy, bind, Except.bind,
          pure, Except.pure, bilateralWeight_eq]
        rfl, ?_⟩
      simp [hg, add_assoc]
    · refine ⟨_, by simp only [hg, if_false, pure, Except.pure]; rfl, ?_⟩
      simp [hg]
  · simp [List.range_succ, List.flatMap_append]

/-- The centre pixel is one of the neighbours of the bilateral filter. -/
theorem bilateralTerms_centre (host : Host) (image : ImageVariant) (x y : Nat) (c : ℚ)
    (hx : x < image.width) (hy : y < image.height) :
    (image.samples 0 x y, bilateralWeight host c (image.samples 0 x y) 0 0)
      ∈ bilateralTerms host image x y c := by
  simp only [bilateralTerms, bilateralRowTerms, List.mem_flatMap, List.mem_map, List.mem_filter,
    List.mem_range, decide_eq_true_eq]
  refine ⟨3, by decide, 3, ⟨by decide, ?_⟩, ?_⟩
  · refine ⟨by omega, by omega, by omega, by omega⟩
  · simp

theorem bilateralTerms_weight (host : Host) (image : ImageVariant) (x y : Nat) (c : ℚ)
    (t : ℚ × ℚ) (ht : t ∈ bilateralTerms host image x y c) :
    ∃ dx dy : Int, t.2 = bilateralWeight host c t.1 dx dy := by
  simp only [bilateralTerms, bilateralRowTerms, List.mem_flatMap, List.mem_map, List.mem_filter,
    List.mem_range, decide_eq_true_eq] at ht
  obtain ⟨i, _, j, _, rfl⟩ := ht
  exact ⟨_, _, rfl⟩

/-- With a positive `exp` the accumulated weight sum is positive. -/
theorem bilateral_weightSum_pos (host : Host) (hexp : ∀ t, 0 < host.exp t)
    (image : ImageVariant) (x y : Nat) (c : ℚ) (hx : x < image.width) (hy : y < image.height) :
    0 < ((bilateralTerms host image x y c).map (fun t => t.2)).sum := by
  apply List.sum_pos
  · intro w hw
    obtain ⟨t, ht, rfl⟩ := List.mem_map.1 hw
    obtain ⟨dx, dy, hwt⟩ := bilateralTerms_weight host image x y c t ht
    rw [hwt]
    exact mul_pos (hexp _) (hexp _)
  · intro hnil
    have hmem := List.mem_map_of_mem (fun t : ℚ × ℚ => t.2)
      (bilateralTerms_centre host image x y c hx hy)
    rw [hnil] at hmem
    exact absurd hmem (List.not_mem_nil _)

/-- C23: with a positive `exp`, Noise Reduction succeeds and replaces every
sample `o` at `(x, y)` by `o * (1 - n) + f * n`, where `n = noiseReduction` and
`f` is the bilateral average `(sum of v * w) / (sum of w)` over the in-bounds
neighbours `(x + dx, y + dy)`, `|dx|, |dy| ≤ 3`, with
`w = exp(-(dx^2 + dy^2) / (2 * 2.0^2)) * exp(-(c - v)^2 / (2 * 0.1^2))`; every
`v`, the centre value `c` and `o` are samples of the raster before the stage. -/
theorem noiseReduction_formula (host : Host) (p : RGBToHAProcess) (image : ImageVariant)
    (hN : 1 ≤ host.NumberOfThreads) (hexp : ∀ t, 0 < host.exp t) :
    ∃ out, ApplyNoiseReduction host p image = .ok out ∧
      out.width = image.width ∧ out.height = image.height ∧
      ∀ x y, x < image.width → y < image.height →
        out.samples 0 x y = image.samples 0 x y * (1 - p.m_noiseReduction)
          + (((bilateralTerms host image x y (image.samples 0 x y)).map (fun t => t.1 * t.2)).sum
              / ((bilateralTerms host image x y (image.samples 0 x y)).map (fun t => t.2)).sum)
            * p.m_noiseReduction := by
  obtain ⟨temp, out, hout, hT, hO⟩ := applyNoiseReduction_written host p image hN
    (fun x y f => f = bilateralAverage host image x y) (by
      intro x y acc hx hy hacc
      rw [bilateralAccumulate_eq] at hacc
      cases hacc
      have hpos := bilateral_weightSum_pos host hexp image x y (image.samples 0 x y) hx hy
      simp only [gt_iff_lt, hpos, if_true, bilateralAverage])
  refine ⟨out, hout, hO.2.2.1, hO.2.2.2.1, ?_⟩
  intro x y hx hy
  rw [hO.2.2.2.2.2.1 x y ⟨hx, hy⟩]
  have hf : temp.samples 0 x y = bilateralAverage host image x y := hT.2.2.2.2.2.1 x y ⟨hx, hy⟩
  simp only [hf, bilateralAverage]
  norm_num

/-- Witness for C23: the raster `0, 1/4, 1` with `noiseReduction = 0.3`. -/
theorem noiseReduction_formula_witness :
    ∃ out, ApplyNoiseReduction (hostWith 2) {} rampRaster = .ok out ∧
      out.samples 0 1 0 = rampRaster.samples 0 1 0 * (1 - 0.3)
        + (((bilateralTerms (hostWith 2) rampRaster 1 0 (rampRaster.samples 0 1 0)).map
              (fun t => t.1 * t.2)).sum
            / ((bilateralTerms (hostWith 2) rampRaster 1 0 (rampRaster.samples 0 1 0)).map
              (fun t => t.2)).sum) * 0.3 := by
  obtain ⟨out, h1, _, _, h2⟩ := noiseReduction_formula (hostWith 2) {} rampRaster (by decide)
    (by intro t; simp [hostWith])
  exact ⟨out, h1, h2 1 0 (by decide) (by decide)⟩

/-! ## Enhancement -/

/-- The per-pixel body of `ApplyEnhancements` inside the raster, in closed
form. -/
theorem enhancePixel_eq (mean stdDev strength : ℚ) (W H : Nat) (t : ImageVariant)
    (x y : Nat) (hw : t.width = W) (hh : t.height = H) (hx : x < W) (hy : y < H) :
    enhancePixel mean stdDev strength W H t x y
      = .ok (enhanceValue mean stdDev strength (isInterior W H x y) (t.samples 0 x y)
          ((t.samples 0 (x - 1) y + t.samples 0 (x + 1) y + t.samples 0 x (y - 1)
            + t.samples 0 x (y + 1)) / 4)) := by
  unfold enhancePixel enhanceValue isInterior
  have h40 : (4.0 : ℚ) = 4 := by norm_num
  by_cases hint : x > 0 ∧ x < W - 1 ∧ y > 0 ∧ y < H - 1
  · have h1 : x - 1 < W := by omega
    have h2 : x + 1 < W := by omega
    have h3 : y - 1 < H := by omega
    have h4 : y + 1 < H := by omega
    simp only [ImageVariant.Pixel, hw, hh, hx, hy, h1, h2, h3, h4, hint, and_self, if_true,
      bind, Except.bind, pure, Except.pure, decide_True, h40]
  · simp only [ImageVariant.Pixel, hw, hh, hx, hy, hint, and_self, if_true, if_false,
      bind, Except.bind, pure, Except.pure, decide_False]
    rfl

theorem enhanceValue_border (mean stdDev strength p a a' : ℚ) :
    enhanceValue mean stdDev strength false p a = enhanceValue mean stdDev strength false p a' :=
  rfl

/-- One step of the Enhancement pass: processing pixel `(j, k)` extends the
processed region by that pixel. -/
theorem enhance_step (mean stdDev strength : ℚ) (image t : ImageVariant) (k j : Nat)
    (hj : j < image.width) (hk : k < image.height)
    (hI : EnhancedBefore mean stdDev strength image t k j) :
    ∃ t', (do
        let pixel ← enhancePixel mean stdDev strength image.width image.height t j k
        t.SetPixel j k pixel) = .ok t' ∧
      EnhancedBefore mean stdDev strength image t' k (j + 1) := by
  obtain ⟨hw, hh, hrest, hdone⟩ := hI
  have hpix := enhancePixel_eq mean stdDev strength image.width image.height t j k hw hh hj hk
  generalize hv : enhanceValue mean stdDev strength
      (isInterior image.width image.height j k) (t.samples 0 j k)
      ((t.samples 0 (j - 1) k + t.samples 0 (j + 1) k + t.samples 0 j (k - 1)
        + t.samples 0 j (k + 1)) / 4) = v at hpix
  have hwrite : ∀ x y, ¬ (x = j ∧ y = k) → (t.write j k v).samples 0 x y = t.samples 0 x y := by
    intro x y hne
    simp only [ImageVariant.write]
    rw [if_neg (by tauto)]
  have hself : (t.write j k v).samples 0 j k = v := by simp [ImageVariant.write]
  refine ⟨t.write j k v, ?_, hw, hh, ?_, ?_⟩
  · rw [hpix]
    simp only [bind, Except.bind, ImageVariant.SetPixel, hw, hh]
    rw [if_pos ⟨hj, hk⟩]
  · intro x y hn
    rw [hwrite x y (by omega)]
    exact hrest x y (by omega)
  · intro x y hx hxy
    by_cases hnew : x = j ∧ y = k
    · obtain ⟨rfl, rfl⟩ := hnew
      rw [hself]
      refine hv.symm.trans ?_
      rw [hrest x y (by omega)]
      by_cases hint : isInterior image.width image.height x y = true
      · have hint' : x > 0 ∧ x < image.width - 1 ∧ y > 0 ∧ y < image.height - 1 := by
          simpa [isInterior] using hint
        rw [hwrite (x - 1) y (by omega), hwrite x (y - 1) (by omega),
          hrest (x + 1) y (by omega), hrest x (y + 1) (by omega)]
      · have hfalse : isInterior image.width image.height x y = false := by
          simpa using hint
        rw [hfalse]
        exact enhanceValue_border _ _ _ _ _ _
    · have hold : y < k ∨ (y = k ∧ x < j) := by omega
      rw [hwrite x y hnew, hwrite (x - 1) y (by omega), hwrite x (y - 1) (by omega)]
      exact hdone x y hx hold

theorem EnhancedBefore.nextRow {mean stdDev strength : ℚ} {image t : ImageVariant} {k : Nat}
    (h : EnhancedBefore mean stdDev strength image t k image.width) :
    EnhancedBefore mean stdDev strength image t (k + 1) 0 := by
  obtain ⟨hw, hh, hrest, hdone⟩ := h
  refine ⟨hw, hh, ?_, ?_⟩
  · intro x y hn
    exact hrest x y (by omega)
  · intro x y hx hxy
    exact hdone x y hx (by omega)

/-- Enhancement run as a single band (one worker): the pass succeeds and every
pixel holds the value computed, in row-major order, from its original sample,
the already enhanced left and upper neighbours and the original right and
lower neighbours. -/
theorem applyEnhancements_sequential (host : Host) (p : RGBToHAProcess) (image : ImageVariant)
    (hN : host.NumberOfThreads = 1) :
    ∃ out, ApplyEnhancements host p image = .ok out ∧
      EnhancedBefore (host.Mean image) (host.StdDev image) p.m_enhancementStrength image out
        image.height 0 := by
  have hband : ∃ out, forRange 0 image.height
      (fun y output =>
        forRange 0 image.width
          (fun x output => do
            let pixel ← enhancePixel (host.Mean image) (host.StdDev image)
              p.m_enhancementStrength image.width image.height output x y
            output.SetPixel x y pixel)
          output)
      image = .ok out ∧
      EnhancedBefore (host.Mean image) (host.StdDev image) p.m_enhancementStrength image out
        image.height 0 := by
    refine forRange_inv _ (fun k t => EnhancedBefore (host.Mean image) (host.StdDev image)
      p.m_enhancementStrength image t k 0) 0 image.height (Nat.zero_le _) image
      ⟨rfl, rfl, fun _ _ _ => rfl, fun x y _ h => by omega⟩ ?_
    intro k t _ hk hI
    obtain ⟨u, hu, hIu⟩ := forRange_inv
      (fun x output => do
        let pixel ← enhancePixel (host.Mean image) (host.StdDev image)
          p.m_enhancementStrength image.width image.height output x k
        output.SetPixel x k pixel)
      (fun j u => EnhancedBefore (host.Mean image) (host.StdDev image)
        p.m_enhancementStrength image u k j) 0 image.width (Nat.zero_le _) t hI
      (fun j u _ hj hIu => enhance_step _ _ _ image u k j hj hk hIu)
    exact ⟨u, hu, hIu.nextRow⟩
  obtain ⟨out, hout, hI⟩ := hband
  refine ⟨out, ?_, hI⟩
  unfold ApplyEnhancements ParallelProcess
  simp only [hN, forRange, forLoop, startRow, endRow, Nat.sub_self, Nat.zero_mul, if_true,
    Nat.sub_zero]
  simp only [forRange, Nat.sub_zero] at hout
  rw [hout]

/-- The value computed by the source and the value of the amended wording
coincide. -/
theorem enhanceValue_eq_amended (mean stdDev strength : ℚ) (interior : Bool) (p a : ℚ) :
    enhanceValue mean stdDev strength interior p a
      = amendedEnhanceValue mean stdDev strength interior p a := by
  unfold enhanceValue amendedEnhanceValue
  by_cases hp : p > mean <;> cases interior <;> simp [hp]

/-- C22 as stated does not hold: on the 4 x 4 checkerboard (mean = stddev = 1/4,
strength 1, one worker) the pixel (1, 1) has `p = 1/2` and all four neighbours
are `0` before and after the pass; the pass stores `18/25`, the stated formula
gives `7/10`. -/
theorem enhancement_local_term_uses_raised_pixel :
    ∃ out, ApplyEnhancements checkerHost checkerProcess checkerRaster = .ok out ∧
      out.samples 0 0 1 = 0 ∧ out.samples 0 1 0 = 0 ∧
      out.samples 0 1 1 = 18/25 ∧
      claimedEnhanceValue (checkerHost.Mean checkerRaster) (checkerHost.StdDev checkerRaster)
        checkerProcess.m_enhancementStrength (isInterior 4 4 1 1)
        (checkerRaster.samples 0 1 1)
        ((out.samples 0 0 1 + checkerRaster.samples 0 2 1 + out.samples 0 1 0
          + checkerRaster.samples 0 1 2) / 4) = 7/10 := by
  obtain ⟨out, hout, _, _, _, hdone⟩ :=
    applyEnhancements_sequential checkerHost checkerProcess checkerRaster rfl
  have h01 := hdone 0 1 (by decide) (Or.inl (by decide))
  have h10 := hdone 1 0 (by decide) (Or.inl (by decide))
  have h11 := hdone 1 1 (by decide) (Or.inl (by decide))
  have e01 : out.samples 0 0 1 = 0 := by
    rw [h01]
    norm_num [checkerRaster, checkerHost, checkerProcess, enhanceValue, isInterior, clamp01]
  have e10 : out.samples 0 1 0 = 0 := by
    rw [h10]
    norm_num [checkerRaster, checkerHost, checkerProcess, enhanceValue, isInterior, clamp01]
  refine ⟨out, hout, e01, e10, ?_, ?_⟩
  · rw [h11]
    simp only [Nat.sub_self, Nat.reduceSub, e01, e10]
    norm_num [checkerRaster, checkerHost, checkerProcess, enhanceValue, isInterior, clamp01]
  · rw [e01, e10]
    norm_num [checkerRaster, checkerHost, checkerProcess, claimedEnhanceValue, isInterior,
      clamp01]

/-- C22 (amended): Enhancement run as a single band succeeds, keeps the extent,
and sets each sample to `clamp01(p + G + L)`, with `p` the value before the
pass, `G` the global term of `p`, and `L = (p + G - a)*strength*0.2` on interior
pixels, where `a` averages the four neighbours as they are when the pixel is
visited: left and upper already enhanced, right and lower not yet. -/
theorem applyEnhancements_formula (host : Host) (p : RGBToHAProcess) (image : ImageVariant)
    (hN : host.NumberOfThreads = 1) :
    ∃ out, ApplyEnhancements host p image = .ok out ∧
      out.width = image.width ∧ out.height = image.height ∧
      ∀ x y, x < image.width → y < image.height →
        out.samples 0 x y
          = amendedEnhanceValue (host.Mean image) (host.StdDev image) p.m_enhancementStrength
              (isInterior image.width image.height x y) (image.samples 0 x y)
              ((out.samples 0 (x - 1) y + image.samples 0 (x + 1) y + out.samples 0 x (y - 1)
                + image.samples 0 x (y + 1)) / 4) := by
  obtain ⟨out, hout, hw, hh, _, hdone⟩ := applyEnhancements_sequential host p image hN
  refine ⟨out, hout, hw, hh, fun x y hx hy => ?_⟩
  rw [hdone x y hx (Or.inl hy), enhanceValue_eq_amended]

theorem applyEnhancements_formula_witness :
    checkerHost.NumberOfThreads = 1 ∧
    ∃ out, ApplyEnhancements checkerHost checkerProcess checkerRaster = .ok out ∧
      out.width = checkerRaster.width ∧ out.height = checkerRaster.height ∧
      ∀ x y, x < checkerRaster.width → y < checkerRaster.height →
        out.samples 0 x y
          = amendedEnhanceValue (checkerHost.Mean checkerRaster)
              (checkerHost.StdDev checkerRaster) checkerProcess.m_enhancementStrength
              (isInterior checkerRaster.width checkerRaster.height x y)
              (checkerRaster.samples 0 x y)
              ((out.samples 0 (x - 1) y + checkerRaster.samples 0 (x + 1) y
                + out.samples 0 x (y - 1) + checkerRaster.samples 0 x (y + 1)) / 4) :=
  ⟨rfl, applyEnhancements_formula checkerHost checkerProcess checkerRaster rfl⟩

/-! ## Statistics and the division of Enhancement -/

theorem mem_rasterSamples (image : ImageVariant) (x y : Nat) (hx : x < image.width)
    (hy : y < image.height) : image.samples 0 x y ∈ rasterSamples image := by
  unfold rasterSamples
  rw [List.mem_flatMap]
  exact ⟨y, List.mem_range.2 hy, List.mem_map.2 ⟨x, List.mem_range.2 hx, rfl⟩⟩

/-- A sample different from the mean makes the population variance positive. -/
theorem populationVariance_pos (image : ImageVariant) (x y : Nat) (hx : x < image.width)
    (hy : y < image.height) (hne : image.samples 0 x y ≠ populationMean image) :
    0 < populationVariance image := by
  have hmem := mem_rasterSamples image x y hx hy
  have hlen : 0 < ((rasterSamples image).length : ℚ) := by
    have := List.length_pos_of_mem hmem
    exact_mod_cast this
  have hterm : (image.samples 0 x y - populationMean image) ^ 2
      ∈ (rasterSamples image).map (fun v => (v - populationMean image) ^ 2) :=
    List.mem_map.2 ⟨_, hmem, rfl⟩
  have hle := List.single_le_sum (by
    intro v hv
    obtain ⟨u, _, rfl⟩ := List.mem_map.1 hv
    exact sq_nonneg _) _ hterm
  have hpos : 0 < (image.samples 0 x y - populationMean image) ^ 2 := by
    have : image.samples 0 x y - populationMean image ≠ 0 := sub_ne_zero.2 hne
    positivity
  exact div_pos (lt_of_lt_of_le hpos hle) hlen

theorem rasterSamples_checker : rasterSamples checkerRaster
    = [1/2, 0, 1/2, 0, 0, 1/2, 0, 1/2, 1/2, 0, 1/2, 0, 0, 1/2, 0, 1/2] := by
  simp [rasterSamples, checkerRaster, List.range_succ, List.flatMap]

/-- The mean of `checkerHost` is the population mean of `checkerRaster`. -/
theorem populationMean_checker :
    checkerHost.Mean checkerRaster = populationMean checkerRaster := by
  unfold populationMean
  rw [rasterSamples_checker]
  norm_num [checkerHost]

/-- The standard deviation of `checkerHost` is the population standard deviation
of `checkerRaster`. -/
theorem populationVariance_checker :
    checkerHost.StdDev checkerRaster ^ 2 = populationVariance checkerRaster := by
  unfold populationVariance
  rw [← populationMean_checker, rasterSamples_checker]
  norm_num [checkerHost]

theorem rasterSamples_flat : rasterSamples (constantRaster 3 3 (1/2))
    = [1/2, 1/2, 1/2, 1/2, 1/2, 1/2, 1/2, 1/2, 1/2] := by
  simp [rasterSamples, constantRaster, List.range_succ, List.flatMap]

/-- The mean of `flatHost` is the population mean of the raster with every
sample `1/2`. -/
theorem populationMean_flat :
    flatHost.Mean (constantRaster 3 3 (1/2)) = populationMean (constantRaster 3 3 (1/2)) := by
  unfold populationMean
  rw [rasterSamples_flat]
  norm_num [flatHost]

/-- The standard deviation of `flatHost` is the population standard deviation of
the raster with every sample `1/2`. -/
theorem populationVariance_flat :
    flatHost.StdDev (constantRaster 3 3 (1/2)) ^ 2
      = populationVariance (constantRaster 3 3 (1/2)) := by
  unfold populationVariance
  rw [← populationMean_flat, rasterSamples_flat]
  norm_num [flatHost]

/-! ## Bands run in any order -/

theorem forLoop_eq_runBands (func : Nat → Nat → ImageVariant → Except Error ImageVariant)
    (f : Nat → Nat × Nat) (n : Nat) : ∀ (i : Nat) (s : ImageVariant),
    forLoop (fun i s => func (f i).1 (f i).2 s) i n s
      = runBands func ((List.range' i n).map f) s := by
  induction n with
  | zero => intro i s; rfl
  | succ n ih =>
    intro i s
    rw [List.range'_succ, List.map_cons]
    simp only [forLoop, runBands]
    cases func (f i).1 (f i).2 s with
    | ok s' => exact ih (i + 1) s'
    | error e => rfl

/-- `ParallelProcess` runs the band function over `bands`, in list order. -/
theorem parallelProcess_eq_runBands (host : Host) (H : Nat)
    (func : Nat → Nat → ImageVariant → Except Error ImageVariant) (s : ImageVariant) :
    ParallelProcess host H func s = runBands func (bands H host.NumberOfThreads) s := by
  unfold ParallelProcess forRange bands
  simp only [Nat.sub_zero, List.range_eq_range']
  exact forLoop_eq_runBands func
    (fun i => (startRow H host.NumberOfThreads i, endRow H host.NumberOfThreads i)) _ 0 s

theorem bands_valid (H N : Nat) (b : Nat × Nat) (hb : b ∈ bands H N) : b.1 ≤ b.2 ∧ b.2 ≤ H := by
  unfold bands at hb
  obtain ⟨i, hi, rfl⟩ := List.mem_map.1 hb
  have hi' := List.mem_range.1 hi
  exact ⟨startRow_le_endRow H N i hi', endRow_le_height H N i hi'⟩

theorem bands_cover (H N y : Nat) (hN : 1 ≤ N) (hy : y < H) :
    ∃ b ∈ bands H N, b.1 ≤ y ∧ y < b.2 := by
  obtain ⟨i, hi, h1, h2⟩ := band_exists H N y hN hy
  exact ⟨_, List.mem_map.2 ⟨i, List.mem_range.2 hi, rfl⟩, h1, h2⟩

theorem BandsDisjoint.symm {a b : Nat × Nat} (h : BandsDisjoint a b) : BandsDisjoint b a :=
  fun y hy => h y ⟨hy.2.2.1, hy.2.2.2, hy.1, hy.2.1⟩

theorem bands_pairwise (H N : Nat) : (bands H N).Pairwise BandsDisjoint := by
  unfold bands
  rw [List.pairwise_map]
  refine List.Pairwise.imp_of_mem ?_ (List.pairwise_lt_range N)
  intro i j _ hj hij y hy
  have := endRow_le_startRow H N i j hij (List.mem_range.1 hj)
  simp only at hy
  omega

/-- A band whose body stores `F x y` at `(x, y)` whenever the sample at
`(x, y)` is still the one of `o` fills its rows with `F`; only the rows of the
band itself have to be those of `o` when the band starts. -/
theorem rows_fill_within (body : Nat → Nat → ImageVariant → Except Error ImageVariant)
    (F : Nat → Nat → ℚ) (W lo hi w h : Nat) (o : ImageVariant)
    (hb : ∀ x y s, x < W → lo ≤ y → y < hi → s.width = w → s.height = h →
      s.samples 0 x y = o.samples 0 x y → body x y s = .ok (s.write x y (F x y)))
    (hle : lo ≤ hi) (s : ImageVariant) (hw : s.width = w) (hh : s.height = h)
    (hso : ∀ x y, lo ≤ y → y < hi → s.samples 0 x y = o.samples 0 x y) :
    ∃ s', forRange lo hi (fun y s => forRange 0 W (fun x s => body x y s) s) s = .ok s' ∧
      FilledOn (fun x y => x < W ∧ lo ≤ y ∧ y < hi) F s s' :=
  rows_written body (fun x y v => v = F x y) W lo hi w h s
    (fun x y t hx hlo hhi htw hth hsame =>
      ⟨F x y, hb x y t hx hlo hhi htw hth (hsame.trans (hso x y hlo hhi)), rfl⟩)
    hle s hw hh (fun _ _ _ => rfl)

/-- Bands that are pairwise disjoint, run one after the other in any list
order, fill the union of their rows with `F`. -/
theorem runBands_fill (func : Nat → Nat → ImageVariant → Except Error ImageVariant)
    (F : Nat → Nat → ℚ) (W H w h : Nat) (o : ImageVariant)
    (hf : ∀ lo hi s, lo ≤ hi → hi ≤ H → s.width = w → s.height = h →
      (∀ x y, lo ≤ y → y < hi → s.samples 0 x y = o.samples 0 x y) →
      ∃ s', func lo hi s = .ok s' ∧ FilledOn (fun x y => x < W ∧ lo ≤ y ∧ y < hi) F s s') :
    ∀ (bs : List (Nat × Nat)) (s : ImageVariant),
      (∀ b ∈ bs, b.1 ≤ b.2 ∧ b.2 ≤ H) → bs.Pairwise BandsDisjoint →
      s.width = w → s.height = h →
      (∀ b ∈ bs, ∀ x y, b.1 ≤ y → y < b.2 → s.samples 0 x y = o.samples 0 x y) →
      ∃ s', runBands func bs s = .ok s' ∧
        FilledOn (fun x y => x < W ∧ ∃ b ∈ bs, b.1 ≤ y ∧ y < b.2) F s s' := by
  intro bs
  induction bs with
  | nil =>
    intro s _ _ _ _ _
    exact ⟨s, rfl, FilledOn.start F s _ (by simp)⟩
  | cons b rest ih =>
    intro s hval hpw hw hh hso
    rw [List.pairwise_cons] at hpw
    have hb := hval b (List.mem_cons_self _ _)
    obtain ⟨s1, hs1, hfill1⟩ := hf b.1 b.2 s hb.1 hb.2 hw hh (hso b (List.mem_cons_self _ _))
    obtain ⟨s2, hs2, hfill2⟩ := ih s1 (fun c hc => hval c (List.mem_cons_of_mem _ hc)) hpw.2
      (hfill1.2.2.1.trans hw) (hfill1.2.2.2.1.trans hh) (by
        intro c hc x y h1 h2
        rw [hfill1.2.2.2.2.2.2 0 x y (fun hn => hpw.1 c hc y ⟨hn.2.2.1, hn.2.2.2, h1, h2⟩)]
        exact hso c (List.mem_cons_of_mem _ hc) x y h1 h2)
    refine ⟨s2, ?_, (hfill1.trans hfill2).congr ?_⟩
    · simp only [runBands, hs1]
      exact hs2
    · intro x y
      simp only [List.mem_cons, exists_eq_or_imp]
      tauto

/-- A band function that fills any band `[lo, hi)` with `F`, relying only on the
rows of that band being those of `o`, gives the same raster for the single band
`[0, H)` and for the bands of `ParallelProcess` taken in any order. -/
theorem orderIndependent_of_fill (func : Nat → Nat → ImageVariant → Except Error ImageVariant)
    (F : Nat → Nat → ℚ) (W H w h : Nat) (o : ImageVariant)
    (hf : ∀ lo hi s, lo ≤ hi → hi ≤ H → s.width = w → s.height = h →
      (∀ x y, lo ≤ y → y < hi → s.samples 0 x y = o.samples 0 x y) →
      ∃ s', func lo hi s = .ok s' ∧ FilledOn (fun x y => x < W ∧ lo ≤ y ∧ y < hi) F s s')
    (hw : o.width = w) (hh : o.height = h) :
    ∃ out, OrderIndependent func H o out ∧ FilledOn (fun x y => x < W ∧ y < H) F o out := by
  obtain ⟨out, hout, hfill⟩ := hf 0 H o (Nat.zero_le _) (Nat.le_refl _) hw hh
    (fun _ _ _ _ => rfl)
  have hfill' : FilledOn (fun x y => x < W ∧ y < H) F o out :=
    hfill.congr (by intro x y; omega)
  refine ⟨out, ⟨hout, ?_⟩, hfill'⟩
  intro N hN bs hperm
  obtain ⟨s', hs', hfs⟩ := runBands_fill func F W H w h o hf bs o
    (fun b hb => bands_valid H N b (hperm.mem_iff.1 hb))
    ((hperm.pairwise_iff BandsDisjoint.symm).2 (bands_pairwise H N)) hw hh
    (fun _ _ _ _ _ _ => rfl)
  have hcov : ∀ x y, (x < W ∧ y < H) ↔ (x < W ∧ ∃ b ∈ bs, b.1 ≤ y ∧ y < b.2) := by
    intro x y
    constructor
    · rintro ⟨hx, hy⟩
      obtain ⟨b, hb, h1, h2⟩ := bands_cover H N y hN hy
      exact ⟨hx, b, hperm.mem_iff.2 hb, h1, h2⟩
    · rintro ⟨hx, b, hb, _, h2⟩
      have := (bands_valid H N b (hperm.mem_iff.1 hb)).2
      exact ⟨hx, by omega⟩
  have he := FilledOn.unique (hfs.congr hcov) hfill' (fun _ _ _ => rfl)
  rw [hs', he]

/-! ## The band functions of the passes -/

/-- Each pass of the source hands its band function to `ParallelProcess`. -/
theorem passes_use_bands (host : Host) (p : RGBToHAProcess)
    (red green blue output : ImageVariant) :
    ConvertStandardRGBToHA host p red green blue output
      = ParallelProcess host red.height (standardBand p red green blue) output ∧
    ConvertAdvancedSpectral host p red green blue output
      = ParallelProcess host red.height (spectralBand p red green blue) output ∧
    ConvertNeuralApproximation host p red green blue output
      = ParallelProcess host red.height (neuralBand host red green blue) output ∧
    ConvertAdaptiveMultiScale host p red green blue output
      = (do
          let levels ← ProcessMultiScale host p red green blue
            (ImageVariant.CreateFloatImage (red.width / 4) (red.height / 4))
            (ImageVariant.CreateFloatImage (red.width / 2) (red.height / 2))
            (ImageVariant.CreateFloatImage red.width red.height)
          ParallelProcess host red.height
            (adaptiveBand levels.1 levels.2.1 levels.2.2 red.width) output) ∧
    ApplyNoiseReduction host p output
      = (do
          let tempImage ← ParallelProcess host output.height (bilateralBand host output)
            (ImageVariant.CreateFloatImage output.width output.height)
          ParallelProcess host output.height (blendBand p tempImage output.width) output) ∧
    ApplyContrastBoost host p output
      = (if host.Percentile output 95.0 - host.Percentile output 5.0 > 0 then
          ParallelProcess host output.height
            (boostBand (host.Percentile output 5.0)
              (host.Percentile output 95.0 - host.Percentile output 5.0) p.m_contrastBoost
              output.width) output
        else .ok output) :=
  ⟨rfl, rfl, rfl, rfl, rfl, rfl⟩

theorem OrderIndependent.parallel
    {func : Nat → Nat → ImageVariant → Except Error ImageVariant} {H : Nat}
    {s out : ImageVariant} (h : OrderIndependent func H s out) (host : Host)
    (hN : 1 ≤ host.NumberOfThreads) : ParallelProcess host H func s = .ok out := by
  rw [parallelProcess_eq_runBands]
  exact h.2 host.NumberOfThreads hN _ (List.Perm.refl _)

/-- The loop nest shared by the per-pixel conversions (read `(r, g, b)` at
`(x, y)`, store `G r g b`), as a band function, is order independent. -/
theorem pointwise_order (G : ℚ → ℚ → ℚ → ℚ) (red green blue output : ImageVariant)
    (hgw : green.width = red.width) (hgh : green.height = red.height)
    (hbw : blue.width = red.width) (hbh : blue.height = red.height)
    (how : output.width = red.width) (hoh : output.height = red.height) :
    ∃ out, OrderIndependent
      (fun startRow endRow output =>
        forRange startRow endRow
          (fun y output =>
            forRange 0 red.width
              (fun x output => do
                let r ← red.Pixel x y
                let g ← green.Pixel x y
                let b ← blue.Pixel x y
                output.SetPixel x y (G r g b))
              output)
          output)
      red.height output out := by
  obtain ⟨out, hout, _⟩ := orderIndependent_of_fill _
    (fun x y => G (red.samples 0 x y) (green.samples 0 x y) (blue.samples 0 x y))
    red.width red.height red.width red.height output (by
      intro lo hi s hle hhi hsw hsh hso
      refine rows_fill_within (fun x y output => do
          let r ← red.Pixel x y
          let g ← green.Pixel x y
          let b ← blue.Pixel x y
          output.SetPixel x y (G r g b)) _ red.width lo hi red.width red.height output ?_ hle s
        hsw hsh hso
      intro x y t hx _ hy htw hth _
      have hy' : y < red.height := by omega
      simp [ImageVariant.Pixel, ImageVariant.SetPixel, hx, hy', hgw, hgh, hbw, hbh, htw, hth,
        bind, Except.bind]) how hoh
  exact ⟨out, hout⟩

/-- The recombination pass of the adaptive conversion is order independent. -/
theorem adaptiveBand_order (low mid high red output : ImageVariant)
    (hhw : high.width = red.width) (hhh : high.height = red.height)
    (how : output.width = red.width) (hoh : output.height = red.height) :
    ∃ out, OrderIndependent (adaptiveBand low mid high red.width) red.height output out := by
  obtain ⟨out, hout, _⟩ := orderIndependent_of_fill (adaptiveBand low mid high red.width)
    (fun x y => clamp01 (0.6 * high.samples 0 x y
      + (if x / 2 < mid.width ∧ y / 2 < mid.height then 0.3 * mid.samples 0 (x / 2) (y / 2)
          else 0)
      + (if x / 4 < low.width ∧ y / 4 < low.height then 0.1 * low.samples 0 (x / 4) (y / 4)
          else 0)))
    red.width red.height red.width red.height output (by
      intro lo hi s hle hhi hsw hsh hso
      refine rows_fill_within (fun x y output => do
          let haValue ← combineScales low mid high x y
          output.SetPixel x y haValue) _ red.width lo hi red.width red.height output ?_ hle s
        hsw hsh hso
      intro x y t hx _ hy htw hth _
      have hy' : y < red.height := by omega
      beta_reduce
      rw [combineScales_eq low mid high x y (by rw [hhw]; exact hx) (by rw [hhh]; exact hy')]
      simp only [bind, Except.bind, ImageVariant.SetPixel, htw, hth]
      rw [if_pos ⟨hx, hy'⟩]) how hoh
  exact ⟨out, hout⟩

/-- The bilateral pass of Noise Reduction, which reads `image` and writes the
temporary raster, is order independent. -/
theorem bilateralBand_order (host : Host) (image temp : ImageVariant)
    (htw : temp.width = image.width) (hth : temp.height = image.height) :
    ∃ out, OrderIndependent (bilateralBand host image) image.height temp out ∧
      out.width = temp.width ∧ out.height = temp.height := by
  obtain ⟨out, hout, hfill⟩ := orderIndependent_of_fill (bilateralBand host image)
    (fun x y =>
      if ((bilateralTerms host image x y (image.samples 0 x y)).map (fun t => t.2)).sum > 0 then
        ((bilateralTerms host image x y (image.samples 0 x y)).map (fun t => t.1 * t.2)).sum
          / ((bilateralTerms host image x y (image.samples 0 x y)).map (fun t => t.2)).sum
      else image.samples 0 x y)
    image.width image.height image.width image.height temp (by
      intro lo hi s hle hhi hsw hsh hso
      refine rows_fill_within (fun x y tempImage => do
          let centerPixel ← image.Pixel x y
          let acc ← bilateralAccumulate host 2.0 0.1 image.width image.height image x y
            centerPixel
          tempImage.SetPixel x y (if acc.2 > 0 then acc.1 / acc.2 else centerPixel))
        _ image.width lo hi image.width image.height temp ?_ hle s hsw hsh hso
      intro x y t hx _ hy htw' hth' _
      have hy' : y < image.height := by omega
      simp only [ImageVariant.Pixel, ImageVariant.SetPixel, hx, hy', htw', hth', and_self,
        if_true, bind, Except.bind, bilateralAccumulate_eq]) htw hth
  exact ⟨out, hout, hfill.2.2.1, hfill.2.2.2.1⟩

/-- The blend pass of Noise Reduction, which reads the temporary raster and the
pixel it overwrites, is order independent. -/
theorem blendBand_order (p : RGBToHAProcess) (temp image : ImageVariant)
    (htw : temp.width = image.width) (hth : temp.height = image.height) :
    ∃ out, OrderIndependent (blendBand p temp image.width) image.height image out := by
  obtain ⟨out, hout, _⟩ := orderIndependent_of_fill (blendBand p temp image.width)
    (fun x y => image.samples 0 x y * (1.0 - p.m_noiseReduction)
      + temp.samples 0 x y * p.m_noiseReduction)
    image.width image.height image.width image.height image (by
      intro lo hi s hle hhi hsw hsh hso
      refine rows_fill_within (fun x y output => do
          let original ← output.Pixel x y
          let filtered ← temp.Pixel x y
          output.SetPixel x y
            (original * (1.0 - p.m_noiseReduction) + filtered * p.m_noiseReduction))
        _ image.width lo hi image.width image.height image ?_ hle s hsw hsh hso
      intro x y t hx _ hy htw' hth' hsame
      have hy' : y < image.height := by omega
      simp only [ImageVariant.Pixel, ImageVariant.SetPixel, hx, hy', htw, hth, htw', hth',
        and_self, if_true, bind, Except.bind, hsame]) rfl rfl
  exact ⟨out, hout⟩

/-- The pass of Contrast Boost, which reads the pixel it overwrites, is order
independent. -/
theorem boostBand_order (p5 range contrastBoost : ℚ) (image : ImageVariant) :
    ∃ out, OrderIndependent (boostBand p5 range contrastBoost image.width) image.height
      image out := by
  obtain ⟨out, hout, _⟩ := orderIndependent_of_fill
    (boostBand p5 range contrastBoost image.width)
    (fun x y => boostPixel p5 range contrastBoost (image.samples 0 x y))
    image.width image.height image.width image.height image (by
      intro lo hi s hle hhi hsw hsh hso
      refine rows_fill_within (fun x y output => do
          let pixel ← output.Pixel x y
          output.SetPixel x y (boostPixel p5 range contrastBoost pixel))
        _ image.width lo hi image.width image.height image ?_ hle s hsw hsh hso
      intro x y t hx _ hy htw hth hsame
      have hy' : y < image.height := by omega
      simp only [ImageVariant.Pixel, ImageVariant.SetPixel, hx, hy', htw, hth, and_self,
        if_true, bind, Except.bind, hsame]) rfl rfl
  exact ⟨out, hout⟩

/-- C25: for every worker count `N ≥ 1`, each of the four conversions, Contrast
Boost (when it runs, `p95 - p5 > 0`) and both passes of Noise Reduction succeed
with a raster `out` that is also the result of the pass's band function on the
single band `[0, H)` and of that band function run over the bands of
`ParallelProcess`, for any worker count, in any order (`OrderIndependent`).
The colour channels and the output have the same extent, as in `Execute`. -/
theorem bands_order_independent (host : Host) (p : RGBToHAProcess)
    (red green blue output image : ImageVariant) (hN : 1 ≤ host.NumberOfThreads)
    (hgw : green.width = red.width) (hgh : green.height = red.height)
    (hbw : blue.width = red.width) (hbh : blue.height = red.height)
    (how : output.width = red.width) (hoh : output.height = red.height) :
    (∃ out, ConvertStandardRGBToHA host p red green blue output = .ok out ∧
      OrderIndependent (standardBand p red green blue) red.height output out) ∧
    (∃ out, ConvertAdvancedSpectral host p red green blue output = .ok out ∧
      OrderIndependent (spectralBand p red green blue) red.height output out) ∧
    (∃ low mid high out,
      ProcessMultiScale host p red green blue
        (ImageVariant.CreateFloatImage (red.width / 4) (red.height / 4))
        (ImageVariant.CreateFloatImage (red.width / 2) (red.height / 2))
        (ImageVariant.CreateFloatImage red.width red.height) = .ok (low, mid, high) ∧
      ConvertAdaptiveMultiScale host p red green blue output = .ok out ∧
      OrderIndependent (adaptiveBand low mid high red.width) red.height output out) ∧
    (∃ out, ConvertNeuralApproximation host p red green blue output = .ok out ∧
      OrderIndependent (neuralBand host red green blue) red.height output out) ∧
    (host.Percentile image 95.0 - host.Percentile image 5.0 > 0 →
      ∃ out, ApplyContrastBoost host p image = .ok out ∧
        OrderIndependent
          (boostBand (host.Percentile image 5.0)
            (host.Percentile image 95.0 - host.Percentile image 5.0) p.m_contrastBoost
            image.width)
          image.height image out) ∧
    (∃ temp out,
      OrderIndependent (bilateralBand host image) image.height
        (ImageVariant.CreateFloatImage image.width image.height) temp ∧
      OrderIndependent (blendBand p temp image.width) image.height image out ∧
      ApplyNoiseReduction host p image = .ok out) := by
  refine ⟨?_, ?_, ?_, ?_, ?_, ?_⟩
  · obtain ⟨out, hO⟩ := pointwise_order
      (fun r g b => clamp01 (standardHaValue p.m_haWavelength r g b)) red green blue output
      hgw hgh hbw hbh how hoh
    exact ⟨out, hO.parallel host hN, hO⟩
  · obtain ⟨out, hO⟩ := pointwise_order
      (fun r g b => clamp01 (spectralHaValue p.m_adaptiveProcessing r g b)) red green blue
      output hgw hgh hbw hbh how hoh
    exact ⟨out, hO.parallel host hN, hO⟩
  · obtain ⟨low, mid, high, _, hpms, _, _, _, hhigh, _, _⟩ :=
      convertAdaptive_fill host p red green blue output hN hgw hgh hbw hbh how hoh
    obtain ⟨out, hO⟩ := adaptiveBand_order low mid high red output hhigh.1 hhigh.2 how hoh
    refine ⟨low, mid, high, out, hpms, ?_, hO⟩
    rw [(passes_use_bands host p red green blue output).2.2.2.1, hpms]
    exact hO.parallel host hN
  · obtain ⟨out, hO⟩ := pointwise_order
      (fun r g b => clamp01 (neuralHaValue host r g b)) red green blue output
      hgw hgh hbw hbh how hoh
    exact ⟨out, hO.parallel host hN, hO⟩
  · intro hrange
    obtain ⟨out, hO⟩ := boostBand_order (host.Percentile image 5.0)
      (host.Percentile image 95.0 - host.Percentile image 5.0) p.m_contrastBoost image
    refine ⟨out, ?_, hO⟩
    rw [(passes_use_bands host p red green blue image).2.2.2.2.2, if_pos hrange]
    exact hO.parallel host hN
  · obtain ⟨temp, hT, hdim⟩ := bilateralBand_order host image
      (ImageVariant.CreateFloatImage image.width image.height) rfl rfl
    have htemp := hT.parallel host hN
    obtain ⟨out, hO⟩ := blendBand_order p temp image hdim.1 hdim.2
    refine ⟨temp, out, hT, hO, ?_⟩
    rw [(passes_use_bands host p red green blue image).2.2.2.2.1, htemp]
    exact hO.parallel host hN

/-- Witness for C25: the 4 x 4 checkerboard with two workers; the bands are
`[0, 2)` and `[2, 4)`, here run in the reverse order. -/
theorem bands_order_independent_witness :
    1 ≤ (hostWithPercentiles 2 0 1).NumberOfThreads ∧
    (∃ out, ConvertStandardRGBToHA (hostWithPercentiles 2 0 1) checkerProcess checkerRaster
        checkerRaster checkerRaster checkerRaster = .ok out ∧
      standardBand checkerProcess checkerRaster checkerRaster checkerRaster 0 4 checkerRaster
        = .ok out ∧
      runBands (standardBand checkerProcess checkerRaster checkerRaster checkerRaster)
        [(2, 4), (0, 2)] checkerRaster = .ok out) ∧
    ((hostWithPercentiles 2 0 1).Percentile checkerRaster 95.0
        - (hostWithPercentiles 2 0 1).Percentile checkerRaster 5.0 > 0 ∧
      ∃ out, ApplyContrastBoost (hostWithPercentiles 2 0 1) checkerProcess checkerRaster
          = .ok out ∧
        runBands
          (boostBand ((hostWithPercentiles 2 0 1).Percentile checkerRaster 5.0)
            ((hostWithPercentiles 2 0 1).Percentile checkerRaster 95.0
              - (hostWithPercentiles 2 0 1).Percentile checkerRaster 5.0)
            checkerProcess.m_contrastBoost checkerRaster.width)
          [(2, 4), (0, 2)] checkerRaster = .ok out) := by
  have hperm : List.Perm [(2, 4), (0, 2)] (bands checkerRaster.height 2) :=
    List.Perm.swap (0, 2) (2, 4) []
  have hrange : (hostWithPercentiles 2 0 1).Percentile checkerRaster 95.0
      - (hostWithPercentiles 2 0 1).Percentile checkerRaster 5.0 > 0 := by
    norm_num [hostWithPercentiles]
  have h := bands_order_independent (hostWithPercentiles 2 0 1) checkerProcess checkerRaster
    checkerRaster checkerRaster checkerRaster checkerRaster (by decide) rfl rfl rfl rfl rfl rfl
  obtain ⟨out, h1, h2⟩ := h.1
  obtain ⟨out', h3, h4⟩ := h.2.2.2.2.1 hrange
  exact ⟨by decide, ⟨out, h1, h2.1, h2.2 2 (by decide) _ hperm⟩, hrange,
    ⟨out', h3, h4.2 2 (by decide) _ hperm⟩⟩

/-! ## Weight sum of the bilateral filter -/

/-- Exact arithmetic is a rounding with relative error `0`. -/
theorem isRounding_id : IsRounding (fun x => x) 0 :=
  ⟨le_refl 0, by norm_num, fun x => by simp, rfl, fun _ h => h⟩

/-! ## Parameters are used as supplied -/

/-- Erasing part of the state of a loop: when every step of the loop on the
richer state projects to the step of the plain loop, so does the whole loop. -/
theorem forLoop_erase {σ τ : Type} (π : τ → σ) (body : Nat → σ → Except Error σ)
    (body' : Nat → τ → Except Error τ)
    (h : ∀ i t, (body' i t).map π = body i (π t)) (n : Nat) :
    ∀ (i : Nat) (t : τ), (forLoop body' i n t).map π = forLoop body i n (π t) := by
  induction n with
  | zero => intro i t; rfl
  | succ n ih =>
    intro i t
    have hi := h i t
    simp only [forLoop]
    cases hb : body' i t with
    | error e =>
      rw [hb] at hi
      rw [← hi]
      rfl
    | ok t' =>
      rw [hb] at hi
      rw [← hi]
      exact ih (i + 1) t'

theorem forRange_erase {σ τ : Type} (π : τ → σ) (body : Nat → σ → Except Error σ)
    (body' : Nat → τ → Except Error τ)
    (h : ∀ i t, (body' i t).map π = body i (π t)) (lo hi : Nat) (t : τ) :
    (forRange lo hi body' t).map π = forRange lo hi body (π t) :=
  forLoop_erase π body body' h (hi - lo) lo t

theorem parallelProcess_erase {σ τ : Type} (π : τ → σ) (host : Host) (H : Nat)
    (func : Nat → Nat → σ → Except Error σ) (func' : Nat → Nat → τ → Except Error τ)
    (h : ∀ lo hi t, (func' lo hi t).map π = func lo hi (π t)) (t : τ) :
    (ParallelProcess host H func' t).map π = ParallelProcess host H func (π t) := by
  unfold ParallelProcess
  exact forRange_erase π
    (fun i s => func (startRow H host.NumberOfThreads i) (endRow H host.NumberOfThreads i) s)
    (fun i s => func' (startRow H host.NumberOfThreads i) (endRow H host.NumberOfThreads i) s)
    (fun i t => h _ _ t) 0 host.NumberOfThreads t

/-- The traced body computes the value of `enhancePixel`. -/
theorem enhancePixelTraced_erase (mean stdDev strength : ℚ) (W H : Nat) (t : ImageVariant)
    (x y : Nat) :
    (enhancePixelTraced mean stdDev strength W H t x y).map Prod.fst
      = enhancePixel mean stdDev strength W H t x y := by
  unfold enhancePixelTraced enhancePixel
  cases hp : t.Pixel x y with
  | error e => rfl
  | ok pixel =>
    simp only [bind, Except.bind]
    by_cases hm : pixel > mean <;> by_cases hint : x > 0 ∧ x < W - 1 ∧ y > 0 ∧ y < H - 1
    all_goals simp only [hm, hint, if_true, if_false]
    all_goals
      cases t.Pixel (x - 1) y <;> cases t.Pixel (x + 1) y <;> cases t.Pixel x (y - 1) <;>
        cases t.Pixel x (y + 1) <;> rfl

/-- The traced pass computes the raster of `ApplyEnhancements`: erasing the
trace gives the plain pass, whatever the host and the raster. -/
theorem applyEnhancementsTraced_erase (host : Host) (p : RGBToHAProcess)
    (image : ImageVariant) :
    (ApplyEnhancementsTraced host p image).map Prod.fst = ApplyEnhancements host p image := by
  unfold ApplyEnhancementsTraced ApplyEnhancements
  refine parallelProcess_erase Prod.fst host image.height _ _ ?_ (image, [])
  intro lo hi t
  refine forRange_erase Prod.fst _ _ ?_ lo hi t
  intro y t
  refine forRange_erase Prod.fst _ _ ?_ 0 image.width t
  intro x t
  have h := enhancePixelTraced_erase (host.Mean image) (host.StdDev image)
    p.m_enhancementStrength image.width image.height t.1 x y
  simp only [bind, Except.bind]
  cases hr : enhancePixelTraced (host.Mean image) (host.StdDev image) p.m_enhancementStrength
      image.width image.height t.1 x y with
  | error e =>
    rw [hr] at h
    rw [← h]
    rfl
  | ok r =>
    rw [hr] at h
    rw [← h]
    simp only [Except.map]
    cases t.1.SetPixel x y r.1 <;> rfl

/-- The trace of the traced body inside the raster: the divisor `stdDev` when
the sample read at the pixel is above the mean, nothing otherwise. -/
theorem enhancePixelTraced_trace (mean stdDev strength : ℚ) (W H : Nat) (t : ImageVariant)
    (x y : Nat) (hw : t.width = W) (hh : t.height = H) (hx : x < W) (hy : y < H) :
    ∃ v, enhancePixelTraced mean stdDev strength W H t x y
      = .ok (v, if t.samples 0 x y > mean then [stdDev] else []) := by
  unfold enhancePixelTraced
  by_cases hint : x > 0 ∧ x < W - 1 ∧ y > 0 ∧ y < H - 1
  · have h1 : x - 1 < W := by omega
    have h2 : x + 1 < W := by omega
    have h3 : y - 1 < H := by omega
    have h4 : y + 1 < H := by omega
    by_cases hm : t.samples 0 x y > mean
    · simp only [ImageVariant.Pixel, hw, hh, hx, hy, h1, h2, h3, h4, hint, hm, and_self,
        if_true, bind, Except.bind, pure, Except.pure]
      exact ⟨_, rfl⟩
    · simp only [ImageVariant.Pixel, hw, hh, hx, hy, h1, h2, h3, h4, hint, hm, and_self,
        if_true, if_false, bind, Except.bind, pure, Except.pure]
      exact ⟨_, rfl⟩
  · by_cases hm : t.samples 0 x y > mean
    · simp only [ImageVariant.Pixel, hw, hh, hx, hy, hint, hm, and_self, if_true, if_false,
        bind, Except.bind, pure, Except.pure]
      exact ⟨_, rfl⟩
    · simp only [ImageVariant.Pixel, hw, hh, hx, hy, hint, hm, and_self, if_true, if_false,
        bind, Except.bind, pure, Except.pure]
      exact ⟨_, rfl⟩

/-- The traced pass succeeds for every host and raster, and its trace is one
`stdDev` for each sample above the mean, in raster order: the division is
executed exactly at the samples above the mean. -/
theorem applyEnhancementsTraced_eq (host : Host) (p : RGBToHAProcess) (image : ImageVariant)
    (hN : 1 ≤ host.NumberOfThreads) :
    ∃ out, ApplyEnhancementsTraced host p image
      = .ok (out, expectedDivisors (host.Mean image) (host.StdDev image)
          (rasterSamples image)) := by
  have hrows : ∀ r, expectedDivisors (host.Mean image) (host.StdDev image)
      ((List.range r).flatMap
        (fun y => (List.range image.width).map (fun x => image.samples 0 x y)))
      = (List.range r).flatMap (fun y => expectedDivisors (host.Mean image) (host.StdDev image)
          ((List.range image.width).map (fun x => image.samples 0 x y))) := by
    intro r
    unfold expectedDivisors
    rw [List.flatMap_assoc]
  have hband : ∀ lo hi (st : ImageVariant × List ℚ), lo ≤ hi → hi ≤ image.height →
      st.1.width = image.width → st.1.height = image.height →
      (∀ x y, lo ≤ y → st.1.samples 0 x y = image.samples 0 x y) →
      st.2 = (List.range lo).flatMap (fun y => expectedDivisors (host.Mean image)
        (host.StdDev image) ((List.range image.width).map (fun x => image.samples 0 x y))) →
      ∃ st', forRange lo hi
          (fun y state =>
            forRange 0 image.width
              (fun x (state : ImageVariant × List ℚ) => do
                let r ← enhancePixelTraced (host.Mean image) (host.StdDev image)
                  p.m_enhancementStrength image.width image.height state.1 x y
                let output ← state.1.SetPixel x y r.1
                pure (output, state.2 ++ r.2))
              state)
          st = .ok st' ∧
        st'.1.width = image.width ∧ st'.1.height = image.height ∧
        (∀ x y, hi ≤ y → st'.1.samples 0 x y = image.samples 0 x y) ∧
        st'.2 = (List.range hi).flatMap (fun y => expectedDivisors (host.Mean image)
          (host.StdDev image) ((List.range image.width).map (fun x => image.samples 0 x y))) := by
    intro lo hi st hle hhi hsw hsh hso htr
    refine forRange_inv _ (fun k (t : ImageVariant × List ℚ) =>
      t.1.width = image.width ∧ t.1.height = image.height ∧
      (∀ x y, k ≤ y → t.1.samples 0 x y = image.samples 0 x y) ∧
      t.2 = (List.range k).flatMap (fun y => expectedDivisors (host.Mean image)
        (host.StdDev image) ((List.range image.width).map (fun x => image.samples 0 x y))))
      lo hi hle st ⟨hsw, hsh, hso, htr⟩ ?_
    intro k t _ hk hI
    have hk' : k < image.height := by omega
    obtain ⟨u, hu, hIu⟩ := forRange_inv
      (fun x (state : ImageVariant × List ℚ) => do
        let r ← enhancePixelTraced (host.Mean image) (host.StdDev image)
          p.m_enhancementStrength image.width image.height state.1 x k
        let output ← state.1.SetPixel x k r.1
        pure (output, state.2 ++ r.2))
      (fun j (u : ImageVariant × List ℚ) =>
        u.1.width = image.width ∧ u.1.height = image.height ∧
        (∀ x y, (k < y ∨ (y = k ∧ j ≤ x)) → u.1.samples 0 x y = image.samples 0 x y) ∧
        u.2 = t.2 ++ expectedDivisors (host.Mean image) (host.StdDev image)
          ((List.range j).map (fun x => image.samples 0 x k)))
      0 image.width (Nat.zero_le _) t
      ⟨hI.1, hI.2.1, fun x y hxy => hI.2.2.1 x y (by omega), by simp [expectedDivisors]⟩ (by
        intro j u _ hj hIu
        have hsame := hIu.2.2.1 j k (Or.inr ⟨rfl, Nat.le_refl _⟩)
        obtain ⟨v, hv⟩ := enhancePixelTraced_trace (host.Mean image) (host.StdDev image)
          p.m_enhancementStrength image.width image.height u.1 j k hIu.1 hIu.2.1 hj hk'
        refine ⟨(u.1.write j k v, u.2 ++ (if u.1.samples 0 j k > host.Mean image
          then [host.StdDev image] else [])), ?_, hIu.1, hIu.2.1, ?_, ?_⟩
        · beta_reduce
          rw [hv]
          simp only [bind, Except.bind, ImageVariant.SetPixel, hIu.1, hIu.2.1]
          rw [if_pos ⟨hj, hk'⟩]
          rfl
        · intro x y hxy
          have hne : ¬ ((0 : Nat) = 0 ∧ x = j ∧ y = k) := by omega
          show (if (0 : Nat) = 0 ∧ x = j ∧ y = k then v else u.1.samples 0 x y)
            = image.samples 0 x y
          rw [if_neg hne]
          exact hIu.2.2.1 x y (by omega)
        · show u.2 ++ (if u.1.samples 0 j k > host.Mean image then [host.StdDev image] else [])
            = t.2 ++ expectedDivisors (host.Mean image) (host.StdDev image)
              ((List.range (j + 1)).map (fun x => image.samples 0 x k))
          rw [hIu.2.2.2, hsame, List.range_succ, List.map_append]
          simp [expectedDivisors, List.flatMap_append])
    refine ⟨u, hu, hIu.1, hIu.2.1, fun x y hxy => hIu.2.2.1 x y (by omega), ?_⟩
    rw [hIu.2.2.2, hI.2.2.2, List.range_succ, List.flatMap_append]
    simp
  unfold ApplyEnhancementsTraced ParallelProcess
  obtain ⟨u, hu, hI⟩ := forRange_inv
    (fun i (s : ImageVariant × List ℚ) =>
      forRange (startRow image.height host.NumberOfThreads i)
        (endRow image.height host.NumberOfThreads i)
        (fun y state =>
          forRange 0 image.width
            (fun x (state : ImageVariant × List ℚ) => do
              let r ← enhancePixelTraced (host.Mean image) (host.StdDev image)
                p.m_enhancementStrength image.width image.height state.1 x y
              let output ← state.1.SetPixel x y r.1
              pure (output, state.2 ++ r.2))
            state)
        s)
    (fun k (t : ImageVariant × List ℚ) =>
      t.1.width = image.width ∧ t.1.height = image.height ∧
      (∀ x y, (if k = host.NumberOfThreads then image.height
          else startRow image.height host.NumberOfThreads k) ≤ y →
        t.1.samples 0 x y = image.samples 0 x y) ∧
      t.2 = (List.range (if k = host.NumberOfThreads then image.height
          else startRow image.height host.NumberOfThreads k)).flatMap
        (fun y => expectedDivisors (host.Mean image) (host.StdDev image)
          ((List.range image.width).map (fun x => image.samples 0 x y))))
    0 host.NumberOfThreads (Nat.zero_le _) (image, [])
    ⟨rfl, rfl, fun _ _ _ => rfl, by
      have h0 : ¬ 0 = host.NumberOfThreads := by omega
      rw [if_neg h0]
      simp [startRow]⟩ (by
      intro k t _ hk hI
      have hse := startRow_le_endRow image.height host.NumberOfThreads k hk
      have heh := endRow_le_height image.height host.NumberOfThreads k hk
      have hkN : ¬ k = host.NumberOfThreads := by omega
      rw [if_neg hkN] at hI
      obtain ⟨t', ht', hw', hh', hrest, htr⟩ := hband _ _ t hse heh hI.1 hI.2.1 hI.2.2.1 hI.2.2.2
      have hnext : (if k + 1 = host.NumberOfThreads then image.height
          else startRow image.height host.NumberOfThreads (k + 1))
          = endRow image.height host.NumberOfThreads k := by
        by_cases hl : k + 1 = host.NumberOfThreads
        · rw [if_pos hl]
          have : k = host.NumberOfThreads - 1 := by omega
          rw [this, endRow_last]
        · rw [if_neg hl, endRow_eq_startRow_succ _ _ _ (by omega)]
      refine ⟨t', ht', hw', hh', ?_, ?_⟩
      · rw [hnext]
        exact hrest
      · rw [hnext]
        exact htr)
  refine ⟨u.1, ?_⟩
  rw [if_pos rfl] at hI
  have hfin : u.2 = expectedDivisors (host.Mean image) (host.StdDev image)
      (rasterSamples image) := by
    rw [hI.2.2.2]
    unfold rasterSamples
    rw [hrows]
  rw [← hfin]
  exact hu

/-- C29: the pass with its divisions traced succeeds for every worker count,
computes the raster of `ApplyEnhancements`, and executes the division exactly
once for each sample above the mean, with the divisor `stddev`. When the
host's mean is the population mean of the raster and its standard deviation is
a non-negative number that vanishes only if the population variance does,
every sample above the mean comes with `stddev > 0`, so no executed division
has the divisor zero; and when `stddev = 0` no sample is above the mean and no
division is executed at all: the global term is never applied. -/
theorem enhancement_never_divides_by_zero (host : Host) (p : RGBToHAProcess)
    (image : ImageVariant) (hN : 1 ≤ host.NumberOfThreads)
    (hM : host.Mean image = populationMean image)
    (hS0 : 0 ≤ host.StdDev image)
    (hS : host.StdDev image = 0 → populationVariance image = 0) :
    (∀ x y, x < image.width → y < image.height →
      image.samples 0 x y > host.Mean image → 0 < host.StdDev image) ∧
    (∃ out divisors,
      ApplyEnhancementsTraced host p image = .ok (out, divisors) ∧
      ApplyEnhancements host p image = .ok out ∧
      divisors = expectedDivisors (host.Mean image) (host.StdDev image)
        (rasterSamples image) ∧
      (∀ d ∈ divisors, d = host.StdDev image ∧ d ≠ 0) ∧
      (host.StdDev image = 0 → divisors = [])) ∧
    (host.StdDev image = 0 →
      ∀ x y, x < image.width → y < image.height →
        ¬ image.samples 0 x y > host.Mean image) := by
  have hpos : ∀ x y, x < image.width → y < image.height →
      image.samples 0 x y > host.Mean image → 0 < host.StdDev image := by
    intro x y hx hy hgt
    have hv := populationVariance_pos image x y hx hy (by rw [← hM]; exact ne_of_gt hgt)
    rcases eq_or_lt_of_le hS0 with h0 | h0
    · rw [hS h0.symm] at hv
      exact absurd hv (lt_irrefl 0)
    · exact h0
  have hT : ∀ d ∈ expectedDivisors (host.Mean image) (host.StdDev image)
      (rasterSamples image), d = host.StdDev image ∧ 0 < d := by
    intro d hd
    unfold expectedDivisors at hd
    obtain ⟨v, hv, hdv⟩ := List.mem_flatMap.1 hd
    unfold rasterSamples at hv
    obtain ⟨y, hy, hvy⟩ := List.mem_flatMap.1 hv
    obtain ⟨x, hx, rfl⟩ := List.mem_map.1 hvy
    by_cases hm : image.samples 0 x y > host.Mean image
    · rw [if_pos hm] at hdv
      rw [List.mem_singleton.1 hdv]
      exact ⟨rfl, hpos x y (List.mem_range.1 hx) (List.mem_range.1 hy) hm⟩
    · rw [if_neg hm] at hdv
      exact absurd hdv (List.not_mem_nil d)
  refine ⟨hpos, ?_, ?_⟩
  · obtain ⟨out, hst⟩ := applyEnhancementsTraced_eq host p image hN
    refine ⟨out, _, hst, ?_, rfl, fun d hd => ⟨(hT d hd).1, ne_of_gt (hT d hd).2⟩, ?_⟩
    · rw [← applyEnhancementsTraced_erase, hst]
      rfl
    · intro hzero
      rcases List.eq_nil_or_concat (expectedDivisors (host.Mean image) (host.StdDev image)
        (rasterSamples image)) with h | ⟨l, d, h⟩
      · exact h
      · have hd := hT d (by rw [h]; simp)
        rw [hd.1, hzero] at hd
        exact absurd hd.2 (lt_irrefl 0)
  · intro hzero x y hx hy hgt
    have := hpos x y hx hy hgt
    rw [hzero] at this
    exact lt_irrefl _ this

/-- Witness for C29: on the checkerboard (mean `1/4`, `stddev = 1/4`) the
division is executed for the eight samples `1/2`, each time with the divisor
`1/4`; on the flat raster of value `1/2` (`stddev = 0`, two workers) no
division is executed. -/
theorem enhancement_never_divides_by_zero_witness :
    (∃ out divisors,
      ApplyEnhancementsTraced checkerHost checkerProcess checkerRaster = .ok (out, divisors) ∧
      ApplyEnhancements checkerHost checkerProcess checkerRaster = .ok out ∧
      divisors = [1/4, 1/4, 1/4, 1/4, 1/4, 1/4, 1/4, 1/4]) ∧
    (∃ out,
      ApplyEnhancementsTraced flatHost checkerProcess (constantRaster 3 3 (1/2)) = .ok (out, []) ∧
      ApplyEnhancements flatHost checkerProcess (constantRaster 3 3 (1/2)) = .ok out) := by
  constructor
  · obtain ⟨out, divisors, h1, h2, h3, _, _⟩ :=
      (enhancement_never_divides_by_zero checkerHost checkerProcess checkerRaster (by decide)
        populationMean_checker (by norm_num [checkerHost])
        (by norm_num [checkerHost])).2.1
    refine ⟨out, divisors, h1, h2, ?_⟩
    rw [h3, rasterSamples_checker]
    norm_num [expectedDivisors, checkerHost]
  · obtain ⟨out, divisors, h1, h2, _, _, h5⟩ :=
      (enhancement_never_divides_by_zero flatHost checkerProcess (constantRaster 3 3 (1/2))
        (by decide) populationMean_flat (by norm_num [flatHost])
        (fun _ => by
          rw [← populationVariance_flat]
          norm_num [flatHost])).2.1
    rw [h5 rfl] at h1
    exact ⟨out, h1, h2⟩

/-! ## Standard conversion with rounded arithmetic -/

/-- `Execute` is its control flow around `convert` and `postProcess`. -/
theorem execute_eq_executeWith (host : Host) (p : RGBToHAProcess) :
    Execute host p = ExecuteWith (convert host p) (postProcess host p) p := rfl

/-- With exact arithmetic the rounded conversion is the conversion. -/
theorem convertStandardRounded_id (host : Host) (p : RGBToHAProcess)
    (red green blue output : ImageVariant) :
    ConvertStandardRGBToHARounded (fun x => x) host p red green blue output
      = ConvertStandardRGBToHA host p red green blue output := rfl

theorem IsRounding.zero {fl : ℚ → ℚ} {u : ℚ} (h : IsRounding fl u) : fl 0 = 0 := by
  have := h.2.2.1 0
  simpa using this

/-- With exact arithmetic the rounded weight, accumulation and pass are those
of the exact model. -/
theorem applyNoiseReductionRounded_id (host : Host) (p : RGBToHAProcess)
    (image : ImageVariant) :
    ApplyNoiseReductionRounded (fun x => x) host p image = ApplyNoiseReduction host p image :=
  rfl

end RGBToHA
